import Mathlib

/-!
# k8s-tew: asset registry, template expansion and registries

A shallow embedding of `config/internal_config.go` and `config/config.go`.

* Go strings are Lean `String`s; the scanners work on their character lists.
* A Go `map[string]T` is an association list with unique keys.  The order of the list is the
  order in which a `for ... range` loop over the map visits the entries in the run at hand; Go
  leaves that order unspecified, so a property that must not depend on it is stated for every
  reordering of the list.
* `log.Fatal` ends the process; a call that reaches it yields a `Stop.fatal...` outcome.
* `ApplyTemplate` and `GetRelativeAssetFilename` call each other without bound in Go; the
  embedding counts the nesting of `ApplyTemplate` calls with a fuel argument.
-/

set_option autoImplicit false

namespace K8sTew

/-! ## Package `path` of the Go standard library -/

namespace path

/-- The elements of a path between its slashes (`"a//b"` has the elements `a`, the empty one and `b`). -/
def splitSlash : List Char → List (List Char)
  | [] => [[]]
  | c :: cs =>
    if c = '/' then [] :: splitSlash cs
    else
      match splitSlash cs with
      | [] => [[c]]
      | seg :: rest => (c :: seg) :: rest

/-- One element of the path processed by `Clean`; `stack` holds the elements kept so far, the
last one first.  Empty elements and `.` are dropped, `..` removes the element before it, stays
when there is none to remove in a relative path and is dropped at the root. -/
def cleanStep (rooted : Bool) (stack : List (List Char)) (elem : List Char) : List (List Char) :=
  if elem = [] ∨ elem = ['.'] then stack
  else if elem = ['.', '.'] then
    match stack with
    | top :: rest => if top = ['.', '.'] then elem :: stack else rest
    | [] => if rooted then [] else [elem]
  else elem :: stack

/-- The elements put together again with one slash between neighbours. -/
def joinSlash : List (List Char) → List Char
  | [] => []
  | [elem] => elem
  | elem :: rest => elem ++ '/' :: joinSlash rest

/-- An element that `Clean` keeps when it meets it: not empty and not `.`. -/
def isName (elem : List Char) : Bool := !(decide (elem = []) || decide (elem = ['.']))

/-- Whether the path has an element `..`. -/
def hasDotDot (p : String) : Bool := (splitSlash p.data).contains ['.', '.']

/-- Go `path.Clean` on character lists. -/
def cleanChars (p : List Char) : List Char :=
  let rooted := p.head? == some '/'
  let stack := (splitSlash p).foldl (cleanStep rooted) []
  let body := joinSlash stack.reverse
  if rooted then '/' :: body
  else if body = [] then ['.'] else body

/-- Go `path.Clean`: the shortest path equivalent to `p` by purely lexical processing. -/
def Clean (p : String) : String := String.mk (cleanChars p.data)

/-- Go `path.Join`: the elements from the first non-empty one on are joined with slashes and the
result is cleaned; with no non-empty element the result is the empty string. -/
def Join (elem : List String) : String :=
  match elem.dropWhile (fun e => e == "") with
  | [] => ""
  | es => Clean (String.intercalate "/" es)

end path

/-! ## Data model (`config.go` and the declarations it refers to) -/

/-- A Go `map[string]T`: association list with unique keys, in iteration order. -/
abbrev GoMap (α : Type) := List (String × α)

namespace GoMap

/-- The lookup `m[key]` with its `ok` flag. -/
def get? {α : Type} (m : GoMap α) (key : String) : Option α := List.lookup key m

/-- The assignment `m[key] = value`: the entry of an existing key is replaced, a new key is added. -/
def set {α : Type} : GoMap α → String → α → GoMap α
  | [], key, value => [(key, value)]
  | (k, v) :: rest, key, value =>
    if k = key then (key, value) :: rest else (k, v) :: set rest key value

/-- The builtin `delete(m, key)`: no entry of that key remains. -/
def delete {α : Type} (m : GoMap α) (key : String) : GoMap α :=
  m.filter fun kv => !(kv.1 == key)

end GoMap

/-! ## Package `strings` of the Go standard library -/

namespace strings

/-- Go `strings.Trim`: `s` without its leading and trailing characters that are in `cutset`. -/
def Trim (s : String) (cutset : String) : String :=
  String.mk
    (((s.data.dropWhile fun c => cutset.data.contains c).reverse.dropWhile
      fun c => cutset.data.contains c).reverse)

end strings

/-- The constants of package `utils` used by the embedded functions.  Their declarations are not
part of the available sources, so they are parameters of the embedding: the role labels, the
logical names of the asset directories and files, the path elements of the directories, and the
defaults of `NewConfig`. -/
structure Utils where
  NODE_CONTROLLER : String
  LOGGING_DIRECTORY : String
  ADMIN_KEY_PEM : String
  ADMIN_KUBECONFIG : String
  ADMIN_PEM : String
  API_SERVER_PORT : Nat
  AUDIT_LOG : String
  BINARIES_DIRECTORY : String
  BINARY_SUBDIRECTORY : String
  BRIDGE_BINARY : String
  CA_KEY_PEM : String
  CA_PEM : String
  CERTIFICATES_DIRECTORY : String
  CERTIFICATES_SUBDIRECTORY : String
  CLUSTER_CIDR : String
  CLUSTER_DNS_IP : String
  CLUSTER_IP_RANGE : String
  CNI_BINARIES_DIRECTORY : String
  CNI_CONFIG : String
  CNI_CONFIG_DIRECTORY : String
  CNI_SUBDIRECTORY : String
  CONFIG_DIRECTORY : String
  CONFIG_FILENAME : String
  CONFIG_SUBDIRECTORY : String
  CONFIG_VERSION : String
  CONTAINERD_BINARY : String
  CONTAINERD_CONFIG : String
  CONTAINERD_DATA_DIRECTORY : String
  CONTAINERD_SHIM_BINARY : String
  CONTAINERD_SOCK : String
  CONTAINERD_STATE_DIRECTORY : String
  CONTAINERD_SUBDIRECTORY : String
  CONTROLLER_MANAGER_KEY_PEM : String
  CONTROLLER_MANAGER_KUBECONFIG : String
  CONTROLLER_MANAGER_PEM : String
  CRICTL_BINARY : String
  CRI_BINARIES_DIRECTORY : String
  CRI_CONFIG_DIRECTORY : String
  CRI_SUBDIRECTORY : String
  CTR_BINARY : String
  DYNAMIC_DATA_DIRECTORY : String
  ENCRYPTION_CONFIG : String
  ETCDCTL_BINARY : String
  ETCD_BINARIES_DIRECTORY : String
  ETCD_BINARY : String
  ETCD_DATA_DIRECTORY : String
  ETCD_SUBDIRECTORY : String
  FLANNELD_BINARY : String
  FLANNELD_KEY_PEM : String
  FLANNELD_PEM : String
  FLANNEL_BINARY : String
  GOBETWEEN_BINARIES_DIRECTORY : String
  GOBETWEEN_BINARY : String
  GOBETWEEN_CONFIG : String
  GOBETWEEN_CONFIG_DIRECTORY : String
  HELM_BINARY : String
  HELM_DATA_DIRECTORY : String
  HELM_SERVICE_ACCOUNT : String
  HELM_SUBDIRECTORY : String
  HOST_LOCAL_BINARY : String
  K8S_ADMIN_USER_SETUP : String
  K8S_BINARIES_DIRECTORY : String
  K8S_CONFIG_DIRECTORY : String
  K8S_HELM_USER_SETUP : String
  K8S_KUBELET_CONFIG : String
  K8S_KUBELET_SETUP : String
  K8S_KUBE_CONFIG_DIRECTORY : String
  K8S_KUBE_SCHEDULER_CONFIG : String
  K8S_MANIFESTS_DIRECTORY : String
  K8S_SECURITY_CONFIG_DIRECTORY : String
  K8S_SETUP_CONFIG_DIRECTORY : String
  K8S_SUBDIRECTORY : String
  K8S_TEW_BINARY : String
  K8S_TEW_PROFILE : String
  K8S_TEW_SUBDIRECTORY : String
  KUBECONFIG_SUBDIRECTORY : String
  KUBECTL_BINARY : String
  KUBELET_BINARY : String
  KUBELET_DATA_DIRECTORY : String
  KUBELET_KEY_PEM : String
  KUBELET_KUBECONFIG : String
  KUBELET_PEM : String
  KUBELET_SUBDIRECTORY : String
  KUBERNETES_KEY_PEM : String
  KUBERNETES_PEM : String
  KUBE_APISERVER_BINARY : String
  KUBE_CONTROLLER_MANAGER_BINARY : String
  KUBE_PROXY_BINARY : String
  KUBE_SCHEDULER_BINARY : String
  LIBRARY_SUBDIRECTORY : String
  LOAD_BALANCER_PORT : Nat
  LOAD_BALANCER_SUBDIRECTORY : String
  LOGGING_SUBDIRECTORY : String
  LOOPBACK_BINARY : String
  MANIFESTS_SUBDIRECTORY : String
  NET_CONFIG : String
  NODE_BOOTSTRAPPER : String
  NODE_WORKER : String
  OPTIONAL_SUBDIRECTORY : String
  PROFILE_DIRECTORY : String
  PROFILE_D_SUBDIRECTORY : String
  PROXY_KEY_PEM : String
  PROXY_KUBECONFIG : String
  PROXY_PEM : String
  RESOLV_CONF : String
  RUNC_BINARY : String
  RUN_SUBDIRECTORY : String
  SCHEDULER_KEY_PEM : String
  SCHEDULER_KUBECONFIG : String
  SCHEDULER_PEM : String
  SECURITY_SUBDIRECTORY : String
  SERVICE_ACCOUNT_KEY_PEM : String
  SERVICE_ACCOUNT_PEM : String
  SERVICE_CONFIG : String
  SERVICE_DIRECTORY : String
  SETUP_SUBDIRECTORY : String
  SYSTEMD_SUBDIRECTORY : String
  SYSTEM_SUBDIRECTORY : String
  TEMPORARY_DIRECTORY : String
  TEMPORARY_SUBDIRECTORY : String
  VARIABLE_SUBDIRECTORY : String
  VIRTUAL_IP_KEY_PEM : String
  VIRTUAL_IP_PEM : String

abbrev Labels := List String

/-- Modelled from the spec: the type `Node` is declared outside the available sources; it has an
ip, an ordinal index and a set of role labels, as `NewNode(ip, index, labels)` and the uses
`node.IP`, `node.Index`, `node.Labels` show. -/
structure Node where
  IP : String
  Index : Nat
  Labels : Labels
  deriving DecidableEq, Repr

/-- Modelled from the spec: `NewNode` is declared outside the available sources; it stores its
arguments. -/
def NewNode (ip : String) (index : Nat) (labels : Labels) : Node := ⟨ip, index, labels⟩

/-- Modelled from the spec: `IsController` is declared outside the available sources; a node is a
controller when it carries the Controller role label. -/
def Node.IsController (utils : Utils) (node : Node) : Bool :=
  node.Labels.contains utils.NODE_CONTROLLER

/-- Modelled from the spec: the type `AssetDirectory` is declared outside the available sources;
it has a relative path (`Directory`) and role labels. -/
structure AssetDirectory where
  Labels : Labels
  Directory : String
  deriving DecidableEq, Repr

/-- Modelled from the spec: the type `AssetFile` is declared outside the available sources; it
names its owner directory (`Directory`) and has role labels. -/
structure AssetFile where
  Labels : Labels
  Directory : String
  deriving DecidableEq, Repr

/-- Modelled from the spec: `NewAssetDirectory` stores its arguments. -/
def NewAssetDirectory (labels : Labels) (directory : String) : AssetDirectory := ⟨labels, directory⟩

/-- Modelled from the spec: `NewAssetFile` stores its arguments. -/
def NewAssetFile (labels : Labels) (directory : String) : AssetFile := ⟨labels, directory⟩

structure AssetConfig where
  Directories : GoMap AssetDirectory
  Files : GoMap AssetFile
  deriving DecidableEq, Repr

/-- Modelled from the spec: the type `Command` is declared outside the available sources; it has a
name, role labels and a shell command. -/
structure Command where
  Name : String
  Labels : Labels
  Command : String
  deriving DecidableEq, Repr

/-- Modelled from the spec: `NewCommand` stores its arguments. -/
def NewCommand (name : String) (labels : Labels) (command : String) : Command :=
  ⟨name, labels, command⟩

/-- Modelled from the spec: the type `LoggerConfig` is declared outside the available sources; the
composite literal in `addServer` gives its fields. -/
structure LoggerConfig where
  Enabled : Bool
  Filename : String
  deriving DecidableEq, Repr

/-- Modelled from the spec: the type `ServerConfig` is declared outside the available sources; the
composite literal in `addServer` gives its fields. -/
structure ServerConfig where
  Name : String
  Labels : Labels
  Command : String
  Arguments : GoMap String
  Logger : LoggerConfig
  deriving DecidableEq, Repr

/-- The struct `Config` of `config.go`. -/
structure Config where
  Version : String
  LoadBalancerPort : Nat
  APIServerPort : Nat
  ControllerVirtualIP : String
  ControllerVirtualIPInterface : String
  WorkerVirtualIP : String
  WorkerVirtualIPInterface : String
  ClusterIPRange : String
  ClusterDNSIP : String
  ClusterCIDR : String
  ResolvConf : String
  DeploymentDirectory : String
  Assets : AssetConfig
  Nodes : GoMap Node
  Commands : List Command
  Servers : List ServerConfig
  deriving DecidableEq, Repr

/-- The struct `InternalConfig`; `Node` is a pointer that may be nil. -/
structure InternalConfig where
  BaseDirectory : String
  Name : String
  Node : Option Node
  Config : Config
  deriving DecidableEq, Repr

/-! ## Outcomes -/

/-- The errors that template parsing and execution return in the modelled fragment. -/
inductive TemplateError where
  /-- The input ends inside an action: after a left delimiter no right delimiter follows. -/
  | unclosedAction
  /-- Parsing: an action names a function that the function map does not define. -/
  | undefinedFunction (name : String)
  /-- Execution: a function is called with the wrong number of arguments. -/
  | wrongArgumentCount (name : String)
  /-- Execution: a field of the nil pointer `Node` is evaluated. -/
  | nilPointer (field : String)
  /-- Execution: the data has no field or method of that name that a template can reach. -/
  | missingField (name : String)
  deriving DecidableEq, Repr

/-- The ways in which a call does not return a string. -/
inductive Stop where
  /-- The Go function returned a non-nil error. -/
  | error (e : TemplateError)
  /-- The process ended in `log.Fatal("missing asset file")` with the field `name`. -/
  | fatalMissingAssetFile (name : String)
  /-- The process ended in `log.Fatal("missing asset directory")` with the field `name`. -/
  | fatalMissingAssetDirectory (name : String)
  /-- The process ended in `log.Fatal("asset file expansion")` with the fields `name`, `error`. -/
  | fatalAssetFileExpansion (name : String) (error : TemplateError)
  /-- The nesting of `ApplyTemplate` calls exceeds the fuel given to the embedding. -/
  | outOfFuel
  /-- The template lies outside the fragment of `html/template` that the embedding covers. -/
  | unsupported
  deriving DecidableEq, Repr

deriving instance DecidableEq for Except

/-! ## Package `html/template` of the Go standard library, on the fragment the program uses

Covered are templates made of text without `<` and of actions of three shapes: a field chain
`{{.A.B}}`, a call of a function without arguments `{{f}}` and a call with one double-quoted
string literal without escape sequences `{{f "text"}}`, each with optional blanks inside the
delimiters.  On this fragment every action stands in HTML text context, so its value passes
through the HTML escaper and text is copied as it is.  Everything else is `Stop.unsupported`,
except the inputs on which the Go package is known to fail. -/

namespace Template

/-- The replacement table of the HTML escaper of `html/template`. -/
def escapeRune (c : Char) : List Char :=
  if c = Char.ofNat 0 then [Char.ofNat 0xFFFD]
  else if c = '"' then "&#34;".data
  else if c = '&' then "&amp;".data
  else if c = '\'' then "&#39;".data
  else if c = '+' then "&#43;".data
  else if c = '<' then "&lt;".data
  else if c = '>' then "&gt;".data
  else [c]

/-- The HTML escaper applied to the value of an action in text context. -/
def HTMLEscape (s : String) : String := String.mk (s.data.flatMap escapeRune)

/-- No character of `s` is replaced by the HTML escaper. -/
def escapeFree (s : String) : Bool := s.data.all fun c => escapeRune c == [c]

/-- The string can stand between the quotes of a string literal in an action and denote itself:
it has no double quote, no backslash and no newline. -/
def literalSafe (s : String) : Bool := s.data.all fun c => !(c == '"' || c == '\\' || c == '\n')

/-- A name that no template can reach as a field or method: it starts with a lower-case letter
or an underscore, so it is not exported. -/
def isUnexported (name : String) : Bool :=
  match name.data.head? with
  | some c => c.isLower || c == '_'
  | none => false

/-- A parsed template: text and actions in order. -/
inductive Piece where
  | text (s : String)
  | field (chain : List String)
  | call (name : String) (args : List String)
  deriving DecidableEq, Repr

/-- An entry of the function map: `func() string` or `func(name string) string`. -/
inductive Func where
  | niladic (f : Unit → Except Stop String)
  | unary (f : String → Except Stop String)

/-- Go `template.FuncMap`, in the order of the composite literal. -/
abbrev FuncMap := List (String × Func)

/-- Whether the input contains the right delimiter `}}`. -/
def hasRightDelim : List Char → Bool
  | [] => false
  | c :: cs => (c == '}' && cs.head? == some '}') || hasRightDelim cs

/-- The text before the first left delimiter `{{` and, when there is one, the input after it. -/
def splitAtLeftDelim : List Char → List Char × Option (List Char)
  | [] => ([], none)
  | c :: cs =>
    if c = '{' ∧ cs.head? = some '{' then ([], some cs.tail)
    else let r := splitAtLeftDelim cs; (c :: r.1, r.2)

/-- The characters of an identifier: ASCII letters, digits and the underscore. -/
def isIdentChar (c : Char) : Bool := c.isAlphanum || c = '_'

/-- The longest prefix of identifier characters and the rest of the input. -/
def takeIdent : List Char → List Char × List Char
  | c :: cs => if isIdentChar c then let r := takeIdent cs; (c :: r.1, r.2) else ([], c :: cs)
  | [] => ([], [])

/-- The input without its leading blanks. -/
def skipSpaces : List Char → List Char
  | [] => []
  | c :: cs => if c = ' ' then skipSpaces cs else c :: cs

/-- The body of a double-quoted string literal, read after its opening quote, and the input after
the closing quote; `none` when a backslash, a newline or the end of the input comes first. -/
def takeLiteral : List Char → Option (List Char × List Char)
  | [] => none
  | c :: cs =>
    if c = '"' then some ([], cs)
    else if c = '\\' ∨ c = '\n' then none
    else (takeLiteral cs).map (fun r => (c :: r.1, r.2))

/-- A field chain `.A.B` read after its first dot has been seen: the names and the rest. -/
def takeChain : Nat → List Char → Option (List String × List Char)
  | 0, _ => none
  | fuel + 1, cs =>
    match cs with
    | '.' :: rest =>
      let r := takeIdent rest
      if r.1 = [] then none
      else
        match r.2 with
        | '.' :: _ => (takeChain fuel r.2).map (fun t => (String.mk r.1 :: t.1, t.2))
        | _ => some ([String.mk r.1], r.2)
    | _ => none

/-- The words that an action cannot use as the name of a function of the function map: the
keywords, the constants and the predefined functions of the template language, and the names
that start with an underscore. -/
def isReserved (name : String) : Bool :=
  name.data.head? == some '_' ||
  ["if", "else", "end", "range", "with", "define", "template", "block", "nil", "true", "false",
   "break", "continue", "and", "or", "not", "call", "html", "index", "slice", "js", "len",
   "print", "printf", "println", "urlquery", "eq", "ne", "lt", "le", "gt", "ge"].contains name

/-- The end of an action: optional blanks and the right delimiter. -/
def closeAction (piece : Piece) (cs : List Char) : Except Stop (Piece × List Char) :=
  match skipSpaces cs with
  | '}' :: '}' :: rest => .ok (piece, rest)
  | _ => .error .unsupported

/-- A call: the function must be defined when the template is parsed. -/
def checkFunction (defined : List String) (name : String) (piece : Piece) (cs : List Char) :
    Except Stop (Piece × List Char) :=
  if isReserved name then .error .unsupported
  else if defined.contains name then closeAction piece cs
  else .error (.error (.undefinedFunction name))

/-- One action, read after its left delimiter. -/
def parseAction (defined : List String) (input : List Char) : Except Stop (Piece × List Char) :=
  if !hasRightDelim input then .error (.error .unclosedAction)
  else
    match skipSpaces input with
    | '.' :: rest =>
      match takeChain (rest.length + 1) ('.' :: rest) with
      | some (chain, cs) => closeAction (.field chain) cs
      | none => .error .unsupported
    | c :: rest =>
      if c.isAlpha then
        let r := takeIdent (c :: rest)
        let name := String.mk r.1
        if (r.2.head?.map fun next => decide (128 ≤ next.toNat)) == some true then
          .error .unsupported
        else
        match skipSpaces r.2 with
        | '"' :: cs =>
          if r.2.head? == some ' ' then
            match takeLiteral cs with
            | some (lit, cs1) => checkFunction defined name (.call name [String.mk lit]) cs1
            | none => .error .unsupported
          else .error .unsupported
        | _ => checkFunction defined name (.call name []) r.2
      else .error .unsupported
    | [] => .error .unsupported

/-- The pieces of a template; the fuel bounds the number of actions. -/
def parsePieces (defined : List String) : Nat → List Char → Except Stop (List Piece)
  | 0, _ => .error .unsupported
  | fuel + 1, input =>
    let r := splitAtLeftDelim input
    if r.1.contains '<' then .error .unsupported
    else
      match r.2 with
      | none => .ok [.text (String.mk r.1)]
      | some rest =>
        match parseAction defined rest with
        | .error e => .error e
        | .ok (piece, rest1) =>
          match parsePieces defined fuel rest1 with
          | .error e => .error e
          | .ok pieces => .ok (.text (String.mk r.1) :: piece :: pieces)

/-- Text without a left brace and without `<`. -/
def isBraceFree (text : String) : Bool := text.data.all fun c => !(c == '{' || c == '<')

/-- The template has no action and no `<`: it is plain text. -/
def isPlainText (value : String) : Bool :=
  (splitAtLeftDelim value.data).2.isNone && !value.data.contains '<'

/-- `template.New(label).Funcs(functions).Parse(value)` on the fragment. -/
def Parse (functions : FuncMap) (value : String) : Except Stop (List Piece) :=
  parsePieces (functions.map Prod.fst) (value.length + 1) value.data

/-- The output of one piece: text as it is, the value of an action through the HTML escaper. -/
def executePiece (functions : FuncMap) (fields : List String → Except Stop String) :
    Piece → Except Stop String
  | .text s => .ok s
  | .field chain => (fields chain).map HTMLEscape
  | .call name args =>
    match List.lookup name functions, args with
    | some (.niladic f), [] => (f ()).map HTMLEscape
    | some (.unary f), [a] => (f a).map HTMLEscape
    | some _, _ => .error (.error (.wrongArgumentCount name))
    | none, _ => .error (.error (.undefinedFunction name))

/-- `Execute`: the outputs of the pieces in order; the first piece that fails ends the run. -/
def Execute (functions : FuncMap) (fields : List String → Except Stop String) :
    List Piece → Except Stop String
  | [] => .ok ""
  | p :: ps =>
    match executePiece functions fields p with
    | .error e => .error e
    | .ok s =>
      match Execute functions fields ps with
      | .error e => .error e
      | .ok t => .ok (s ++ t)

end Template

/-! ## `internal_config.go` -/

namespace InternalConfig

/-- `GetTemplateAssetFilename`: `fmt.Sprintf` puts the name between the quotes of
`{{asset_file "%s"}}` as it is (the braces are written as `\x7b` and `\x7d`). -/
def GetTemplateAssetFilename (name : String) : String :=
  "\x7b\x7basset_file \"" ++ name ++ "\"\x7d\x7d"

/-- `GetTemplateAssetDirectory`: `fmt.Sprintf` puts the name between the quotes of
`{{asset_directory "%s"}}` as it is. -/
def GetTemplateAssetDirectory (name : String) : String :=
  "\x7b\x7basset_directory \"" ++ name ++ "\"\x7d\x7d"

/-- `GetRelativeAssetDirectory`: the stored path of a registered directory, the fatal exit
"missing asset directory" otherwise. -/
def GetRelativeAssetDirectory (config : InternalConfig) (name : String) : Except Stop String :=
  match config.Config.Assets.Directories.get? name with
  | none => .error (.fatalMissingAssetDirectory name)
  | some result => .ok result.Directory

/-- `GetFullLocalAssetDirectory`. -/
def GetFullLocalAssetDirectory (config : InternalConfig) (name : String) : Except Stop String :=
  (GetRelativeAssetDirectory config name).map fun relative =>
    path.Join [config.BaseDirectory, relative]

/-- `GetFullTargetAssetDirectory`. -/
def GetFullTargetAssetDirectory (config : InternalConfig) (name : String) : Except Stop String :=
  (GetRelativeAssetDirectory config name).map fun relative =>
    path.Join [config.Config.DeploymentDirectory, relative]

/-- The body of `GetRelativeAssetFilename`, with the method `config.ApplyTemplate` it calls passed
as `apply`.  An error returned by the expansion ends in the fatal exit "asset file expansion". -/
def relativeAssetFilename (apply : String → String → Except Stop String)
    (config : InternalConfig) (name : String) : Except Stop String :=
  match config.Config.Assets.Files.get? name with
  | none => .error (.fatalMissingAssetFile name)
  | some result =>
    match config.Config.Assets.Directories.get? result.Directory with
    | none => .error (.fatalMissingAssetDirectory name)
    | some directory =>
      let filename := path.Join [directory.Directory, name]
      match apply "asset-file" filename with
      | .error (.error error) => .error (.fatalAssetFileExpansion name error)
      | .error stop => .error stop
      | .ok resultFilename => .ok (path.Join ["/", resultFilename])

/-- `GetETCDClientEndpoints`: one endpoint per controller node, in the iteration order of the
node map. -/
def GetETCDClientEndpoints (utils : Utils) (config : InternalConfig) : List String :=
  config.Config.Nodes.foldl
    (fun result kv =>
      if kv.2.IsController utils then result ++ ["https://" ++ kv.2.IP ++ ":2379"] else result)
    []

/-- The value of a field chain that starts with an exported name.  Chains that end in a string
or an unsigned integer are covered; integers print in decimal. -/
def evalExported (config : InternalConfig) (chain : List String) : Except Stop String :=
  match chain with
  | ["BaseDirectory"] => .ok config.BaseDirectory
  | ["Name"] => .ok config.Name
  | ["Node", "IP"] =>
    match config.Node with
    | some node => .ok node.IP
    | none => .error (.error (.nilPointer "IP"))
  | ["Node", "Index"] =>
    match config.Node with
    | some node => .ok (toString node.Index)
    | none => .error (.error (.nilPointer "Index"))
  | ["Config", "Version"] => .ok config.Config.Version
  | ["Config", "LoadBalancerPort"] => .ok (toString config.Config.LoadBalancerPort)
  | ["Config", "APIServerPort"] => .ok (toString config.Config.APIServerPort)
  | ["Config", "ControllerVirtualIP"] => .ok config.Config.ControllerVirtualIP
  | ["Config", "ControllerVirtualIPInterface"] => .ok config.Config.ControllerVirtualIPInterface
  | ["Config", "WorkerVirtualIP"] => .ok config.Config.WorkerVirtualIP
  | ["Config", "WorkerVirtualIPInterface"] => .ok config.Config.WorkerVirtualIPInterface
  | ["Config", "ClusterIPRange"] => .ok config.Config.ClusterIPRange
  | ["Config", "ClusterDNSIP"] => .ok config.Config.ClusterDNSIP
  | ["Config", "ClusterCIDR"] => .ok config.Config.ClusterCIDR
  | ["Config", "ResolvConf"] => .ok config.Config.ResolvConf
  | ["Config", "DeploymentDirectory"] => .ok config.Config.DeploymentDirectory
  | ["Config", name] =>
    if Template.isUnexported name then .error (.error (.missingField name))
    else .error .unsupported
  | _ => .error .unsupported

/-- The value of a field chain evaluated on the template data, the `InternalConfig` itself.  A
name that is not exported is neither a field nor a method that a template can reach, so its
evaluation is an error. -/
def evalField (config : InternalConfig) (chain : List String) : Except Stop String :=
  match chain with
  | [] => .error .unsupported
  | name :: rest =>
    if Template.isUnexported name then .error (.error (.missingField name))
    else evalExported config (name :: rest)

/-- The names of the function map of `ApplyTemplate`. -/
def functionNames : List String :=
  ["controllers_count", "etcd_servers", "etcd_cluster", "asset_file", "asset_directory"]

/-- The closure `controllers_count` of `ApplyTemplate`. -/
def controllersCount (utils : Utils) (config : InternalConfig) : String :=
  toString (config.Config.Nodes.foldl
    (fun count kv => if kv.2.IsController utils then count + 1 else count) 0)

/-- The closure `etcd_servers` of `ApplyTemplate`. -/
def etcdServers (utils : Utils) (config : InternalConfig) : String :=
  (GetETCDClientEndpoints utils config).foldl
    (fun result endpoint =>
      (if result.length > 0 then result ++ "," else result) ++ endpoint)
    ""

/-- The closure `etcd_cluster` of `ApplyTemplate`. -/
def etcdCluster (utils : Utils) (config : InternalConfig) : String :=
  config.Config.Nodes.foldl
    (fun result kv =>
      if !kv.2.IsController utils then result
      else (if result.length > 0 then result ++ "," else result)
        ++ (kv.1 ++ "=https://" ++ kv.2.IP ++ ":2380"))
    ""

/-- `ApplyTemplate`: the function map, then parse and execute; a parse or execution error is
returned.  `fuel` bounds the nesting of `ApplyTemplate` calls: the closure `asset_file` reaches
`GetRelativeAssetFilename`, which expands a template again. -/
def ApplyTemplate (utils : Utils) (config : InternalConfig) :
    Nat → String → String → Except Stop String
  | 0, _, _ => .error .outOfFuel
  | fuel + 1, _, value =>
    let functions : Template.FuncMap := [
      ("controllers_count", .niladic fun _ => .ok (controllersCount utils config)),
      ("etcd_servers", .niladic fun _ => .ok (etcdServers utils config)),
      ("etcd_cluster", .niladic fun _ => .ok (etcdCluster utils config)),
      ("asset_file", .unary fun name =>
        (relativeAssetFilename (ApplyTemplate utils config fuel) config name).map fun relative =>
          path.Join [config.Config.DeploymentDirectory, relative]),
      ("asset_directory", .unary fun name => GetFullTargetAssetDirectory config name)]
    match Template.Parse functions value with
    | .error e => .error e
    | .ok template => Template.Execute functions (evalField config) template

/-- `GetRelativeAssetFilename`. -/
def GetRelativeAssetFilename (utils : Utils) (config : InternalConfig) (fuel : Nat)
    (name : String) : Except Stop String :=
  relativeAssetFilename (ApplyTemplate utils config fuel) config name

/-- `GetFullTargetAssetFilename`. -/
def GetFullTargetAssetFilename (utils : Utils) (config : InternalConfig) (fuel : Nat)
    (name : String) : Except Stop String :=
  (GetRelativeAssetFilename utils config fuel name).map fun relative =>
    path.Join [config.Config.DeploymentDirectory, relative]

/-- `GetFullLocalAssetFilename`. -/
def GetFullLocalAssetFilename (utils : Utils) (config : InternalConfig) (fuel : Nat)
    (name : String) : Except Stop String :=
  (GetRelativeAssetFilename utils config fuel name).map fun relative =>
    path.Join [config.BaseDirectory, relative]

/-- `addServer`: nothing happens when a server of that name is in the list; otherwise the server
is appended, with logging enabled and its log file under the logging directory. -/
def addServer (utils : Utils) (config : InternalConfig) (name : String) (labels : Labels)
    (command : String) (arguments : GoMap String) : InternalConfig :=
  if config.Config.Servers.any (fun server => server.Name == name) then config
  else
    { config with Config := { config.Config with
        Servers := config.Config.Servers ++ [
          { Name := name, Labels := labels, Command := command, Arguments := arguments,
            Logger := { Enabled := true,
                        Filename := path.Join [GetTemplateAssetDirectory utils.LOGGING_DIRECTORY,
                                               name ++ ".log"] } }] } }

/-- `addCommand`: nothing happens when a command of that name is in the list; otherwise the
command is appended. -/
def addCommand (config : InternalConfig) (name : String) (labels : Labels) (command : String) :
    InternalConfig :=
  if config.Config.Commands.any (fun command => command.Name == name) then config
  else
    { config with Config := { config.Config with
        Commands := config.Config.Commands ++ [NewCommand name labels command] } }

/-- `addAssetFile`: the map assignment `Files[name] = NewAssetFile(labels, _path)`. -/
def addAssetFile (config : InternalConfig) (name : String) (labels : Labels) (_path : String) :
    InternalConfig :=
  { config with Config := { config.Config with Assets := { config.Config.Assets with
      Files := config.Config.Assets.Files.set name (NewAssetFile labels _path) } } }

/-- `addAssetDirectory`: the map assignment `Directories[name] = NewAssetDirectory(labels, directory)`. -/
def addAssetDirectory (config : InternalConfig) (name : String) (labels : Labels)
    (directory : String) : InternalConfig :=
  { config with Config := { config.Config with Assets := { config.Config.Assets with
      Directories := config.Config.Assets.Directories.set name (NewAssetDirectory labels directory) } } }

end InternalConfig

/-! ## Concrete configurations used to evaluate the embedding -/

/-- Values for the constants of package `utils`. -/
def exampleUtils : Utils :=
  { NODE_CONTROLLER := "controller", LOGGING_DIRECTORY := "logging-directory",
    ADMIN_KEY_PEM := "admin-key.pem", ADMIN_KUBECONFIG := "admin.kubeconfig",
    ADMIN_PEM := "admin.pem", API_SERVER_PORT := 6443, AUDIT_LOG := "audit.log",
    BINARIES_DIRECTORY := "binaries-directory", BINARY_SUBDIRECTORY := "bin",
    BRIDGE_BINARY := "bridge", CA_KEY_PEM := "ca-key.pem", CA_PEM := "ca.pem",
    CERTIFICATES_DIRECTORY := "certificates-directory", CERTIFICATES_SUBDIRECTORY := "ssl",
    CLUSTER_CIDR := "10.200.0.0/16", CLUSTER_DNS_IP := "10.32.0.10",
    CLUSTER_IP_RANGE := "10.32.0.0/24", CNI_BINARIES_DIRECTORY := "cni-binaries-directory",
    CNI_CONFIG := "10-flannel.conf", CNI_CONFIG_DIRECTORY := "cni-config-directory",
    CNI_SUBDIRECTORY := "cni", CONFIG_DIRECTORY := "config-directory",
    CONFIG_FILENAME := "config.yaml", CONFIG_SUBDIRECTORY := "etc", CONFIG_VERSION := "2.0.0",
    CONTAINERD_BINARY := "containerd", CONTAINERD_CONFIG := "config.toml",
    CONTAINERD_DATA_DIRECTORY := "containerd-data-directory",
    CONTAINERD_SHIM_BINARY := "containerd-shim", CONTAINERD_SOCK := "containerd.sock",
    CONTAINERD_STATE_DIRECTORY := "containerd-state-directory",
    CONTAINERD_SUBDIRECTORY := "containerd",
    CONTROLLER_MANAGER_KEY_PEM := "controller-manager-key.pem",
    CONTROLLER_MANAGER_KUBECONFIG := "controller-manager.kubeconfig",
    CONTROLLER_MANAGER_PEM := "controller-manager.pem", CRICTL_BINARY := "crictl",
    CRI_BINARIES_DIRECTORY := "cri-binaries-directory",
    CRI_CONFIG_DIRECTORY := "cri-config-directory", CRI_SUBDIRECTORY := "cri",
    CTR_BINARY := "ctr", DYNAMIC_DATA_DIRECTORY := "dynamic-data-directory",
    ENCRYPTION_CONFIG := "encryption-config.yaml", ETCDCTL_BINARY := "etcdctl",
    ETCD_BINARIES_DIRECTORY := "etcd-binaries-directory", ETCD_BINARY := "etcd",
    ETCD_DATA_DIRECTORY := "etcd-data-directory", ETCD_SUBDIRECTORY := "etcd",
    FLANNELD_BINARY := "flanneld", FLANNELD_KEY_PEM := "flanneld-key.pem",
    FLANNELD_PEM := "flanneld.pem", FLANNEL_BINARY := "flannel",
    GOBETWEEN_BINARIES_DIRECTORY := "gobetween-binaries-directory",
    GOBETWEEN_BINARY := "gobetween", GOBETWEEN_CONFIG := "gobetween.toml",
    GOBETWEEN_CONFIG_DIRECTORY := "gobetween-config-directory", HELM_BINARY := "helm",
    HELM_DATA_DIRECTORY := "helm-data-directory", HELM_SERVICE_ACCOUNT := "tiller",
    HELM_SUBDIRECTORY := "helm", HOST_LOCAL_BINARY := "host-local",
    K8S_ADMIN_USER_SETUP := "admin-user-setup.yaml",
    K8S_BINARIES_DIRECTORY := "k8s-binaries-directory",
    K8S_CONFIG_DIRECTORY := "k8s-config-directory",
    K8S_HELM_USER_SETUP := "helm-user-setup.yaml", K8S_KUBELET_CONFIG := "kubelet-config.yaml",
    K8S_KUBELET_SETUP := "kubelet-setup.yaml",
    K8S_KUBE_CONFIG_DIRECTORY := "k8s-kube-config-directory",
    K8S_KUBE_SCHEDULER_CONFIG := "kube-scheduler-config.yaml",
    K8S_MANIFESTS_DIRECTORY := "k8s-manifests-directory",
    K8S_SECURITY_CONFIG_DIRECTORY := "k8s-security-config-directory",
    K8S_SETUP_CONFIG_DIRECTORY := "k8s-setup-config-directory", K8S_SUBDIRECTORY := "k8s",
    K8S_TEW_BINARY := "k8s-tew", K8S_TEW_PROFILE := "k8s-tew.sh",
    K8S_TEW_SUBDIRECTORY := "k8s-tew", KUBECONFIG_SUBDIRECTORY := "kubeconfig",
    KUBECTL_BINARY := "kubectl", KUBELET_BINARY := "kubelet",
    KUBELET_DATA_DIRECTORY := "kubelet-data-directory", KUBELET_KEY_PEM := "kubelet-key.pem",
    KUBELET_KUBECONFIG := "kubelet.kubeconfig", KUBELET_PEM := "kubelet.pem",
    KUBELET_SUBDIRECTORY := "kubelet", KUBERNETES_KEY_PEM := "kubernetes-key.pem",
    KUBERNETES_PEM := "kubernetes.pem", KUBE_APISERVER_BINARY := "kube-apiserver",
    KUBE_CONTROLLER_MANAGER_BINARY := "kube-controller-manager",
    KUBE_PROXY_BINARY := "kube-proxy", KUBE_SCHEDULER_BINARY := "kube-scheduler",
    LIBRARY_SUBDIRECTORY := "lib", LOAD_BALANCER_PORT := 16443,
    LOAD_BALANCER_SUBDIRECTORY := "lb", LOGGING_SUBDIRECTORY := "log",
    LOOPBACK_BINARY := "loopback", MANIFESTS_SUBDIRECTORY := "manifests",
    NET_CONFIG := "net-conf.json", NODE_BOOTSTRAPPER := "bootstrapper", NODE_WORKER := "worker",
    OPTIONAL_SUBDIRECTORY := "opt", PROFILE_DIRECTORY := "profile-directory",
    PROFILE_D_SUBDIRECTORY := "profile.d", PROXY_KEY_PEM := "proxy-key.pem",
    PROXY_KUBECONFIG := "proxy.kubeconfig", PROXY_PEM := "proxy.pem",
    RESOLV_CONF := "/etc/resolv.conf", RUNC_BINARY := "runc", RUN_SUBDIRECTORY := "run",
    SCHEDULER_KEY_PEM := "scheduler-key.pem", SCHEDULER_KUBECONFIG := "scheduler.kubeconfig",
    SCHEDULER_PEM := "scheduler.pem", SECURITY_SUBDIRECTORY := "security",
    SERVICE_ACCOUNT_KEY_PEM := "service-account-key.pem",
    SERVICE_ACCOUNT_PEM := "service-account.pem", SERVICE_CONFIG := "k8s-tew.service",
    SERVICE_DIRECTORY := "service-directory", SETUP_SUBDIRECTORY := "setup",
    SYSTEMD_SUBDIRECTORY := "systemd", SYSTEM_SUBDIRECTORY := "system",
    TEMPORARY_DIRECTORY := "temporary-directory", TEMPORARY_SUBDIRECTORY := "tmp",
    VARIABLE_SUBDIRECTORY := "var", VIRTUAL_IP_KEY_PEM := "virtual-ip-key.pem",
    VIRTUAL_IP_PEM := "virtual-ip.pem" }

/-- A configuration with the given registries and nodes and fixed values elsewhere. -/
def mkConfig (directories : GoMap AssetDirectory) (files : GoMap AssetFile) (nodes : GoMap Node)
    (commands : List Command) (servers : List ServerConfig) : InternalConfig :=
  { BaseDirectory := "/base", Name := "node1", Node := none,
    Config :=
      { Version := "1", LoadBalancerPort := 16443, APIServerPort := 6443,
        ControllerVirtualIP := "", ControllerVirtualIPInterface := "",
        WorkerVirtualIP := "", WorkerVirtualIPInterface := "",
        ClusterIPRange := "10.32.0.0/24", ClusterDNSIP := "10.32.0.10",
        ClusterCIDR := "10.200.0.0/16", ResolvConf := "/etc/resolv.conf",
        DeploymentDirectory := "/deploy",
        Assets := { Directories := directories, Files := files },
        Nodes := nodes, Commands := commands, Servers := servers } }

/-- A configuration with one server and one command registered. -/
def registeredConfig : InternalConfig :=
  mkConfig [] [] []
    [NewCommand "swapoff" ["worker"] "swapoff -a"]
    [{ Name := "etcd", Labels := ["controller"], Command := "/bin/etcd",
       Arguments := [("v", "0")], Logger := { Enabled := true, Filename := "/log/etcd.log" } }]

/-- A registry with the directories `bin` at `opt/bin`, `up` at `..` and `data` at
`var/{{.Name}}`, and with the files `etcd`, `a+b` and `{{` in `bin`, `f` in `up` and `orphan` in
a directory that is not registered. -/
def assetConfig : InternalConfig :=
  mkConfig
    [("bin", NewAssetDirectory [] "opt/bin"), ("up", NewAssetDirectory [] ".."),
     ("data", NewAssetDirectory [] "var/\x7b\x7b.Name\x7d\x7d")]
    [("etcd", NewAssetFile ["controller"] "bin"), ("a+b", NewAssetFile [] "bin"),
     ("\x7b\x7b", NewAssetFile [] "bin"), ("f", NewAssetFile [] "up"),
     ("orphan", NewAssetFile [] "lost")]
    [] [] []

/-- A registry with the logging directory of `exampleUtils` at `var/log/k8s-tew`, without servers
and commands. -/
def loggingConfig : InternalConfig :=
  mkConfig [("logging-directory", NewAssetDirectory [] "var/log/k8s-tew")] [] [] [] []

/-- The template `{{controllers_count}}`. -/
def controllersCountTemplate : String := "\x7b\x7bcontrollers_count\x7d\x7d"

/-- The template `{{etcd_cluster}}`. -/
def etcdClusterTemplate : String := "\x7b\x7betcd_cluster\x7d\x7d"

/-- The template `{{etcd_servers}}`. -/
def etcdServersTemplate : String := "\x7b\x7betcd_servers\x7d\x7d"

/-- The nodes `{ctrl1: 10.0.0.1 [Controller], work1: 10.0.0.2 [Worker]}`. -/
def twoNodes : GoMap Node :=
  [("ctrl1", NewNode "10.0.0.1" 0 ["controller"]), ("work1", NewNode "10.0.0.2" 1 ["worker"])]

/-- Two controller nodes, listed in the order of their names. -/
def twoControllers : GoMap Node :=
  [("ctrl1", NewNode "10.0.0.1" 0 ["controller"]), ("ctrl2", NewNode "10.0.0.2" 1 ["controller"])]

/-- A configuration with the given nodes and empty registries. -/
def nodesConfig (nodes : GoMap Node) : InternalConfig := mkConfig [] [] nodes [] []

/-! ## Notions used in the statements -/

/-- The configuration with its node map replaced by `nodes`, listed in iteration order. -/
def setNodes (config : InternalConfig) (nodes : GoMap Node) : InternalConfig :=
  { config with Config := { config.Config with Nodes := nodes } }

/-- The cluster entry `<nodeName>=https://<ip>:2380` of a node. -/
def clusterEntry (kv : String × Node) : String := kv.1 ++ "=https://" ++ kv.2.IP ++ ":2380"

/-- The client endpoint `https://<ip>:2379` of a node. -/
def clientEndpoint (kv : String × Node) : String := "https://" ++ kv.2.IP ++ ":2379"

/-- The entries of the map that carry the Controller role, in iteration order. -/
def controllers (utils : Utils) (nodes : GoMap Node) : GoMap Node :=
  nodes.filter fun kv => kv.2.IsController utils

/-! ## Nodes (`internal_config.go`)

A Go `error` is its message, `none` for `nil`.  The library function `net.ParseIP` is a parameter
`validIP` of `AddNode`: `validIP ip` says that `net.ParseIP(ip)` is not nil. -/

/-- `RemoveNode`: the error "node not found" when the name is not a key of the node map,
otherwise the key is deleted. -/
def InternalConfig.RemoveNode (config : InternalConfig) (name : String) :
    InternalConfig × Option String :=
  match config.Config.Nodes.get? name with
  | none => (config, some "node not found")
  | some _ => (setNodes config (config.Config.Nodes.delete name), none)

/-- `AddNode`: the name is trimmed of blanks and newlines; an empty name and an ip that does not
parse return an error and a nil node; otherwise the node is stored under the trimmed name and
the stored node is returned. -/
def InternalConfig.AddNode (validIP : String → Bool) (config : InternalConfig) (name ip : String)
    (index : Nat) (labels : Labels) : InternalConfig × Option K8sTew.Node × Option String :=
  let name := strings.Trim name " \n"
  if name.length = 0 then (config, none, some "empty node name")
  else if !validIP ip then (config, none, some "invalid or wrong ip format")
  else
    let config := setNodes config (config.Config.Nodes.set name (NewNode ip index labels))
    (config, config.Config.Nodes.get? name, none)

/-- The parts of a string between its dots. -/
def splitDots : List Char → List (List Char)
  | [] => [[]]
  | c :: cs =>
    if c = '.' then [] :: splitDots cs
    else
      match splitDots cs with
      | [] => [[c]]
      | field :: rest => (c :: field) :: rest

/-- An instance of the parameter `validIP` for evaluation: the dotted form of four decimal
numbers up to 255. -/
def dottedQuad (ip : String) : Bool :=
  let fields := splitDots ip.data
  fields.length == 4 &&
    fields.all fun field =>
      field.length != 0 && decide (field.length ≤ 3) && field.all Char.isDigit &&
        decide (field.foldl (fun n c => 10 * n + (c.toNat - 48)) 0 ≤ 255)

/-! ## `servers/server_wrapper.go` -/

/-- The struct `ServerWrapper`. -/
structure ServerWrapper where
  stop : Bool
  name : String
  baseDirectory : String
  command : List String
  logger : LoggerConfig
  deriving DecidableEq, Repr

/-- The loop of `NewServerWrapper` over the arguments map, in iteration order: an empty value
gives the token `--key`, another value is expanded under the label `name.key` and gives
`--key=value`; the first expansion that fails ends the loop. -/
def appendArguments (apply : String → String → Except Stop String) (name : String) :
    GoMap String → List String → Except Stop (List String)
  | [], command => .ok command
  | (key, value) :: rest, command =>
    if value.length = 0 then appendArguments apply name rest (command ++ ["--" ++ key])
    else
      match apply (name ++ "." ++ key) value with
      | .error error => .error error
      | .ok newValue =>
        appendArguments apply name rest (command ++ ["--" ++ key ++ "=" ++ newValue])

/-- `NewServerWrapper`: the command and the log file name are expanded, then the arguments; a
failed expansion returns its error and no server. -/
def NewServerWrapper (utils : Utils) (_config : InternalConfig) (fuel : Nat) (name : String)
    (serverConfig : ServerConfig) : Except Stop ServerWrapper :=
  match InternalConfig.ApplyTemplate utils _config fuel "command" serverConfig.Command with
  | .error error => .error error
  | .ok command =>
    match InternalConfig.ApplyTemplate utils _config fuel "LoggingDirectory"
        serverConfig.Logger.Filename with
    | .error error => .error error
    | .ok filename =>
      match appendArguments (InternalConfig.ApplyTemplate utils _config fuel) name
          serverConfig.Arguments [command] with
      | .error error => .error error
      | .ok argv =>
        .ok { stop := false, name := name, baseDirectory := _config.BaseDirectory,
              command := argv,
              logger := { Enabled := serverConfig.Logger.Enabled, Filename := filename } }

/-- The flag token of an entry of the arguments map whose value, when it is not empty, expands:
`--key` for an empty value and `--key=value` with the expanded value otherwise. -/
def flagToken (apply : String → String → Except Stop String) (name : String)
    (kv : String × String) : String :=
  if kv.2.length = 0 then "--" ++ kv.1
  else
    match apply (name ++ "." ++ kv.1) kv.2 with
    | .ok value => "--" ++ kv.1 ++ "=" ++ value
    | .error _ => "--" ++ kv.1 ++ "="

/-- The server descriptor with its arguments map in the given iteration order. -/
def ServerConfig.withArguments (serverConfig : ServerConfig) (arguments : GoMap String) :
    ServerConfig :=
  { serverConfig with Arguments := arguments }

/-- `Name`. -/
def ServerWrapper.Name (server : ServerWrapper) : String := server.name

/-- What exists while a server is supervised: the wrapper, the number of control loops that
`Start` has launched, and the command lines of the child processes that are running. -/
structure Supervision where
  server : ServerWrapper
  loops : Nat
  children : List (List String)
  deriving DecidableEq, Repr

/-- `Stop`: the assignment `server.stop = true`. -/
def Supervision.Stop (s : Supervision) : Supervision :=
  { s with server := { s.server with stop := true } }

/-- `Start`: the stop flag is cleared; with logging enabled the directory of the log file is
created, and the error of `utils.CreateDirectoryIfMissing`, given as `createDirectory`, is
returned; otherwise a control loop is launched. -/
def Supervision.Start (createDirectory : Option String) (s : Supervision) :
    Supervision × Option String :=
  let s1 : Supervision := { s with server := { s.server with stop := false } }
  match (if s1.server.logger.Enabled then createDirectory else none) with
  | some error => (s1, some error)
  | none => ({ s1 with loops := s1.loops + 1 }, none)

/-- A call of `Start`, with the outcome of its directory creation, or of `Stop`. -/
inductive Call where
  | start (createDirectory : Option String)
  | stop
  deriving DecidableEq, Repr

/-- The state after a sequence of `Start` and `Stop` calls. -/
def Supervision.run (s : Supervision) : List Call → Supervision
  | [] => s
  | .start createDirectory :: calls => ((s.Start createDirectory).1).run calls
  | .stop :: calls => s.Stop.run calls

/-! ## Package `sort` of the Go standard library -/

namespace sort

/-- The operator `<` of Go on strings, on character lists: the first position where the strings
differ decides, and a proper prefix is smaller.  Go compares bytes; for UTF-8 the order of the
bytes is the order of the characters. -/
def lessChars : List Char → List Char → Bool
  | _, [] => false
  | [], _ :: _ => true
  | a :: as, b :: bs => if a = b then lessChars as bs else decide (a < b)

/-- The operator `<` of Go on strings. -/
def less (a b : String) : Bool := lessChars a.data b.data

/-- Go `sort.Strings`: the strings in increasing order.  Equal strings cannot be told apart, so
the result does not depend on the sorting algorithm; insertion sort stands for it. -/
def Strings (xs : List String) : List String :=
  xs.insertionSort fun a b => less b a = false

end sort

/-- `GetSortedNodeKeys`: the keys of the node map, appended in iteration order and sorted. -/
def InternalConfig.GetSortedNodeKeys (config : InternalConfig) : List String :=
  sort.Strings (config.Config.Nodes.foldl (fun result kv => result ++ [kv.1]) [])

/-- The loop of `GetAPIServerIP` over the node map: the ip of the first controller met. -/
def InternalConfig.firstControllerIP (utils : Utils) : GoMap K8sTew.Node → Option String
  | [] => none
  | (_, node) :: rest =>
    if node.IsController utils then some node.IP else firstControllerIP utils rest

/-- `GetAPIServerIP`: the controller virtual ip when it is not empty, otherwise the ip of the
first controller node in iteration order, otherwise the error "No API Server IP found". -/
def InternalConfig.GetAPIServerIP (utils : Utils) (config : InternalConfig) :
    String × Option String :=
  if config.Config.ControllerVirtualIP.length > 0 then (config.Config.ControllerVirtualIP, none)
  else
    match InternalConfig.firstControllerIP utils config.Config.Nodes with
    | some ip => (ip, none)
    | none => ("", some "No API Server IP found")

/-- The nodes `work1`, `ctrl2` and `ctrl1`, in an iteration order that is not sorted. -/
def threeNodes : GoMap Node :=
  [("work1", NewNode "10.0.0.3" 2 ["worker"]), ("ctrl2", NewNode "10.0.0.2" 1 ["controller"]),
   ("ctrl1", NewNode "10.0.0.1" 0 ["controller"])]

/-- The configuration with its controller virtual ip replaced. -/
def setControllerVirtualIP (config : InternalConfig) (ip : String) : InternalConfig :=
  { config with Config := { config.Config with ControllerVirtualIP := ip } }

/-! ## The control loop of `Start` (`servers/server_wrapper.go`)

The goroutine that `Start` launches is embedded as a machine that goes from one program point to
the next.  The calls of `Start` and `Stop` and the steps of the loops are interleaved in a
schedule; a loop reads the stop flag where the source reads it, in the condition of the `for`
statement and before the message "server terminated".  A step holds at most one read of the
flag, with which it begins, so that a call of `Start` or `Stop` can stand between any read and
what the loop does after it; the statements of a step after its read touch nothing that `Start`
or `Stop` write.  The schedule also carries what the loop cannot decide itself: whether
`os.OpenFile` succeeds.  The second that `time.Sleep` waits is the event `sleep`. -/

/-- The program points at which a control loop stands between two steps. -/
inductive Point where
  /-- Before the condition `!server.stop` of the `for` statement. -/
  | head
  /-- In the body of the loop: the condition has been found true, and the message "starting
  server" is next. -/
  | entered
  /-- In `command.Run()`: the child process is running. -/
  | running
  /-- In `time.Sleep(time.Second)`. -/
  | sleeping
  /-- After the sleep, before the test `!server.stop` of the message "server terminated". -/
  | slept
  /-- The function literal has returned and its deferred calls have run. -/
  | returned
  deriving DecidableEq, Repr

/-- What a control loop does, as far as it can be observed. -/
inductive Event where
  /-- The message "starting server" with the command line. -/
  | startingServer (command : List String)
  /-- `os.OpenFile` returned a handle for the log file. -/
  | opened (filename : String)
  /-- `os.OpenFile` failed: the message "could no open file". -/
  | openFailed
  /-- `command.Run()` starts the child process with this argv. -/
  | run (argv : List String)
  /-- The child process has ended and `command.Run()` returns. -/
  | exited
  /-- `time.Sleep(time.Second)` has waited its second. -/
  | sleep
  /-- The message "server terminated". -/
  | serverTerminated
  /-- The deferred calls run at the return of the function literal and close that many log file
  handles. -/
  | closed (handles : Nat)
  deriving DecidableEq, Repr

/-- A control loop: its program point and the number of log file handles that it has opened and
not closed.  Every iteration that reaches `command.Run()` has deferred one call of `Close`; the
deferred calls run when the function literal returns. -/
structure Loop where
  point : Point
  handles : Nat
  deriving DecidableEq, Repr

/-- One step of a control loop, from its program point to the next one.  `openFile` tells whether
`os.OpenFile` succeeds if the step reaches it. -/
def Loop.step (server : ServerWrapper) (openFile : Bool) (loop : Loop) : Loop × List Event :=
  match loop.point with
  | .head =>
    if server.stop then ({ point := .returned, handles := 0 }, [.closed loop.handles])
    else ({ loop with point := .entered }, [])
  | .entered =>
    if server.logger.Enabled then
      if openFile then
        ({ point := .running, handles := loop.handles + 1 },
         [.startingServer server.command, .opened server.logger.Filename, .run server.command])
      else ({ loop with point := .head }, [.startingServer server.command, .openFailed])
    else ({ loop with point := .running }, [.startingServer server.command, .run server.command])
  | .running => ({ loop with point := .sleeping }, [.exited])
  | .sleeping => ({ loop with point := .slept }, [.sleep])
  | .slept => ({ loop with point := .head }, if server.stop then [] else [.serverTerminated])
  | .returned => (loop, [])

/-- A server under supervision: the wrapper, the control loops that `Start` has launched, the
oldest first, and the events of the loops so far, each with the number of its loop. -/
structure Supervisor where
  server : ServerWrapper
  loops : List Loop
  trace : List (Nat × Event)
  deriving DecidableEq, Repr

/-- `Start`: the stop flag is cleared; with logging enabled the directory of the log file is
created and the error of `utils.CreateDirectoryIfMissing`, given as `createDirectory`, is
returned; otherwise the `go` statement launches a control loop. -/
def Supervisor.Start (createDirectory : Option String) (s : Supervisor) :
    Supervisor × Option String :=
  let s1 : Supervisor := { s with server := { s.server with stop := false } }
  match (if s1.server.logger.Enabled then createDirectory else none) with
  | some error => (s1, some error)
  | none => ({ s1 with loops := s1.loops ++ [{ point := .head, handles := 0 }] }, none)

/-- `Stop`: the assignment `server.stop = true`. -/
def Supervisor.Stop (s : Supervisor) : Supervisor :=
  { s with server := { s.server with stop := true } }

/-- What can happen next: a call of `Start` or of `Stop`, or a step of the control loop with the
given number. -/
inductive Action where
  | start (createDirectory : Option String)
  | stop
  | step (loop : Nat) (openFile : Bool)
  deriving DecidableEq, Repr

/-- The loop with the given number takes a step; a number without a loop changes nothing. -/
def Supervisor.stepLoop (s : Supervisor) (index : Nat) (openFile : Bool) : Supervisor :=
  match s.loops.get? index with
  | none => s
  | some loop =>
    let r := loop.step s.server openFile
    { s with loops := s.loops.set index r.1, trace := s.trace ++ r.2.map fun e => (index, e) }

/-- One action of a schedule. -/
def Supervisor.act (s : Supervisor) : Action → Supervisor
  | .start createDirectory => (s.Start createDirectory).1
  | .stop => s.Stop
  | .step index openFile => s.stepLoop index openFile

/-- A schedule, action by action. -/
def Supervisor.exec (s : Supervisor) (schedule : List Action) : Supervisor :=
  schedule.foldl Supervisor.act s

/-- The supervisor of a wrapper that has not been started. -/
def Supervisor.idle (server : ServerWrapper) : Supervisor :=
  { server := server, loops := [], trace := [] }

/-- The control loops that have not returned. -/
def Supervisor.active (s : Supervisor) : List Loop :=
  s.loops.filter fun loop => loop.point != .returned

/-- The argv of the child processes that the loop with the given number has started, in order. -/
def spawns (trace : List (Nat × Event)) (index : Nat) : List (List String) :=
  trace.filterMap fun entry =>
    match entry with
    | (i, .run argv) => if i = index then some argv else none
    | _ => none

/-- The events of the loop with the given number, in order. -/
def eventsOf (trace : List (Nat × Event)) (index : Nat) : List Event :=
  trace.filterMap fun entry => if entry.1 = index then some entry.2 else none

/-- Whether the action is a call of `Start`. -/
def Action.isStart : Action → Bool
  | .start _ => true
  | _ => false

/-- Whether the action is a call of `Start` that launches a loop on this wrapper: the directory
of the log file is created or logging is disabled. -/
def Action.launches (server : ServerWrapper) : Action → Bool
  | .start createDirectory => !server.logger.Enabled || createDirectory.isNone
  | _ => false

/-- The wrapper of the server `etcd` with logging to `/log/etcd.log`. -/
def etcdWrapper : ServerWrapper :=
  { stop := false, name := "etcd", baseDirectory := "/base", command := ["/bin/etcd", "--v=0"],
    logger := { Enabled := true, Filename := "/log/etcd.log" } }

/-- The five steps of one iteration of the loop with the given number when all goes well: the
condition of the `for` statement is true, the log file opens and the child starts, the child
ends, the loop sleeps, and it comes back to the head of the `for` statement. -/
def iteration (index : Nat) : List Action :=
  [.step index true, .step index true, .step index true, .step index true, .step index true]

/-- The number of children that the loop with the given number can still start when the stop
flag is set and stays set: one if the loop stands in the body of the `for` statement, past the
condition and before `command.Run()`, and none otherwise. -/
def Supervisor.pending (s : Supervisor) (index : Nat) : Nat :=
  match s.loops.get? index with
  | some loop => if loop.point = .entered then 1 else 0
  | none => 0

/-! ## `Generate` and the registrations (`internal_config.go`, `config.go`)

The registration functions are sequences of calls of one shape.  Each sequence is embedded as
the table of its lines, in the order of the source, and a function that carries out the lines
one after the other.  A Go map literal is the list of its entries in the order of the source. -/

/-- `NewConfig` of `config.go`. -/
def NewConfig (utils : Utils) : Config :=
  { Version := utils.CONFIG_VERSION, LoadBalancerPort := utils.LOAD_BALANCER_PORT,
    APIServerPort := utils.API_SERVER_PORT,
    ControllerVirtualIP := "", ControllerVirtualIPInterface := "",
    WorkerVirtualIP := "", WorkerVirtualIPInterface := "",
    ClusterIPRange := utils.CLUSTER_IP_RANGE, ClusterDNSIP := utils.CLUSTER_DNS_IP,
    ClusterCIDR := utils.CLUSTER_CIDR, ResolvConf := utils.RESOLV_CONF,
    DeploymentDirectory := "",
    Assets := { Directories := [], Files := [] },
    Nodes := [], Commands := [], Servers := [] }

/-- `NewInternalConfig`: a fresh configuration with the given base directory. -/
def NewInternalConfig (utils : Utils) (baseDirectory : String) : InternalConfig :=
  { BaseDirectory := baseDirectory, Name := "", Node := none, Config := NewConfig utils }

/-- One line of `registerAssetDirectories`: the name and the labels of the directory and its
path, which is `path.Join` of the elements, preceded, when the line has a `parent`, by the path
that `GetRelativeAssetDirectory` returns for the parent. -/
structure DirectoryLine where
  name : String
  labels : Labels
  parent : Option String
  elems : List String
  deriving DecidableEq, Repr

namespace InternalConfig

/-- `SetNode`. -/
def SetNode (config : InternalConfig) (nodeName : String) (node : K8sTew.Node) : InternalConfig :=
  { config with Name := nodeName, Node := some node }

/-- `getRelativeConfigDirectory`. -/
def getRelativeConfigDirectory (utils : Utils) : String :=
  path.Join [utils.CONFIG_SUBDIRECTORY, utils.K8S_TEW_SUBDIRECTORY]

/-- The lines of `registerAssetDirectories`.  The first line takes its path from
`getRelativeConfigDirectory`, which joins the two elements given here. -/
def assetDirectoryLines (utils : Utils) : List DirectoryLine :=
  [{ name := utils.CONFIG_DIRECTORY, labels := [],
     parent := none,
     elems := [utils.CONFIG_SUBDIRECTORY, utils.K8S_TEW_SUBDIRECTORY] },
   { name := utils.CERTIFICATES_DIRECTORY, labels := [],
     parent := some utils.CONFIG_DIRECTORY,
     elems := [utils.CERTIFICATES_SUBDIRECTORY] },
   { name := utils.CNI_CONFIG_DIRECTORY, labels := [],
     parent := some utils.CONFIG_DIRECTORY,
     elems := [utils.CNI_SUBDIRECTORY] },
   { name := utils.CRI_CONFIG_DIRECTORY, labels := [],
     parent := some utils.CONFIG_DIRECTORY,
     elems := [utils.CRI_SUBDIRECTORY] },
   { name := utils.K8S_CONFIG_DIRECTORY, labels := [],
     parent := some utils.CONFIG_DIRECTORY,
     elems := [utils.K8S_SUBDIRECTORY] },
   { name := utils.K8S_KUBE_CONFIG_DIRECTORY, labels := [],
     parent := some utils.K8S_CONFIG_DIRECTORY,
     elems := [utils.KUBECONFIG_SUBDIRECTORY] },
   { name := utils.K8S_SECURITY_CONFIG_DIRECTORY, labels := [],
     parent := some utils.K8S_CONFIG_DIRECTORY,
     elems := [utils.SECURITY_SUBDIRECTORY] },
   { name := utils.K8S_SETUP_CONFIG_DIRECTORY, labels := [],
     parent := some utils.K8S_CONFIG_DIRECTORY,
     elems := [utils.SETUP_SUBDIRECTORY] },
   { name := utils.K8S_MANIFESTS_DIRECTORY, labels := [utils.NODE_WORKER],
     parent := some utils.K8S_CONFIG_DIRECTORY,
     elems := [utils.MANIFESTS_SUBDIRECTORY] },
   { name := utils.BINARIES_DIRECTORY, labels := [],
     parent := none,
     elems := [utils.OPTIONAL_SUBDIRECTORY, utils.K8S_TEW_SUBDIRECTORY, utils.BINARY_SUBDIRECTORY] },
   { name := utils.K8S_BINARIES_DIRECTORY, labels := [],
     parent := some utils.BINARIES_DIRECTORY,
     elems := [utils.K8S_SUBDIRECTORY] },
   { name := utils.ETCD_BINARIES_DIRECTORY, labels := [],
     parent := some utils.BINARIES_DIRECTORY,
     elems := [utils.ETCD_SUBDIRECTORY] },
   { name := utils.CRI_BINARIES_DIRECTORY, labels := [],
     parent := some utils.BINARIES_DIRECTORY,
     elems := [utils.CRI_SUBDIRECTORY] },
   { name := utils.CNI_BINARIES_DIRECTORY, labels := [],
     parent := some utils.BINARIES_DIRECTORY,
     elems := [utils.CNI_SUBDIRECTORY] },
   { name := utils.GOBETWEEN_BINARIES_DIRECTORY, labels := [],
     parent := some utils.BINARIES_DIRECTORY,
     elems := [utils.LOAD_BALANCER_SUBDIRECTORY] },
   { name := utils.GOBETWEEN_CONFIG_DIRECTORY, labels := [],
     parent := some utils.CONFIG_DIRECTORY,
     elems := [utils.LOAD_BALANCER_SUBDIRECTORY] },
   { name := utils.DYNAMIC_DATA_DIRECTORY, labels := [],
     parent := none,
     elems := [utils.VARIABLE_SUBDIRECTORY, utils.LIBRARY_SUBDIRECTORY, utils.K8S_TEW_SUBDIRECTORY] },
   { name := utils.ETCD_DATA_DIRECTORY, labels := [],
     parent := some utils.DYNAMIC_DATA_DIRECTORY,
     elems := [utils.ETCD_SUBDIRECTORY] },
   { name := utils.CONTAINERD_DATA_DIRECTORY, labels := [],
     parent := some utils.DYNAMIC_DATA_DIRECTORY,
     elems := [utils.CONTAINERD_SUBDIRECTORY] },
   { name := utils.KUBELET_DATA_DIRECTORY, labels := [],
     parent := some utils.DYNAMIC_DATA_DIRECTORY,
     elems := [utils.KUBELET_SUBDIRECTORY] },
   { name := utils.LOGGING_DIRECTORY, labels := [],
     parent := none,
     elems := [utils.VARIABLE_SUBDIRECTORY, utils.LOGGING_SUBDIRECTORY, utils.K8S_TEW_SUBDIRECTORY] },
   { name := utils.SERVICE_DIRECTORY, labels := [],
     parent := none,
     elems := [utils.CONFIG_SUBDIRECTORY, utils.SYSTEMD_SUBDIRECTORY, utils.SYSTEM_SUBDIRECTORY] },
   { name := utils.CONTAINERD_STATE_DIRECTORY, labels := [],
     parent := none,
     elems := [utils.VARIABLE_SUBDIRECTORY, utils.RUN_SUBDIRECTORY, utils.K8S_TEW_SUBDIRECTORY, utils.CONTAINERD_SUBDIRECTORY] },
   { name := utils.PROFILE_DIRECTORY, labels := [],
     parent := none,
     elems := [utils.CONFIG_SUBDIRECTORY, utils.PROFILE_D_SUBDIRECTORY] },
   { name := utils.HELM_DATA_DIRECTORY, labels := [],
     parent := some utils.DYNAMIC_DATA_DIRECTORY,
     elems := [utils.HELM_SUBDIRECTORY] },
   { name := utils.TEMPORARY_DIRECTORY, labels := [],
     parent := none,
     elems := [utils.TEMPORARY_SUBDIRECTORY] }]

/-- One line of `registerAssetDirectories` carried out: the arguments are evaluated, which ends
the process when the parent is not registered, and `addAssetDirectory` is called. -/
def registerAssetDirectory (config : InternalConfig) (line : DirectoryLine) :
    Except Stop InternalConfig :=
  match line.parent with
  | none => .ok (addAssetDirectory config line.name line.labels (path.Join line.elems))
  | some parent =>
    match GetRelativeAssetDirectory config parent with
    | .error stop => .error stop
    | .ok relative =>
      .ok (addAssetDirectory config line.name line.labels (path.Join (relative :: line.elems)))

/-- The lines carried out in order; the first one that ends the process ends the sequence. -/
def registerDirectoryLines : List DirectoryLine → InternalConfig → Except Stop InternalConfig
  | [], config => .ok config
  | line :: rest, config =>
    match registerAssetDirectory config line with
    | .error stop => .error stop
    | .ok next => registerDirectoryLines rest next

/-- `registerAssetDirectories`. -/
def registerAssetDirectories (utils : Utils) (config : InternalConfig) :
    Except Stop InternalConfig :=
  registerDirectoryLines (assetDirectoryLines utils) config

/-- The lines of `registerAssetFiles`: name, labels and owner directory. -/
def assetFileLines (utils : Utils) : List (String × Labels × String) :=
  [(utils.CONFIG_FILENAME, [utils.NODE_CONTROLLER, utils.NODE_WORKER], utils.CONFIG_DIRECTORY),
   (utils.K8S_TEW_BINARY, [utils.NODE_CONTROLLER, utils.NODE_WORKER], utils.BINARIES_DIRECTORY),
   (utils.BRIDGE_BINARY, [utils.NODE_WORKER], utils.CNI_BINARIES_DIRECTORY),
   (utils.FLANNEL_BINARY, [utils.NODE_WORKER], utils.CNI_BINARIES_DIRECTORY),
   (utils.LOOPBACK_BINARY, [utils.NODE_WORKER], utils.CNI_BINARIES_DIRECTORY),
   (utils.HOST_LOCAL_BINARY, [utils.NODE_WORKER], utils.CNI_BINARIES_DIRECTORY),
   (utils.CONTAINERD_BINARY, [utils.NODE_WORKER], utils.CRI_BINARIES_DIRECTORY),
   (utils.CONTAINERD_SHIM_BINARY, [utils.NODE_WORKER], utils.CRI_BINARIES_DIRECTORY),
   (utils.CTR_BINARY, [utils.NODE_WORKER], utils.CRI_BINARIES_DIRECTORY),
   (utils.RUNC_BINARY, [utils.NODE_WORKER], utils.CRI_BINARIES_DIRECTORY),
   (utils.CRICTL_BINARY, [utils.NODE_WORKER], utils.CRI_BINARIES_DIRECTORY),
   (utils.ETCD_BINARY, [utils.NODE_CONTROLLER], utils.ETCD_BINARIES_DIRECTORY),
   (utils.ETCDCTL_BINARY, [utils.NODE_CONTROLLER], utils.ETCD_BINARIES_DIRECTORY),
   (utils.FLANNELD_BINARY, [utils.NODE_CONTROLLER, utils.NODE_WORKER],
     utils.ETCD_BINARIES_DIRECTORY),
   (utils.KUBECTL_BINARY, [utils.NODE_CONTROLLER], utils.K8S_BINARIES_DIRECTORY),
   (utils.KUBE_APISERVER_BINARY, [utils.NODE_CONTROLLER], utils.K8S_BINARIES_DIRECTORY),
   (utils.KUBE_CONTROLLER_MANAGER_BINARY, [utils.NODE_CONTROLLER], utils.K8S_BINARIES_DIRECTORY),
   (utils.KUBELET_BINARY, [utils.NODE_WORKER], utils.K8S_BINARIES_DIRECTORY),
   (utils.KUBE_PROXY_BINARY, [utils.NODE_WORKER], utils.K8S_BINARIES_DIRECTORY),
   (utils.KUBE_SCHEDULER_BINARY, [utils.NODE_CONTROLLER], utils.K8S_BINARIES_DIRECTORY),
   (utils.HELM_BINARY, [], utils.K8S_BINARIES_DIRECTORY),
   (utils.GOBETWEEN_BINARY, [utils.NODE_CONTROLLER], utils.GOBETWEEN_BINARIES_DIRECTORY),
   (utils.CA_PEM, [utils.NODE_CONTROLLER, utils.NODE_WORKER], utils.CERTIFICATES_DIRECTORY),
   (utils.CA_KEY_PEM, [utils.NODE_CONTROLLER], utils.CERTIFICATES_DIRECTORY),
   (utils.VIRTUAL_IP_PEM, [utils.NODE_CONTROLLER, utils.NODE_WORKER],
     utils.CERTIFICATES_DIRECTORY),
   (utils.VIRTUAL_IP_KEY_PEM, [utils.NODE_CONTROLLER, utils.NODE_WORKER],
     utils.CERTIFICATES_DIRECTORY),
   (utils.FLANNELD_PEM, [utils.NODE_CONTROLLER, utils.NODE_WORKER], utils.CERTIFICATES_DIRECTORY),
   (utils.FLANNELD_KEY_PEM, [utils.NODE_CONTROLLER, utils.NODE_WORKER],
     utils.CERTIFICATES_DIRECTORY),
   (utils.KUBERNETES_PEM, [utils.NODE_CONTROLLER], utils.CERTIFICATES_DIRECTORY),
   (utils.KUBERNETES_KEY_PEM, [utils.NODE_CONTROLLER], utils.CERTIFICATES_DIRECTORY),
   (utils.SERVICE_ACCOUNT_PEM, [utils.NODE_CONTROLLER], utils.CERTIFICATES_DIRECTORY),
   (utils.SERVICE_ACCOUNT_KEY_PEM, [utils.NODE_CONTROLLER], utils.CERTIFICATES_DIRECTORY),
   (utils.ADMIN_PEM, [], utils.CERTIFICATES_DIRECTORY),
   (utils.ADMIN_KEY_PEM, [], utils.CERTIFICATES_DIRECTORY),
   (utils.CONTROLLER_MANAGER_PEM, [], utils.CERTIFICATES_DIRECTORY),
   (utils.CONTROLLER_MANAGER_KEY_PEM, [], utils.CERTIFICATES_DIRECTORY),
   (utils.SCHEDULER_PEM, [], utils.CERTIFICATES_DIRECTORY),
   (utils.SCHEDULER_KEY_PEM, [], utils.CERTIFICATES_DIRECTORY),
   (utils.PROXY_PEM, [], utils.CERTIFICATES_DIRECTORY),
   (utils.PROXY_KEY_PEM, [], utils.CERTIFICATES_DIRECTORY),
   (utils.KUBELET_PEM, [utils.NODE_WORKER], utils.CERTIFICATES_DIRECTORY),
   (utils.KUBELET_KEY_PEM, [utils.NODE_WORKER], utils.CERTIFICATES_DIRECTORY),
   (utils.ADMIN_KUBECONFIG, [], utils.K8S_KUBE_CONFIG_DIRECTORY),
   (utils.CONTROLLER_MANAGER_KUBECONFIG, [utils.NODE_CONTROLLER],
     utils.K8S_KUBE_CONFIG_DIRECTORY),
   (utils.SCHEDULER_KUBECONFIG, [utils.NODE_CONTROLLER], utils.K8S_KUBE_CONFIG_DIRECTORY),
   (utils.PROXY_KUBECONFIG, [utils.NODE_WORKER], utils.K8S_KUBE_CONFIG_DIRECTORY),
   (utils.KUBELET_KUBECONFIG, [utils.NODE_WORKER], utils.K8S_KUBE_CONFIG_DIRECTORY),
   (utils.ENCRYPTION_CONFIG, [utils.NODE_CONTROLLER], utils.K8S_SECURITY_CONFIG_DIRECTORY),
   (utils.NET_CONFIG, [utils.NODE_WORKER], utils.CNI_CONFIG_DIRECTORY),
   (utils.CNI_CONFIG, [utils.NODE_WORKER], utils.CNI_CONFIG_DIRECTORY),
   (utils.CONTAINERD_CONFIG, [utils.NODE_WORKER], utils.CRI_CONFIG_DIRECTORY),
   (utils.CONTAINERD_SOCK, [], utils.CONTAINERD_STATE_DIRECTORY),
   (utils.SERVICE_CONFIG, [utils.NODE_CONTROLLER, utils.NODE_WORKER], utils.SERVICE_DIRECTORY),
   (utils.K8S_KUBELET_SETUP, [], utils.K8S_SETUP_CONFIG_DIRECTORY),
   (utils.K8S_ADMIN_USER_SETUP, [], utils.K8S_SETUP_CONFIG_DIRECTORY),
   (utils.K8S_HELM_USER_SETUP, [], utils.K8S_SETUP_CONFIG_DIRECTORY),
   (utils.K8S_KUBE_SCHEDULER_CONFIG, [utils.NODE_CONTROLLER], utils.K8S_CONFIG_DIRECTORY),
   (utils.K8S_KUBELET_CONFIG, [utils.NODE_WORKER], utils.K8S_CONFIG_DIRECTORY),
   (utils.K8S_TEW_PROFILE, [utils.NODE_CONTROLLER, utils.NODE_WORKER], utils.PROFILE_DIRECTORY),
   (utils.GOBETWEEN_CONFIG, [utils.NODE_CONTROLLER], utils.GOBETWEEN_CONFIG_DIRECTORY)]

/-- `registerAssetFiles`. -/
def registerAssetFiles (utils : Utils) (config : InternalConfig) : InternalConfig :=
  (assetFileLines utils).foldl
    (fun config line => addAssetFile config line.1 line.2.1 line.2.2) config

/-- `registerCommands`.  The arguments of a call are evaluated from left to right before the
call; a lookup that fails ends the process.  `fmt.Sprintf` with `%s` verbs alone is the
concatenation of the pieces. -/
def registerCommands (utils : Utils) (config : InternalConfig) (fuel : Nat) :
    Except Stop InternalConfig := do
  let kubectlCommand :=
    (← GetFullLocalAssetFilename utils config fuel utils.KUBECTL_BINARY) ++ " --kubeconfig " ++
      (← GetFullLocalAssetFilename utils config fuel utils.ADMIN_KUBECONFIG)
  let helmCommand :=
    "KUBECONFIG=" ++ (← GetFullLocalAssetFilename utils config fuel utils.ADMIN_KUBECONFIG) ++
      " HELM_HOME=" ++ (← GetFullLocalAssetDirectory config utils.HELM_DATA_DIRECTORY) ++ " " ++
      (← GetFullLocalAssetFilename utils config fuel utils.HELM_BINARY)
  let config := addCommand config "swapoff" [utils.NODE_WORKER] "swapoff -a"
  let config := addCommand config "load-overlay" [utils.NODE_WORKER] "modprobe overlay"
  let config := addCommand config "load-btrfs" [utils.NODE_WORKER] "modprobe btrfs"
  let config := addCommand config "load-br_netfilter" [utils.NODE_CONTROLLER, utils.NODE_WORKER]
    "modprobe br_netfilter"
  let config := addCommand config "enable-br_netfilter"
    [utils.NODE_CONTROLLER, utils.NODE_WORKER]
    "echo '1' > /proc/sys/net/bridge/bridge-nf-call-iptables"
  let config := addCommand config "flanneld-configuration" [utils.NODE_BOOTSTRAPPER]
    ((← GetFullLocalAssetFilename utils config fuel utils.ETCDCTL_BINARY) ++ " --ca-file=" ++
      (← GetFullLocalAssetFilename utils config fuel utils.CA_PEM) ++ " --cert-file=" ++
      (← GetFullLocalAssetFilename utils config fuel utils.KUBERNETES_PEM) ++ " --key-file=" ++
      (← GetFullLocalAssetFilename utils config fuel utils.KUBERNETES_KEY_PEM) ++
      " --endpoints=" ++ String.intercalate "," (GetETCDClientEndpoints utils config) ++
      " set /coreos.com/network/config '\x7b \"Network\": \"" ++ config.Config.ClusterCIDR ++
      "\" \x7d'")
  let config := addCommand config "k8s-kubelet-setup" [utils.NODE_BOOTSTRAPPER]
    (kubectlCommand ++ " apply -f " ++
      (← GetFullLocalAssetFilename utils config fuel utils.K8S_KUBELET_SETUP))
  let config := addCommand config "k8s-admin-user-setup" [utils.NODE_BOOTSTRAPPER]
    (kubectlCommand ++ " apply -f " ++
      (← GetFullLocalAssetFilename utils config fuel utils.K8S_ADMIN_USER_SETUP))
  let config := addCommand config "k8s-kube-dns" [utils.NODE_BOOTSTRAPPER]
    (kubectlCommand ++
      " apply -f https://storage.googleapis.com/kubernetes-the-hard-way/kube-dns.yaml")
  let config := addCommand config "k8s-helm-user-setup" [utils.NODE_BOOTSTRAPPER]
    (kubectlCommand ++ " apply -f " ++
      (← GetFullLocalAssetFilename utils config fuel utils.K8S_HELM_USER_SETUP))
  let config := addCommand config "helm-init" [utils.NODE_BOOTSTRAPPER]
    (helmCommand ++ " init --service-account " ++ utils.HELM_SERVICE_ACCOUNT ++ " --upgrade")
  let config := addCommand config "helm-repo-update" [utils.NODE_BOOTSTRAPPER]
    (helmCommand ++ " repo update")
  let config := addCommand config "helm-kubernetes-dashboard" [utils.NODE_BOOTSTRAPPER]
    (kubectlCommand ++ " get svc kubernetes-dashboard -n kube-system || " ++ helmCommand ++
      " install stable/kubernetes-dashboard --name kubernetes-dashboard" ++
      " --set=service.type=NodePort,service.nodePort=32443 --namespace kube-system")
  pure config

/-- The lines of `registerServers`: name, labels, command and arguments. -/
def serverLines (utils : Utils) : List (String × Labels × String × GoMap String) :=
  [("etcd", [utils.NODE_CONTROLLER], GetTemplateAssetFilename utils.ETCD_BINARY,
     [("name", "\x7b\x7b.Name\x7d\x7d"),
      ("cert-file", GetTemplateAssetFilename utils.KUBERNETES_PEM),
      ("key-file", GetTemplateAssetFilename utils.KUBERNETES_KEY_PEM),
      ("peer-cert-file", GetTemplateAssetFilename utils.KUBERNETES_PEM),
      ("peer-key-file", GetTemplateAssetFilename utils.KUBERNETES_KEY_PEM),
      ("trusted-ca-file", GetTemplateAssetFilename utils.CA_PEM),
      ("peer-trusted-ca-file", GetTemplateAssetFilename utils.CA_PEM),
      ("peer-client-cert-auth", ""),
      ("client-cert-auth", ""),
      ("initial-advertise-peer-urls", "https://\x7b\x7b.Node.IP\x7d\x7d:2380"),
      ("listen-peer-urls", "https://\x7b\x7b.Node.IP\x7d\x7d:2380"),
      ("listen-client-urls", "https://\x7b\x7b.Node.IP\x7d\x7d:2379"),
      ("advertise-client-urls", "https://\x7b\x7b.Node.IP\x7d\x7d:2379"),
      ("initial-cluster-token", "etcd-cluster"),
      ("initial-cluster", "\x7b\x7betcd_cluster\x7d\x7d"),
      ("initial-cluster-state", "new"),
      ("data-dir", GetTemplateAssetDirectory utils.ETCD_DATA_DIRECTORY)]),
   ("flanneld", [utils.NODE_CONTROLLER, utils.NODE_WORKER],
     GetTemplateAssetFilename utils.FLANNELD_BINARY,
     [("etcd-endpoints", "\x7b\x7betcd_servers\x7d\x7d"),
      ("etcd-cafile", GetTemplateAssetFilename utils.CA_PEM),
      ("etcd-certfile", GetTemplateAssetFilename utils.FLANNELD_PEM),
      ("etcd-keyfile", GetTemplateAssetFilename utils.FLANNELD_KEY_PEM),
      ("iface-regex", "\x7b\x7b.Node.IP\x7d\x7d"),
      ("v", "0")]),
   ("containerd", [utils.NODE_WORKER], GetTemplateAssetFilename utils.CONTAINERD_BINARY,
     [("config", GetTemplateAssetFilename utils.CONTAINERD_CONFIG)]),
   ("gobetween", [utils.NODE_CONTROLLER], GetTemplateAssetFilename utils.GOBETWEEN_BINARY,
     [("config", GetTemplateAssetFilename utils.GOBETWEEN_CONFIG)]),
   ("kube-apiserver", [utils.NODE_CONTROLLER],
     GetTemplateAssetFilename utils.KUBE_APISERVER_BINARY,
     [("allow-privileged", "true"),
      ("advertise-address", "\x7b\x7b.Node.IP\x7d\x7d"),
      ("apiserver-count", "\x7b\x7bcontrollers_count\x7d\x7d"),
      ("audit-log-maxage", "30"),
      ("audit-log-maxbackup", "3"),
      ("audit-log-maxsize", "100"),
      ("audit-log-path",
        path.Join [GetTemplateAssetDirectory utils.LOGGING_DIRECTORY, utils.AUDIT_LOG]),
      ("authorization-mode", "Node,RBAC"),
      ("bind-address", "0.0.0.0"),
      ("secure-port", "\x7b\x7b.Config.APIServerPort\x7d\x7d"),
      ("client-ca-file", GetTemplateAssetFilename utils.CA_PEM),
      ("enable-admission-plugins",
        "Initializers,NamespaceLifecycle,NodeRestriction,LimitRanger,ServiceAccount," ++
          "DefaultStorageClass,ResourceQuota"),
      ("enable-swagger-ui", "true"),
      ("etcd-cafile", GetTemplateAssetFilename utils.CA_PEM),
      ("etcd-certfile", GetTemplateAssetFilename utils.KUBERNETES_PEM),
      ("etcd-keyfile", GetTemplateAssetFilename utils.KUBERNETES_KEY_PEM),
      ("etcd-servers", "\x7b\x7betcd_servers\x7d\x7d"),
      ("event-ttl", "1h"),
      ("experimental-encryption-provider-config",
        GetTemplateAssetFilename utils.ENCRYPTION_CONFIG),
      ("kubelet-certificate-authority", GetTemplateAssetFilename utils.CA_PEM),
      ("kubelet-client-certificate", GetTemplateAssetFilename utils.KUBERNETES_PEM),
      ("kubelet-client-key", GetTemplateAssetFilename utils.KUBERNETES_KEY_PEM),
      ("kubelet-https", "true"),
      ("runtime-config", "api/all"),
      ("service-account-key-file", GetTemplateAssetFilename utils.SERVICE_ACCOUNT_PEM),
      ("service-cluster-ip-range", "\x7b\x7b.Config.ClusterIPRange\x7d\x7d"),
      ("service-node-port-range", "30000-32767"),
      ("tls-cert-file", GetTemplateAssetFilename utils.KUBERNETES_PEM),
      ("tls-private-key-file", GetTemplateAssetFilename utils.KUBERNETES_KEY_PEM),
      ("v", "0")]),
   ("kube-controller-manager", [utils.NODE_CONTROLLER],
     GetTemplateAssetFilename utils.KUBE_CONTROLLER_MANAGER_BINARY,
     [("address", "0.0.0.0"),
      ("cluster-cidr", "\x7b\x7b.Config.ClusterCIDR\x7d\x7d"),
      ("cluster-name", "kubernetes"),
      ("cluster-signing-cert-file", GetTemplateAssetFilename utils.CA_PEM),
      ("cluster-signing-key-file", GetTemplateAssetFilename utils.CA_KEY_PEM),
      ("kubeconfig", GetTemplateAssetFilename utils.CONTROLLER_MANAGER_KUBECONFIG),
      ("leader-elect", "true"),
      ("root-ca-file", GetTemplateAssetFilename utils.CA_PEM),
      ("service-account-private-key-file", GetTemplateAssetFilename utils.SERVICE_ACCOUNT_KEY_PEM),
      ("service-cluster-ip-range", "\x7b\x7b.Config.ClusterIPRange\x7d\x7d"),
      ("use-service-account-credentials", "true"),
      ("v", "0")]),
   ("kube-scheduler", [utils.NODE_CONTROLLER],
     GetTemplateAssetFilename utils.KUBE_SCHEDULER_BINARY,
     [("config", GetTemplateAssetFilename utils.K8S_KUBE_SCHEDULER_CONFIG),
      ("v", "0")]),
   ("kube-proxy", [utils.NODE_WORKER], GetTemplateAssetFilename utils.KUBE_PROXY_BINARY,
     [("cluster-cidr", "\x7b\x7b.Config.ClusterCIDR\x7d\x7d"),
      ("kubeconfig", GetTemplateAssetFilename utils.PROXY_KUBECONFIG),
      ("proxy-mode", "iptables"),
      ("v", "0")]),
   ("kubelet", [utils.NODE_WORKER], GetTemplateAssetFilename utils.KUBELET_BINARY,
     [("config", GetTemplateAssetFilename utils.K8S_KUBELET_CONFIG),
      ("container-runtime", "remote"),
      ("container-runtime-endpoint", "unix://" ++ GetTemplateAssetFilename utils.CONTAINERD_SOCK),
      ("image-pull-progress-deadline", "2m"),
      ("kubeconfig", GetTemplateAssetFilename utils.KUBELET_KUBECONFIG),
      ("network-plugin", "cni"),
      ("register-node", "true"),
      ("allow-privileged", "true"),
      ("resolv-conf", "\x7b\x7b.Config.ResolvConf\x7d\x7d"),
      ("root-dir", GetTemplateAssetDirectory utils.KUBELET_DATA_DIRECTORY),
      ("v", "0")])]

/-- `registerServers`. -/
def registerServers (utils : Utils) (config : InternalConfig) : InternalConfig :=
  (serverLines utils).foldl
    (fun config line => addServer utils config line.1 line.2.1 line.2.2.1 line.2.2.2) config

/-- `Generate`. -/
def Generate (utils : Utils) (config : InternalConfig) (fuel : Nat)
    (deploymentDirectory : String) : Except Stop InternalConfig :=
  let config : InternalConfig :=
    { config with Config := { config.Config with
        APIServerPort := 6443, DeploymentDirectory := deploymentDirectory } }
  match registerAssetDirectories utils config with
  | .error stop => .error stop
  | .ok config =>
    match registerCommands utils (registerAssetFiles utils config) fuel with
    | .error stop => .error stop
    | .ok config => .ok (registerServers utils config)

end InternalConfig

/-! ## Notions used in the statements about `Generate` -/

/-- A sequence of assignments `m[key] = value`, carried out in order. -/
def GoMap.assign {α : Type} (m : GoMap α) (writes : List (String × α)) : GoMap α :=
  writes.foldl (fun m kv => m.set kv.1 kv.2) m

/-- The configuration with its directory registry replaced. -/
def setDirectories (config : InternalConfig) (directories : GoMap AssetDirectory) :
    InternalConfig :=
  { config with Config := { config.Config with Assets := { config.Config.Assets with
      Directories := directories } } }

/-- The configuration with its file registry replaced. -/
def setFiles (config : InternalConfig) (files : GoMap AssetFile) : InternalConfig :=
  { config with Config := { config.Config with Assets := { config.Config.Assets with
      Files := files } } }

/-- The configuration with its lists of commands and servers replaced. -/
def setLists (config : InternalConfig) (commands : List Command) (servers : List ServerConfig) :
    InternalConfig :=
  { config with Config := { config.Config with Commands := commands, Servers := servers } }

/-- Every directory that a line looks up is in `known` or is the name of an earlier line. -/
def parentsFirst (known : List String) : List DirectoryLine → Prop
  | [] => True
  | line :: rest =>
    (∀ parent, line.parent = some parent → parent ∈ known) ∧
      parentsFirst (line.name :: known) rest

/-- The strings that become parts of the paths of the assets: the path elements of the
directories and the names of the files. -/
def Utils.pathParts (utils : Utils) : List String :=
  (InternalConfig.assetDirectoryLines utils).flatMap (fun line => line.elems) ++
    (InternalConfig.assetFileLines utils).map (fun line => line.1)

/-- The constants that become parts of asset paths are plain text: none has a left brace or
a `<`. -/
def Utils.plain (utils : Utils) : Prop :=
  ∀ part ∈ utils.pathParts, Template.isBraceFree part = true

/-- The outcome is one of the two fatal exits for a missing asset. -/
def Stop.isMissingAsset : Stop → Bool
  | .fatalMissingAssetFile _ => true
  | .fatalMissingAssetDirectory _ => true
  | _ => false

/-- The paths that `registerCommands` looks up, in the order of the lookups. -/
structure CommandPaths where
  kubectl : String
  adminKubeconfig : String
  helmKubeconfig : String
  helmData : String
  helm : String
  etcdctl : String
  ca : String
  kubernetes : String
  kubernetesKey : String
  kubeletSetup : String
  adminUserSetup : String
  helmUserSetup : String
  deriving DecidableEq, Repr

/-- The lookups of `registerCommands`, in the order in which the source evaluates them. -/
def commandPaths (utils : Utils) (config : InternalConfig) (fuel : Nat) :
    Except Stop CommandPaths := do
  let kubectl ← InternalConfig.GetFullLocalAssetFilename utils config fuel utils.KUBECTL_BINARY
  let adminKubeconfig ←
    InternalConfig.GetFullLocalAssetFilename utils config fuel utils.ADMIN_KUBECONFIG
  let helmKubeconfig ←
    InternalConfig.GetFullLocalAssetFilename utils config fuel utils.ADMIN_KUBECONFIG
  let helmData ← InternalConfig.GetFullLocalAssetDirectory config utils.HELM_DATA_DIRECTORY
  let helm ← InternalConfig.GetFullLocalAssetFilename utils config fuel utils.HELM_BINARY
  let etcdctl ← InternalConfig.GetFullLocalAssetFilename utils config fuel utils.ETCDCTL_BINARY
  let ca ← InternalConfig.GetFullLocalAssetFilename utils config fuel utils.CA_PEM
  let kubernetes ← InternalConfig.GetFullLocalAssetFilename utils config fuel utils.KUBERNETES_PEM
  let kubernetesKey ←
    InternalConfig.GetFullLocalAssetFilename utils config fuel utils.KUBERNETES_KEY_PEM
  let kubeletSetup ←
    InternalConfig.GetFullLocalAssetFilename utils config fuel utils.K8S_KUBELET_SETUP
  let adminUserSetup ←
    InternalConfig.GetFullLocalAssetFilename utils config fuel utils.K8S_ADMIN_USER_SETUP
  let helmUserSetup ←
    InternalConfig.GetFullLocalAssetFilename utils config fuel utils.K8S_HELM_USER_SETUP
  pure { kubectl, adminKubeconfig, helmKubeconfig, helmData, helm, etcdctl, ca, kubernetes,
         kubernetesKey, kubeletSetup, adminUserSetup, helmUserSetup }

/-- The commands that `registerCommands` passes to `addCommand`, in order, with the paths that
its lookups returned. -/
def commandsOf (utils : Utils) (config : InternalConfig) (paths : CommandPaths) : List Command :=
  let kubectlCommand := paths.kubectl ++ " --kubeconfig " ++ paths.adminKubeconfig
  let helmCommand :=
    "KUBECONFIG=" ++ paths.helmKubeconfig ++ " HELM_HOME=" ++ paths.helmData ++ " " ++ paths.helm
  [NewCommand "swapoff" [utils.NODE_WORKER] "swapoff -a",
   NewCommand "load-overlay" [utils.NODE_WORKER] "modprobe overlay",
   NewCommand "load-btrfs" [utils.NODE_WORKER] "modprobe btrfs",
   NewCommand "load-br_netfilter" [utils.NODE_CONTROLLER, utils.NODE_WORKER]
     "modprobe br_netfilter",
   NewCommand "enable-br_netfilter" [utils.NODE_CONTROLLER, utils.NODE_WORKER]
     "echo '1' > /proc/sys/net/bridge/bridge-nf-call-iptables",
   NewCommand "flanneld-configuration" [utils.NODE_BOOTSTRAPPER]
     (paths.etcdctl ++ " --ca-file=" ++ paths.ca ++ " --cert-file=" ++ paths.kubernetes ++
       " --key-file=" ++ paths.kubernetesKey ++ " --endpoints=" ++
       String.intercalate "," (InternalConfig.GetETCDClientEndpoints utils config) ++
       " set /coreos.com/network/config '\x7b \"Network\": \"" ++ config.Config.ClusterCIDR ++
       "\" \x7d'"),
   NewCommand "k8s-kubelet-setup" [utils.NODE_BOOTSTRAPPER]
     (kubectlCommand ++ " apply -f " ++ paths.kubeletSetup),
   NewCommand "k8s-admin-user-setup" [utils.NODE_BOOTSTRAPPER]
     (kubectlCommand ++ " apply -f " ++ paths.adminUserSetup),
   NewCommand "k8s-kube-dns" [utils.NODE_BOOTSTRAPPER]
     (kubectlCommand ++
       " apply -f https://storage.googleapis.com/kubernetes-the-hard-way/kube-dns.yaml"),
   NewCommand "k8s-helm-user-setup" [utils.NODE_BOOTSTRAPPER]
     (kubectlCommand ++ " apply -f " ++ paths.helmUserSetup),
   NewCommand "helm-init" [utils.NODE_BOOTSTRAPPER]
     (helmCommand ++ " init --service-account " ++ utils.HELM_SERVICE_ACCOUNT ++ " --upgrade"),
   NewCommand "helm-repo-update" [utils.NODE_BOOTSTRAPPER] (helmCommand ++ " repo update"),
   NewCommand "helm-kubernetes-dashboard" [utils.NODE_BOOTSTRAPPER]
     (kubectlCommand ++ " get svc kubernetes-dashboard -n kube-system || " ++ helmCommand ++
       " install stable/kubernetes-dashboard --name kubernetes-dashboard" ++
       " --set=service.type=NodePort,service.nodePort=32443 --namespace kube-system")]

/-- The calls `addCommand` for a list of commands, in order. -/
def addCommands (config : InternalConfig) (commands : List Command) : InternalConfig :=
  commands.foldl (fun config c => InternalConfig.addCommand config c.Name c.Labels c.Command)
    config

/-- The calls `addServer` for a list of lines, in order. -/
def addServers (utils : Utils) (config : InternalConfig)
    (lines : List (String × Labels × String × GoMap String)) : InternalConfig :=
  lines.foldl
    (fun config line =>
      InternalConfig.addServer utils config line.1 line.2.1 line.2.2.1 line.2.2.2) config

/-- The first two assignments of `Generate`: the port of the API server and the deployment
directory. -/
def setTarget (config : InternalConfig) (deploymentDirectory : String) : InternalConfig :=
  { config with Config := { config.Config with
      APIServerPort := 6443, DeploymentDirectory := deploymentDirectory } }

/-- The assignments of `registerAssetFiles`, in order. -/
def fileWrites (utils : Utils) : List (String × AssetFile) :=
  (InternalConfig.assetFileLines utils).map fun line => (line.1, NewAssetFile line.2.1 line.2.2)

/-- Whether a command of that name is in the list of commands. -/
def hasCommand (config : InternalConfig) (name : String) : Bool :=
  config.Config.Commands.any fun command => command.Name == name

/-- Whether a server of that name is in the list of servers. -/
def hasServer (config : InternalConfig) (name : String) : Bool :=
  config.Config.Servers.any fun server => server.Name == name

/-! ## Notions used in the statements about the generated servers -/

/-- The asset that a piece of a template refers to is registered: for a call `asset_file "name"`
the file and its owner directory, for a call `asset_directory "name"` the directory.  Other
pieces refer to no asset. -/
def assetResolved (config : InternalConfig) : Template.Piece → Prop
  | .call function [name] =>
    (function = "asset_file" →
      ∃ (file : AssetFile) (directory : AssetDirectory),
        config.Config.Assets.Files.get? name = some file ∧
        config.Config.Assets.Directories.get? file.Directory = some directory) ∧
    (function = "asset_directory" → config.Config.Assets.Directories.get? name ≠ none)
  | _ => True

/-- The template parses, and every asset that one of its placeholders refers to is registered. -/
def templateResolved (config : InternalConfig) (value : String) : Prop :=
  ∃ pieces,
    Template.parsePieces InternalConfig.functionNames (value.length + 1) value.data
      = .ok pieces ∧
    ∀ piece ∈ pieces, assetResolved config piece

/-- The templates of a server descriptor: the binary path, the log file path and the values of
the arguments. -/
def ServerConfig.templates (server : ServerConfig) : List String :=
  server.Command :: server.Logger.Filename :: server.Arguments.map Prod.snd

/-- A call of `asset_file` or `asset_directory` with one argument. -/
def Template.Piece.isAssetCall : Template.Piece → Bool
  | .call function [_] => function == "asset_file" || function == "asset_directory"
  | _ => false

/-- The field chains that `evalExported` gives a value: the fields of `InternalConfig`, of its
`Node` and of its `Config` that hold a string or an unsigned integer. -/
def knownChains : List (List String) :=
  [["BaseDirectory"], ["Name"], ["Node", "IP"], ["Node", "Index"], ["Config", "Version"],
   ["Config", "LoadBalancerPort"], ["Config", "APIServerPort"],
   ["Config", "ControllerVirtualIP"], ["Config", "ControllerVirtualIPInterface"],
   ["Config", "WorkerVirtualIP"], ["Config", "WorkerVirtualIPInterface"],
   ["Config", "ClusterIPRange"], ["Config", "ClusterDNSIP"], ["Config", "ClusterCIDR"],
   ["Config", "ResolvConf"], ["Config", "DeploymentDirectory"]]

/-- A piece that is not a field chain, or a field chain of `knownChains`. -/
def Template.Piece.isKnown : Template.Piece → Bool
  | .field chain => knownChains.contains chain
  | _ => true

/-- The template parses, every asset that one of its placeholders refers to is registered, and
its field chains are fields of the configuration. -/
def templateReady (config : InternalConfig) (value : String) : Prop :=
  ∃ pieces,
    Template.parsePieces InternalConfig.functionNames (value.length + 1) value.data
      = .ok pieces ∧
    ∀ piece ∈ pieces, assetResolved config piece ∧ piece.isKnown = true

/-- The template parses, has no placeholder that refers to an asset, and its field chains are
fields of the configuration. -/
def refersToNoAsset (value : String) : Bool :=
  match Template.parsePieces InternalConfig.functionNames (value.length + 1) value.data with
  | .ok pieces => pieces.all fun piece => !piece.isAssetCall && piece.isKnown
  | .error _ => false

/-- The descriptor that `addServer` appends for a line of `registerServers`. -/
def serverOf (utils : Utils) (line : String × Labels × String × GoMap String) : ServerConfig :=
  { Name := line.1, Labels := line.2.1, Command := line.2.2.1, Arguments := line.2.2.2,
    Logger := { Enabled := true,
                Filename := path.Join
                  [InternalConfig.GetTemplateAssetDirectory utils.LOGGING_DIRECTORY,
                   line.1 ++ ".log"] } }

/-- The names of the assets can stand between the quotes of a placeholder, and the name of the
logging directory and the name of the audit log are single path elements. -/
def Utils.namesSafe (utils : Utils) : Prop :=
  (∀ line ∈ InternalConfig.assetFileLines utils, Template.literalSafe line.1 = true) ∧
  (∀ line ∈ InternalConfig.assetDirectoryLines utils, Template.literalSafe line.name = true) ∧
  '/' ∉ utils.LOGGING_DIRECTORY.data ∧ '/' ∉ utils.AUDIT_LOG.data ∧
  Template.isBraceFree utils.AUDIT_LOG = true ∧ path.isName utils.AUDIT_LOG.data = true ∧
  utils.AUDIT_LOG.data ≠ ['.', '.']

/-- The function map `functions` of `ApplyTemplate`, for the given fuel of the nested
expansions. -/
def InternalConfig.functions (utils : Utils) (config : InternalConfig) (fuel : Nat) :
    Template.FuncMap :=
  [("controllers_count", .niladic fun _ => .ok (InternalConfig.controllersCount utils config)),
   ("etcd_servers", .niladic fun _ => .ok (InternalConfig.etcdServers utils config)),
   ("etcd_cluster", .niladic fun _ => .ok (InternalConfig.etcdCluster utils config)),
   ("asset_file", .unary fun name =>
     (InternalConfig.relativeAssetFilename (InternalConfig.ApplyTemplate utils config fuel)
       config name).map fun relative =>
         path.Join [config.Config.DeploymentDirectory, relative]),
   ("asset_directory", .unary fun name =>
     InternalConfig.GetFullTargetAssetDirectory config name)]

/-- The paths of the registered directories and the names of the registered files are plain
text. -/
def registryPlain (config : InternalConfig) : Prop :=
  (∀ kv ∈ config.Config.Assets.Directories, Template.isBraceFree kv.2.Directory = true) ∧
  (∀ kv ∈ config.Config.Assets.Files, Template.isBraceFree kv.1 = true)

/-- The outcome is an error that the Go function returns to its caller: neither a fatal exit of
the process nor a limit of the embedding. -/
def Stop.isReturned : Stop → Bool
  | .error _ => true
  | _ => false

/-! ## Go maps -/

namespace GoMap

theorem get?_set_self {α : Type} (m : GoMap α) (key : String) (value : α) :
    (m.set key value).get? key = some value := by
  induction m with
  | nil => simp [set, get?, List.lookup]
  | cons kv rest ih =>
    obtain ⟨k, v⟩ := kv
    by_cases hk : k = key
    · simp [set, hk, get?, List.lookup]
    · have hk2 : (key == k) = false := by simpa using fun h => hk h.symm
      simpa [set, hk, get?, List.lookup, hk2] using ih

theorem get?_set_other {α : Type} (m : GoMap α) (key other : String) (value : α)
    (h : other ≠ key) : (m.set key value).get? other = m.get? other := by
  induction m with
  | nil =>
    have h2 : (other == key) = false := by simpa using h
    simp [set, get?, List.lookup, h2]
  | cons kv rest ih =>
    obtain ⟨k, v⟩ := kv
    by_cases hk : k = key
    · subst hk
      have h2 : (other == k) = false := by simpa using h
      simp [set, get?, List.lookup, h2]
    · by_cases ho : other = k
      · subst ho
        simp [set, hk, get?, List.lookup]
      · have h2 : (other == k) = false := by simpa using ho
        simpa [set, hk, get?, List.lookup, h2] using ih

theorem set_set_same {α : Type} (m : GoMap α) (key : String) (value : α) :
    (m.set key value).set key value = m.set key value := by
  induction m with
  | nil => simp [set]
  | cons kv rest ih =>
    obtain ⟨k, v⟩ := kv
    by_cases hk : k = key
    · simp [set, hk]
    · simp [set, hk, ih]

end GoMap

/-! ## Paths -/

namespace path

theorem splitSlash_ne_nil (p : List Char) : splitSlash p ≠ [] := by
  induction p with
  | nil => simp [splitSlash]
  | cons c cs ih =>
    simp only [splitSlash]
    split
    · simp
    · split <;> simp

theorem splitSlash_append_slash (a b : List Char) :
    splitSlash (a ++ '/' :: b) = splitSlash a ++ splitSlash b := by
  induction a with
  | nil => simp [splitSlash]
  | cons c cs ih =>
    by_cases hc : c = '/'
    · simp [splitSlash, hc, ih]
    · cases hs : splitSlash cs with
      | nil => exact absurd hs (splitSlash_ne_nil cs)
      | cons seg rest =>
        have h1 : splitSlash (c :: cs ++ '/' :: b)
            = match splitSlash (cs ++ '/' :: b) with
              | [] => [[c]]
              | seg :: rest => (c :: seg) :: rest := by
          simp [splitSlash, hc]
        have h2 : splitSlash (c :: cs) = (c :: seg) :: rest := by
          simp [splitSlash, hc, hs]
        rw [h1, h2, ih, hs]
        rfl

theorem splitSlash_of_no_slash (seg : List Char) (h : '/' ∉ seg) : splitSlash seg = [seg] := by
  induction seg with
  | nil => rfl
  | cons c cs ih =>
    have hc : c ≠ '/' := fun e => h (by simp [e])
    have hcs : '/' ∉ cs := fun e => h (List.mem_cons_of_mem _ e)
    simp [splitSlash, hc, ih hcs]

theorem no_slash_of_mem_splitSlash (p : List Char) :
    ∀ seg ∈ splitSlash p, '/' ∉ seg := by
  induction p with
  | nil => simp [splitSlash]
  | cons c cs ih =>
    intro seg hseg
    by_cases hc : c = '/'
    · simp only [splitSlash, hc, if_true, List.mem_cons] at hseg
      rcases hseg with rfl | hseg
      · simp
      · exact ih seg hseg
    · simp only [splitSlash, if_neg hc] at hseg
      cases hs : splitSlash cs with
      | nil => exact absurd hs (splitSlash_ne_nil cs)
      | cons first rest =>
        rw [hs] at hseg ih
        simp only [List.mem_cons] at hseg
        rcases hseg with rfl | hseg
        · intro hmem
          rcases List.mem_cons.mp hmem with h1 | h1
          · exact hc h1.symm
          · exact ih first (List.mem_cons_self _ _) h1
        · exact ih seg (List.mem_cons_of_mem _ hseg)

theorem splitSlash_joinSlash (elems : List (List Char)) (hne : elems ≠ [])
    (h : ∀ seg ∈ elems, '/' ∉ seg) : splitSlash (joinSlash elems) = elems := by
  induction elems with
  | nil => exact absurd rfl hne
  | cons x rest ih =>
    cases rest with
    | nil => simpa [joinSlash] using splitSlash_of_no_slash x (h x (List.mem_cons_self _ _))
    | cons y more =>
      have hx := splitSlash_of_no_slash x (h x (List.mem_cons_self _ _))
      have hrest := ih (by simp) (fun seg hseg => h seg (List.mem_cons_of_mem _ hseg))
      simp only [joinSlash, splitSlash_append_slash, hx, hrest]
      rfl

/-- The elements that `Clean` keeps when there is no `..`: the non-empty ones other than `.`. -/
theorem foldl_cleanStep_of_no_dotdot (rooted : Bool) (elems : List (List Char))
    (h : ['.', '.'] ∉ elems) (stack : List (List Char)) :
    elems.foldl (cleanStep rooted) stack
      = (elems.filter isName).reverse ++ stack := by
  induction elems generalizing stack with
  | nil => simp
  | cons e rest ih =>
    have he : e ≠ ['.', '.'] := fun hc => h (by simp [hc])
    have hrest : ['.', '.'] ∉ rest := fun hc => h (List.mem_cons_of_mem _ hc)
    rw [List.foldl_cons, ih hrest]
    by_cases h1 : e = [] ∨ e = ['.']
    · have h2 : isName e = false := by
        rcases h1 with h1 | h1 <;> simp [isName, h1]
      simp [cleanStep, h1, List.filter_cons, h2]
    · have h2 : isName e = true := by
        simp only [not_or] at h1
        simp [isName, h1.1, h1.2]
      simp [cleanStep, h1, he, List.filter_cons, h2]

theorem foldl_cleanStep_rooted_again (rooted : Bool) (p : List Char)
    (h : ['.', '.'] ∉ splitSlash p) (stack : List (List Char)) :
    (splitSlash (cleanChars ('/' :: '/' :: p))).foldl (cleanStep rooted) stack
      = (splitSlash p).foldl (cleanStep rooted) stack := by
  have hsplit : splitSlash ('/' :: '/' :: p) = [] :: [] :: splitSlash p := by
    simp [splitSlash]
  have hkept : (splitSlash ('/' :: '/' :: p)).foldl (cleanStep true) []
      = ((splitSlash p).filter isName).reverse := by
    rw [hsplit]
    simp only [List.foldl_cons]
    have h0 : cleanStep true [] [] = [] := by simp [cleanStep]
    rw [h0, h0, foldl_cleanStep_of_no_dotdot true _ h]
    simp
  have hclean : cleanChars ('/' :: '/' :: p)
      = '/' :: joinSlash ((splitSlash p).filter isName) := by
    have hrooted : (('/' :: '/' :: p).head? == some '/') = true := rfl
    simp only [cleanChars, hrooted, hkept, List.reverse_reverse, if_true]
  rw [hclean, foldl_cleanStep_of_no_dotdot rooted _ h]
  generalize hk : (splitSlash p).filter isName = kept
  have hkeptmem : ∀ seg ∈ kept, seg ∈ splitSlash p ∧ seg ≠ [] ∧ seg ≠ ['.'] := by
    intro seg hseg
    rw [← hk] at hseg
    have := List.mem_filter.mp hseg
    simpa [isName] using this
  have hsplit2 : splitSlash ('/' :: joinSlash kept) = [] :: splitSlash (joinSlash kept) := by
    simp [splitSlash]
  rw [hsplit2, List.foldl_cons]
  have h0 : cleanStep rooted stack [] = stack := by simp [cleanStep]
  rw [h0]
  cases hkc : kept with
  | nil => simp [joinSlash, splitSlash, cleanStep]
  | cons x rest =>
    rw [← hkc]
    rw [splitSlash_joinSlash kept (by simp [hkc])
      (fun seg hseg => no_slash_of_mem_splitSlash p seg (hkeptmem seg hseg).1)]
    rw [foldl_cleanStep_of_no_dotdot rooted kept
      (fun hc => h (hkeptmem _ hc).1)]
    congr 2
    apply List.filter_eq_self.mpr
    intro seg hseg
    have := hkeptmem seg hseg
    simp [isName, this.2.1, this.2.2]

theorem cleanChars_under_base (base p q : List Char) (hbase : base ≠ [])
    (h : ∀ (rooted : Bool) (stack : List (List Char)),
      (splitSlash p).foldl (cleanStep rooted) stack
        = (splitSlash q).foldl (cleanStep rooted) stack) :
    cleanChars (base ++ '/' :: p) = cleanChars (base ++ '/' :: q) := by
  have hhead : ∀ r : List Char, (base ++ '/' :: r).head? = base.head? := by
    intro r
    cases base with
    | nil => exact absurd rfl hbase
    | cons b bs => rfl
  unfold cleanChars
  simp only [hhead, splitSlash_append_slash, List.foldl_append, h]

/-- Rooting a path at `/` before it is joined to a non-empty base changes nothing when the path
has no element `..`. -/
theorem Join_rooted_eq (base p : String) (hbase : base ≠ "") (h : hasDotDot p = false) :
    Join [base, Join ["/", p]] = Join [base, p] := by
  have hb : (base == "") = false := by simpa using hbase
  have hdata : base.data ≠ [] := by
    intro hc
    apply hbase
    cases base
    simp_all
  have hno : ['.', '.'] ∉ splitSlash p.data := by
    simpa [hasDotDot] using h
  have hinner : Join ["/", p] = String.mk (cleanChars ('/' :: '/' :: p.data)) := by
    simp [Join, Clean, String.intercalate, String.intercalate.go, String.data_append]
  have houter : ∀ q : String, Join [base, q] = String.mk (cleanChars (base.data ++ '/' :: q.data)) := by
    intro q
    simp [Join, hb, Clean, String.intercalate, String.intercalate.go, String.data_append]
  rw [houter, houter, hinner]
  congr 1
  exact cleanChars_under_base _ _ _ hdata
    (fun rooted stack => foldl_cleanStep_rooted_again rooted p.data hno stack)

end path

/-! ## Template expansion: auxiliary facts -/

namespace Template

theorem HTMLEscape_of_escapeFree (s : String) (h : escapeFree s = true) : HTMLEscape s = s := by
  obtain ⟨cs⟩ := s
  simp only [escapeFree, List.all_eq_true, beq_iff_eq] at h
  simp only [HTMLEscape]
  congr 1
  induction cs with
  | nil => rfl
  | cons c rest ih =>
    have hc := h c (List.mem_cons_self _ _)
    have hrest := ih fun x hx => h x (List.mem_cons_of_mem _ hx)
    simp [List.flatMap_cons, hc, hrest]

theorem escapeFree_append (a b : String) :
    escapeFree (a ++ b) = (escapeFree a && escapeFree b) := by
  simp [escapeFree, String.data_append, List.all_append]

theorem escapeFree_digitChar (m : Nat) (h : m < 10) :
    escapeRune (Nat.digitChar m) = [Nat.digitChar m] := by
  interval_cases m <;> decide

theorem escapeFree_toDigitsCore (fuel : Nat) :
    ∀ (n : Nat) (ds : List Char), (∀ c ∈ ds, escapeRune c = [c]) →
      ∀ c ∈ Nat.toDigitsCore 10 fuel n ds, escapeRune c = [c] := by
  induction fuel with
  | zero => intro n ds h; simpa [Nat.toDigitsCore] using h
  | succ fuel ih =>
    intro n ds h
    have hd : ∀ c ∈ Nat.digitChar (n % 10) :: ds, escapeRune c = [c] := by
      intro c hc
      rcases List.mem_cons.mp hc with rfl | hc
      · exact escapeFree_digitChar _ (Nat.mod_lt _ (by decide))
      · exact h c hc
    simp only [Nat.toDigitsCore]
    split
    · exact hd
    · exact ih _ _ hd

theorem escapeFree_toString_nat (n : Nat) : escapeFree (toString n) = true := by
  simp only [escapeFree, List.all_eq_true, beq_iff_eq]
  show ∀ c ∈ (Nat.repr n).data, escapeRune c = [c]
  simp only [Nat.repr, List.asString]
  exact escapeFree_toDigitsCore _ _ _ (by simp)

theorem splitAtLeftDelim_of_none (cs : List Char) (h : (splitAtLeftDelim cs).2 = none) :
    (splitAtLeftDelim cs).1 = cs := by
  induction cs with
  | nil => rfl
  | cons c rest ih =>
    simp only [splitAtLeftDelim] at h ⊢
    split at h
    · simp at h
    · rename_i hc
      simp only [if_neg hc]
      simp [ih h]

theorem Parse_plain (functions : FuncMap) (value : String) (h : isPlainText value = true) :
    Parse functions value = .ok [.text value] := by
  simp only [isPlainText, Bool.and_eq_true, Option.isNone_iff_eq_none, Bool.not_eq_true'] at h
  obtain ⟨h1, h2⟩ := h
  have h3 := splitAtLeftDelim_of_none _ h1
  have h4 : '<' ∉ value.data := by simpa using h2
  simp [Parse, parsePieces, h1, h3, h4]

theorem Execute_text (functions : FuncMap) (fields : List String → Except Stop String)
    (value : String) : Execute functions fields [.text value] = .ok value := by
  simp [Execute, executePiece]

end Template

namespace InternalConfig

theorem ApplyTemplate_plain (utils : Utils) (config : InternalConfig) (fuel : Nat)
    (label value : String) (h : Template.isPlainText value = true) :
    ApplyTemplate utils config (fuel + 1) label value = .ok value := by
  simp [ApplyTemplate, Template.Parse_plain _ _ h, Template.Execute_text]

end InternalConfig

namespace InternalConfig

theorem foldl_count (utils : Utils) (nodes : GoMap K8sTew.Node) (start : Nat) :
    nodes.foldl (fun count kv => if kv.2.IsController utils then count + 1 else count) start
      = start + nodes.countP (fun kv => kv.2.IsController utils) := by
  induction nodes generalizing start with
  | nil => simp
  | cons kv rest ih =>
    by_cases h : kv.2.IsController utils = true
    · simp [List.foldl_cons, h, ih, List.countP_cons_of_pos]; omega
    · simp [List.foldl_cons, h, ih, List.countP_cons_of_neg]

theorem ApplyTemplate_controllers_count (utils : Utils) (config : InternalConfig) (fuel : Nat)
    (label : String) :
    ApplyTemplate utils config (fuel + 1) label controllersCountTemplate
      = .ok ("" ++ (Template.HTMLEscape (controllersCount utils config) ++ "")) := by
  rfl

end InternalConfig

/-- The loop that joins entries with commas: a comma goes before an entry when the result so far
is not empty. -/
theorem joinLoop_go (entries : List String) (acc : String) (hacc : acc.length > 0) :
    entries.foldl
      (fun result entry => (if result.length > 0 then result ++ "," else result) ++ entry) acc
      = String.intercalate.go acc "," entries := by
  induction entries generalizing acc with
  | nil => rfl
  | cons e rest ih =>
    simp only [List.foldl_cons, String.intercalate.go, if_pos hacc]
    apply ih
    simp only [String.length_append]
    omega

theorem joinLoop_eq_intercalate (entries : List String) (h : ∀ e ∈ entries, e.length > 0) :
    entries.foldl
      (fun result entry => (if result.length > 0 then result ++ "," else result) ++ entry) ""
      = ",".intercalate entries := by
  cases entries with
  | nil => rfl
  | cons e rest =>
    have he := h e (List.mem_cons_self _ _)
    simp only [List.foldl_cons, String.intercalate]
    have h0 : ¬ ("".length > 0) := by decide
    rw [if_neg h0, String.empty_append]
    exact joinLoop_go rest e he

theorem GetETCDClientEndpoints_eq (utils : Utils) (config : InternalConfig) :
    InternalConfig.GetETCDClientEndpoints utils config
      = (config.Config.Nodes.filter fun kv => kv.2.IsController utils).map
          fun kv => "https://" ++ kv.2.IP ++ ":2379" := by
  unfold InternalConfig.GetETCDClientEndpoints
  suffices h : ∀ (nodes : GoMap Node) (acc : List String),
      nodes.foldl (fun result kv =>
        if kv.2.IsController utils then result ++ ["https://" ++ kv.2.IP ++ ":2379"] else result) acc
      = acc ++ (nodes.filter fun kv => kv.2.IsController utils).map
          fun kv => "https://" ++ kv.2.IP ++ ":2379" by
    simpa using h config.Config.Nodes []
  intro nodes
  induction nodes with
  | nil => simp
  | cons kv rest ih =>
    intro acc
    by_cases hc : kv.2.IsController utils = true
    · simp [List.foldl_cons, hc, ih, List.filter_cons]
    · simp [List.foldl_cons, hc, ih, List.filter_cons]

theorem etcdServers_eq (utils : Utils) (config : InternalConfig) :
    InternalConfig.etcdServers utils config
      = ",".intercalate ((config.Config.Nodes.filter fun kv => kv.2.IsController utils).map
          fun kv => "https://" ++ kv.2.IP ++ ":2379") := by
  unfold InternalConfig.etcdServers
  rw [GetETCDClientEndpoints_eq]
  apply joinLoop_eq_intercalate
  intro e he
  obtain ⟨kv, _, rfl⟩ := List.mem_map.mp he
  simp only [String.length_append]
  have : "https://".length = 8 := by decide
  omega

theorem etcdCluster_eq (utils : Utils) (config : InternalConfig) :
    InternalConfig.etcdCluster utils config
      = ",".intercalate ((config.Config.Nodes.filter fun kv => kv.2.IsController utils).map
          fun kv => kv.1 ++ "=https://" ++ kv.2.IP ++ ":2380") := by
  unfold InternalConfig.etcdCluster
  rw [← joinLoop_eq_intercalate]
  · generalize "" = acc
    induction config.Config.Nodes generalizing acc with
    | nil => rfl
    | cons kv rest ih =>
      by_cases hc : kv.2.IsController utils = true
      · simp only [List.foldl_cons, List.filter_cons, hc, Bool.not_true, Bool.false_eq_true,
          if_false, if_true, List.map_cons]
        exact ih _
      · have hc2 : kv.2.IsController utils = false := by simpa using hc
        simp only [List.foldl_cons, List.filter_cons, hc2, Bool.not_false, Bool.false_eq_true,
          if_false, if_true]
        exact ih _
  · intro e he
    obtain ⟨kv, _, rfl⟩ := List.mem_map.mp he
    simp only [String.length_append]
    have : "=https://".length = 9 := by decide
    omega

theorem escapeFree_intercalate_go (entries : List String) (acc : String)
    (hacc : Template.escapeFree acc = true) (h : ∀ e ∈ entries, Template.escapeFree e = true) :
    Template.escapeFree (String.intercalate.go acc "," entries) = true := by
  induction entries generalizing acc with
  | nil => simpa [String.intercalate.go] using hacc
  | cons e rest ih =>
    simp only [String.intercalate.go]
    apply ih
    · have hcomma : Template.escapeFree "," = true := by decide
      simp [Template.escapeFree_append, hacc, hcomma, h e (List.mem_cons_self _ _)]
    · intro x hx
      exact h x (List.mem_cons_of_mem _ hx)

theorem escapeFree_intercalate (entries : List String)
    (h : ∀ e ∈ entries, Template.escapeFree e = true) :
    Template.escapeFree (",".intercalate entries) = true := by
  cases entries with
  | nil => decide
  | cons e rest =>
    simp only [String.intercalate]
    exact escapeFree_intercalate_go rest e (h e (List.mem_cons_self _ _))
      fun x hx => h x (List.mem_cons_of_mem _ hx)

theorem ApplyTemplate_etcd_servers (utils : Utils) (config : InternalConfig) (fuel : Nat)
    (label : String) :
    InternalConfig.ApplyTemplate utils config (fuel + 1) label etcdServersTemplate
      = .ok (Template.HTMLEscape (InternalConfig.etcdServers utils config)) := by
  have h : InternalConfig.ApplyTemplate utils config (fuel + 1) label etcdServersTemplate
      = .ok ("" ++ (Template.HTMLEscape (InternalConfig.etcdServers utils config) ++ "")) := rfl
  simpa using h

theorem ApplyTemplate_etcd_cluster (utils : Utils) (config : InternalConfig) (fuel : Nat)
    (label : String) :
    InternalConfig.ApplyTemplate utils config (fuel + 1) label etcdClusterTemplate
      = .ok (Template.HTMLEscape (InternalConfig.etcdCluster utils config)) := by
  have h : InternalConfig.ApplyTemplate utils config (fuel + 1) label etcdClusterTemplate
      = .ok ("" ++ (Template.HTMLEscape (InternalConfig.etcdCluster utils config) ++ "")) := rfl
  simpa using h

namespace Template

theorem takeLiteral_safe (body rest : List Char)
    (h : body.all (fun c => !(c == '"' || c == '\\' || c == '\n')) = true) :
    takeLiteral (body ++ '"' :: rest) = some (body, rest) := by
  induction body with
  | nil => simp [takeLiteral]
  | cons c cs ih =>
    simp only [List.all_cons, Bool.and_eq_true, Bool.not_eq_true', Bool.or_eq_false_iff,
      beq_eq_false_iff_ne, ne_eq] at h
    obtain ⟨⟨⟨h1, h2⟩, h3⟩, hrest⟩ := h
    have ih2 := ih (by simpa using hrest)
    simp [takeLiteral, h1, h2, h3, ih2]

theorem hasRightDelim_append (front back : List Char) (h : hasRightDelim back = true) :
    hasRightDelim (front ++ back) = true := by
  induction front with
  | nil => simpa using h
  | cons c cs ih => simp [hasRightDelim, ih]

theorem parseAction_asset_file (defined : List String) (hdefined : defined.contains "asset_file" = true)
    (name : String) (hname : literalSafe name = true) :
    parseAction defined ("asset_file \"".data ++ (name.data ++ "\"\x7d\x7d".data))
      = .ok (.call "asset_file" [name], []) := by
  have hclose : hasRightDelim ("asset_file \"".data ++ (name.data ++ "\"\x7d\x7d".data)) = true := by
    rw [← List.append_assoc]
    exact hasRightDelim_append _ _ (by decide)
  have hlit := takeLiteral_safe name.data ['}', '}'] hname
  have hres : isReserved "asset_file" = false := by decide
  have hmem : "asset_file" ∈ defined := by simpa using hdefined
  unfold parseAction
  rw [hclose]
  simp [skipSpaces, takeIdent, isIdentChar, hlit, checkFunction, hres, hmem, closeAction]

theorem parseAction_asset_directory (defined : List String)
    (hdefined : defined.contains "asset_directory" = true)
    (name : String) (hname : literalSafe name = true) :
    parseAction defined ("asset_directory \"".data ++ (name.data ++ "\"\x7d\x7d".data))
      = .ok (.call "asset_directory" [name], []) := by
  have hclose :
      hasRightDelim ("asset_directory \"".data ++ (name.data ++ "\"\x7d\x7d".data)) = true := by
    rw [← List.append_assoc]
    exact hasRightDelim_append _ _ (by decide)
  have hlit := takeLiteral_safe name.data ['}', '}'] hname
  have hres : isReserved "asset_directory" = false := by decide
  have hmem : "asset_directory" ∈ defined := by simpa using hdefined
  unfold parseAction
  rw [hclose]
  simp [skipSpaces, takeIdent, isIdentChar, hlit, checkFunction, hres, hmem, closeAction]

theorem parsePieces_single_action (defined : List String) (fuel : Nat) (rest : List Char)
    (piece : Piece) (h : parseAction defined rest = .ok (piece, [])) :
    parsePieces defined (fuel + 2) ('{' :: '{' :: rest) = .ok [.text "", piece, .text ""] := by
  have hsplit : splitAtLeftDelim ('{' :: '{' :: rest) = ([], some rest) := by
    simp [splitAtLeftDelim]
  have hnil : parsePieces defined (fuel + 1) [] = .ok [.text ""] := by
    simp [parsePieces, splitAtLeftDelim]
  rw [parsePieces, hsplit]
  simp only [h, hnil]
  rfl

theorem Parse_asset_file (functions : FuncMap)
    (hdefined : (functions.map Prod.fst).contains "asset_file" = true)
    (name : String) (hname : literalSafe name = true) :
    Parse functions (InternalConfig.GetTemplateAssetFilename name)
      = .ok [.text "", .call "asset_file" [name], .text ""] := by
  have haction := parseAction_asset_file _ hdefined name hname
  have hdata : (InternalConfig.GetTemplateAssetFilename name).data
      = '{' :: '{' :: ("asset_file \"".data ++ (name.data ++ "\"\x7d\x7d".data)) := by
    simp [InternalConfig.GetTemplateAssetFilename, String.data_append]
  have hlength : (InternalConfig.GetTemplateAssetFilename name).length + 1
      = (name.length + 16) + 2 := by
    simp only [InternalConfig.GetTemplateAssetFilename, String.length_append]
    have h1 : "\x7b\x7basset_file \"".length = 14 := by decide
    have h2 : "\"\x7d\x7d".length = 3 := by decide
    omega
  unfold Parse
  rw [hdata, hlength]
  exact parsePieces_single_action _ _ _ _ haction

theorem Parse_asset_directory (functions : FuncMap)
    (hdefined : (functions.map Prod.fst).contains "asset_directory" = true)
    (name : String) (hname : literalSafe name = true) :
    Parse functions (InternalConfig.GetTemplateAssetDirectory name)
      = .ok [.text "", .call "asset_directory" [name], .text ""] := by
  have haction := parseAction_asset_directory _ hdefined name hname
  have hdata : (InternalConfig.GetTemplateAssetDirectory name).data
      = '{' :: '{' :: ("asset_directory \"".data ++ (name.data ++ "\"\x7d\x7d".data)) := by
    simp [InternalConfig.GetTemplateAssetDirectory, String.data_append]
  have hlength : (InternalConfig.GetTemplateAssetDirectory name).length + 1
      = (name.length + 21) + 2 := by
    simp only [InternalConfig.GetTemplateAssetDirectory, String.length_append]
    have h1 : "\x7b\x7basset_directory \"".length = 19 := by decide
    have h2 : "\"\x7d\x7d".length = 3 := by decide
    omega
  unfold Parse
  rw [hdata, hlength]
  exact parsePieces_single_action _ _ _ _ haction


end Template

theorem ApplyTemplate_asset_file (utils : Utils) (config : InternalConfig) (fuel : Nat)
    (label name : String) (hname : Template.literalSafe name = true) :
    InternalConfig.ApplyTemplate utils config (fuel + 1) label
        (InternalConfig.GetTemplateAssetFilename name)
      = (InternalConfig.GetFullTargetAssetFilename utils config fuel name).map
          Template.HTMLEscape := by
  unfold InternalConfig.ApplyTemplate
  simp only
  rw [Template.Parse_asset_file _ ?_ name hname]
  swap
  · rfl
  simp only [Template.Execute, Template.executePiece, InternalConfig.GetFullTargetAssetFilename,
    InternalConfig.GetRelativeAssetFilename]
  have hlookup : ∀ (f1 f2 f3 f4 f5 : Template.Func),
      List.lookup "asset_file" [("controllers_count", f1), ("etcd_servers", f2),
        ("etcd_cluster", f3), ("asset_file", f4), ("asset_directory", f5)] = some f4 := by
    intro f1 f2 f3 f4 f5
    rfl
  rw [hlookup]
  simp only
  cases InternalConfig.relativeAssetFilename
      (InternalConfig.ApplyTemplate utils config fuel) config name with
  | error e => rfl
  | ok relative => simp [Except.map]

theorem ApplyTemplate_asset_directory (utils : Utils) (config : InternalConfig) (fuel : Nat)
    (label name : String) (hname : Template.literalSafe name = true) :
    InternalConfig.ApplyTemplate utils config (fuel + 1) label
        (InternalConfig.GetTemplateAssetDirectory name)
      = (InternalConfig.GetFullTargetAssetDirectory config name).map Template.HTMLEscape := by
  unfold InternalConfig.ApplyTemplate
  simp only
  rw [Template.Parse_asset_directory _ ?_ name hname]
  swap
  · rfl
  simp only [Template.Execute, Template.executePiece]
  have hlookup : ∀ (f1 f2 f3 f4 f5 : Template.Func),
      List.lookup "asset_directory" [("controllers_count", f1), ("etcd_servers", f2),
        ("etcd_cluster", f3), ("asset_file", f4), ("asset_directory", f5)] = some f5 := by
    intro f1 f2 f3 f4 f5
    rfl
  rw [hlookup]
  simp only
  cases InternalConfig.GetFullTargetAssetDirectory config name with
  | error e => rfl
  | ok full => simp [Except.map]

/-! ## Registration -/

/-- C1: for every configuration and every name already present in the server list (resp. command
list), `addServer` (resp. `addCommand`) with that name and any labels, command and arguments
returns the configuration unchanged: the first descriptor is kept and nothing is appended. -/
theorem addServer_addCommand_registered_unchanged (utils : Utils) (config : InternalConfig)
    (name : String) :
    (∀ (labels : Labels) (command : String) (arguments : GoMap String),
      (∃ server ∈ config.Config.Servers, server.Name = name) →
        InternalConfig.addServer utils config name labels command arguments = config) ∧
    (∀ (labels : Labels) (command : String),
      (∃ registered ∈ config.Config.Commands, registered.Name = name) →
        InternalConfig.addCommand config name labels command = config) := by
  constructor
  · rintro labels command arguments ⟨server, hmem, hname⟩
    have h : config.Config.Servers.any (fun server => server.Name == name) = true :=
      List.any_eq_true.mpr ⟨server, hmem, by simp [hname]⟩
    simp [InternalConfig.addServer, h]
  · rintro labels command ⟨registered, hmem, hname⟩
    have h : config.Config.Commands.any (fun command => command.Name == name) = true :=
      List.any_eq_true.mpr ⟨registered, hmem, by simp [hname]⟩
    simp [InternalConfig.addCommand, h]

/-- Witness for C1: `etcd` and `swapoff` are registered in `registeredConfig`, and registering
them again with other descriptors changes nothing. -/
theorem addServer_addCommand_registered_unchanged_witness :
    (∃ server ∈ registeredConfig.Config.Servers, server.Name = "etcd") ∧
    (∃ registered ∈ registeredConfig.Config.Commands, registered.Name = "swapoff") ∧
    InternalConfig.addServer exampleUtils registeredConfig "etcd" ["worker"] "/bin/other"
      [("debug", "")] = registeredConfig ∧
    InternalConfig.addCommand registeredConfig "swapoff" [] "true" = registeredConfig :=
  have hs : ∃ server ∈ registeredConfig.Config.Servers, server.Name = "etcd" :=
    ⟨_, List.mem_singleton.mpr rfl, rfl⟩
  have hc : ∃ registered ∈ registeredConfig.Config.Commands, registered.Name = "swapoff" :=
    ⟨_, List.mem_singleton.mpr rfl, rfl⟩
  ⟨hs, hc,
    (addServer_addCommand_registered_unchanged exampleUtils registeredConfig "etcd").1
      ["worker"] "/bin/other" [("debug", "")] hs,
    (addServer_addCommand_registered_unchanged exampleUtils registeredConfig "swapoff").2
      [] "true" hc⟩

/-- C2, counterexample: the directory `bin` is registered at `opt/bin` and the file `etcd` in
`bin`; registering them again with another path, owner and labels replaces both descriptors, so
the lookups no longer yield the descriptors registered first. -/
theorem addAsset_keeps_first_counterexample :
    assetConfig.Config.Assets.Directories.get? "bin" = some (NewAssetDirectory [] "opt/bin") ∧
    (InternalConfig.addAssetDirectory assetConfig "bin" ["worker"] "usr/bin").Config.Assets.Directories.get?
      "bin" ≠ some (NewAssetDirectory [] "opt/bin") ∧
    assetConfig.Config.Assets.Files.get? "etcd" = some (NewAssetFile ["controller"] "bin") ∧
    (InternalConfig.addAssetFile assetConfig "etcd" [] "other").Config.Assets.Files.get? "etcd" ≠
      some (NewAssetFile ["controller"] "bin") := by
  decide

/-- C2, amended: `addAssetDirectory` and `addAssetFile` assign into the map, so after the call
the lookup of the name yields the descriptor of this call, whatever was registered before; only
registering the same descriptor again leaves the registry as it is. -/
theorem addAsset_last_registration_wins (config : InternalConfig) (name : String)
    (labels : Labels) (target : String) :
    (InternalConfig.addAssetDirectory config name labels target).Config.Assets.Directories.get? name
      = some (NewAssetDirectory labels target) ∧
    (InternalConfig.addAssetFile config name labels target).Config.Assets.Files.get? name
      = some (NewAssetFile labels target) ∧
    InternalConfig.addAssetDirectory
        (InternalConfig.addAssetDirectory config name labels target) name labels target
      = InternalConfig.addAssetDirectory config name labels target ∧
    InternalConfig.addAssetFile (InternalConfig.addAssetFile config name labels target)
        name labels target
      = InternalConfig.addAssetFile config name labels target := by
  refine ⟨?_, ?_, ?_, ?_⟩
  · simp [InternalConfig.addAssetDirectory, GoMap.get?_set_self]
  · simp [InternalConfig.addAssetFile, GoMap.get?_set_self]
  · simp [InternalConfig.addAssetDirectory, GoMap.set_set_same]
  · simp [InternalConfig.addAssetFile, GoMap.set_set_same]

/-! ## Asset lookups -/

/-- C3, counterexample: the directory `up` is registered at `..` and the file `f` under it.  The
expansion of `join("..", "f")` is `../f`; the code roots it at `/` before it puts it under the
base path, so the local path is `/base/f` and the target path `/deploy/f`, whereas
`join("/base", "../f")` and `join("/deploy", "../f")` are both `/f`. -/
theorem resolved_path_dotdot_counterexample :
    assetConfig.Config.Assets.Directories.get? "up" = some (NewAssetDirectory [] "..") ∧
    assetConfig.Config.Assets.Files.get? "f" = some (NewAssetFile [] "up") ∧
    InternalConfig.ApplyTemplate exampleUtils assetConfig 1 "asset-file" (path.Join ["..", "f"])
      = .ok "../f" ∧
    InternalConfig.GetFullLocalAssetFilename exampleUtils assetConfig 1 "f" = .ok "/base/f" ∧
    path.Join [assetConfig.BaseDirectory, "../f"] = "/f" ∧
    InternalConfig.GetFullTargetAssetFilename exampleUtils assetConfig 1 "f" = .ok "/deploy/f" ∧
    path.Join [assetConfig.Config.DeploymentDirectory, "../f"] = "/f" := by
  decide

/-- C3, amended: for every directory registered at relative path `P`, every file registered
under it with logical name `F` and every base path `B` (the local `BaseDirectory` for
`GetFullLocalAssetFilename`, the `DeploymentDirectory` for `GetFullTargetAssetFilename`), when the
expansion of `join(P, F)` yields `E` the resolved file path is `join(B, join("/", E))`: the
expansion is rooted at `/` first and then placed under `B`.  This is `join(B, E)` whenever `B`
is not empty and `E` has no element `..`, a leading `/` included. -/
theorem resolved_path_rooted (utils : Utils) (config : InternalConfig) (fuel : Nat)
    (name expanded : String) (file : AssetFile) (directory : AssetDirectory)
    (hfile : config.Config.Assets.Files.get? name = some file)
    (hdirectory : config.Config.Assets.Directories.get? file.Directory = some directory)
    (hexpanded : InternalConfig.ApplyTemplate utils config fuel "asset-file"
      (path.Join [directory.Directory, name]) = .ok expanded) :
    InternalConfig.GetFullLocalAssetFilename utils config fuel name
      = .ok (path.Join [config.BaseDirectory, path.Join ["/", expanded]]) ∧
    InternalConfig.GetFullTargetAssetFilename utils config fuel name
      = .ok (path.Join [config.Config.DeploymentDirectory, path.Join ["/", expanded]]) ∧
    (∀ base : String, base ≠ "" → path.hasDotDot expanded = false →
      path.Join [base, path.Join ["/", expanded]] = path.Join [base, expanded]) := by
  refine ⟨?_, ?_, fun base hbase hdots => path.Join_rooted_eq base expanded hbase hdots⟩
  · simp [InternalConfig.GetFullLocalAssetFilename, InternalConfig.GetRelativeAssetFilename,
      InternalConfig.relativeAssetFilename, hfile, hdirectory, hexpanded, Except.map]
  · simp [InternalConfig.GetFullTargetAssetFilename, InternalConfig.GetRelativeAssetFilename,
      InternalConfig.relativeAssetFilename, hfile, hdirectory, hexpanded, Except.map]

/-- Witness for C3: the file `etcd` in the directory `bin` at `opt/bin` resolves to
`/base/opt/bin/etcd` locally and to `/deploy/opt/bin/etcd` on the target. -/
theorem resolved_path_rooted_witness :
    assetConfig.Config.Assets.Files.get? "etcd" = some (NewAssetFile ["controller"] "bin") ∧
    assetConfig.Config.Assets.Directories.get? "bin" = some (NewAssetDirectory [] "opt/bin") ∧
    InternalConfig.ApplyTemplate exampleUtils assetConfig 1 "asset-file"
      (path.Join ["opt/bin", "etcd"]) = .ok "opt/bin/etcd" ∧
    InternalConfig.GetFullLocalAssetFilename exampleUtils assetConfig 1 "etcd"
      = .ok "/base/opt/bin/etcd" ∧
    InternalConfig.GetFullTargetAssetFilename exampleUtils assetConfig 1 "etcd"
      = .ok "/deploy/opt/bin/etcd" :=
  have h := resolved_path_rooted exampleUtils assetConfig 1 "etcd" "opt/bin/etcd"
    (NewAssetFile ["controller"] "bin") (NewAssetDirectory [] "opt/bin")
    (by decide) (by decide) (by decide)
  ⟨by decide, by decide, by decide, h.1.trans (by decide), h.2.1.trans (by decide)⟩

/-- C4, counterexample: the file `{{` is registered in the registered directory `bin`, yet its
lookup returns no path: the joined path `opt/bin/{{` is a template with an unclosed action, and
`GetRelativeAssetFilename` ends in the fatal exit "asset file expansion". -/
theorem registered_file_lookup_fails_counterexample :
    assetConfig.Config.Assets.Files.get? "\x7b\x7b" = some (NewAssetFile [] "bin") ∧
    assetConfig.Config.Assets.Directories.get? "bin" = some (NewAssetDirectory [] "opt/bin") ∧
    ∀ fuel : Nat,
      InternalConfig.GetRelativeAssetFilename exampleUtils assetConfig (fuel + 1) "\x7b\x7b"
        = .error (.fatalAssetFileExpansion "\x7b\x7b" .unclosedAction) := by
  refine ⟨by decide, by decide, fun fuel => ?_⟩
  rfl

/-- C4, amended: a name that is not a registered directory ends `GetRelativeAssetDirectory` in
the fatal exit "missing asset directory" carrying that name; a name that is not a registered
file ends `GetRelativeAssetFilename` in "missing asset file", and a file whose owner directory
is not registered ends it in "missing asset directory", both carrying that name; none of these
returns a path.  A registered directory name returns its path.  A registered file with a
registered owner returns a path exactly when the expansion of the joined path succeeds, which
is the case when the joined path is plain text; an error of the expansion ends the lookup in
the fatal exit "asset file expansion". -/
theorem asset_lookup_outcomes (utils : Utils) (config : InternalConfig) (name : String) :
    (config.Config.Assets.Directories.get? name = none →
      InternalConfig.GetRelativeAssetDirectory config name
        = .error (.fatalMissingAssetDirectory name)) ∧
    (∀ directory, config.Config.Assets.Directories.get? name = some directory →
      InternalConfig.GetRelativeAssetDirectory config name = .ok directory.Directory) ∧
    (config.Config.Assets.Files.get? name = none → ∀ fuel,
      InternalConfig.GetRelativeAssetFilename utils config fuel name
        = .error (.fatalMissingAssetFile name)) ∧
    (∀ file, config.Config.Assets.Files.get? name = some file →
      config.Config.Assets.Directories.get? file.Directory = none → ∀ fuel,
      InternalConfig.GetRelativeAssetFilename utils config fuel name
        = .error (.fatalMissingAssetDirectory name)) ∧
    (∀ file directory, config.Config.Assets.Files.get? name = some file →
      config.Config.Assets.Directories.get? file.Directory = some directory → ∀ fuel,
      ((∃ relative, InternalConfig.GetRelativeAssetFilename utils config fuel name = .ok relative)
        ↔ ∃ expanded, InternalConfig.ApplyTemplate utils config fuel "asset-file"
            (path.Join [directory.Directory, name]) = .ok expanded) ∧
      (∀ expanded,
        InternalConfig.ApplyTemplate utils config fuel "asset-file"
            (path.Join [directory.Directory, name]) = .ok expanded →
        InternalConfig.GetRelativeAssetFilename utils config fuel name
          = .ok (path.Join ["/", expanded])) ∧
      (∀ error,
        InternalConfig.ApplyTemplate utils config fuel "asset-file"
            (path.Join [directory.Directory, name]) = .error (.error error) →
        InternalConfig.GetRelativeAssetFilename utils config fuel name
          = .error (.fatalAssetFileExpansion name error)) ∧
      (Template.isPlainText (path.Join [directory.Directory, name]) = true →
        InternalConfig.GetRelativeAssetFilename utils config (fuel + 1) name
          = .ok (path.Join ["/", path.Join [directory.Directory, name]]))) := by
  refine ⟨?_, ?_, ?_, ?_, ?_⟩
  · intro h
    simp [InternalConfig.GetRelativeAssetDirectory, h]
  · intro directory h
    simp [InternalConfig.GetRelativeAssetDirectory, h]
  · intro h fuel
    simp [InternalConfig.GetRelativeAssetFilename, InternalConfig.relativeAssetFilename, h]
  · intro file hfile hdirectory fuel
    simp [InternalConfig.GetRelativeAssetFilename, InternalConfig.relativeAssetFilename, hfile,
      hdirectory]
  · intro file directory hfile hdirectory fuel
    refine ⟨?_, ?_, ?_, ?_⟩
    · simp only [InternalConfig.GetRelativeAssetFilename, InternalConfig.relativeAssetFilename,
        hfile, hdirectory]
      cases InternalConfig.ApplyTemplate utils config fuel "asset-file"
          (path.Join [directory.Directory, name]) with
      | ok expanded => simp
      | error stop => cases stop <;> simp
    · intro expanded h
      simp [InternalConfig.GetRelativeAssetFilename, InternalConfig.relativeAssetFilename, hfile,
        hdirectory, h]
    · intro error h
      simp [InternalConfig.GetRelativeAssetFilename, InternalConfig.relativeAssetFilename, hfile,
        hdirectory, h]
    · intro h
      simp [InternalConfig.GetRelativeAssetFilename, InternalConfig.relativeAssetFilename, hfile,
        hdirectory, InternalConfig.ApplyTemplate_plain _ _ _ _ _ h]

/-- Witness for C4 in `assetConfig`: `nope` is registered neither as a directory nor as a file,
the owner of `orphan` is not registered, and `bin` and `etcd` are registered. -/
theorem asset_lookup_outcomes_witness :
    InternalConfig.GetRelativeAssetDirectory assetConfig "nope"
      = .error (.fatalMissingAssetDirectory "nope") ∧
    InternalConfig.GetRelativeAssetFilename exampleUtils assetConfig 1 "nope"
      = .error (.fatalMissingAssetFile "nope") ∧
    InternalConfig.GetRelativeAssetFilename exampleUtils assetConfig 1 "orphan"
      = .error (.fatalMissingAssetDirectory "orphan") ∧
    InternalConfig.GetRelativeAssetDirectory assetConfig "bin" = .ok "opt/bin" ∧
    InternalConfig.GetRelativeAssetFilename exampleUtils assetConfig 1 "etcd"
      = .ok "/opt/bin/etcd" :=
  ⟨(asset_lookup_outcomes exampleUtils assetConfig "nope").1 (by decide),
   (asset_lookup_outcomes exampleUtils assetConfig "nope").2.2.1 (by decide) 1,
   (asset_lookup_outcomes exampleUtils assetConfig "orphan").2.2.2.1
      (NewAssetFile [] "lost") (by decide) (by decide) 1,
   (asset_lookup_outcomes exampleUtils assetConfig "bin").2.1
      (NewAssetDirectory [] "opt/bin") (by decide),
   ((asset_lookup_outcomes exampleUtils assetConfig "etcd").2.2.2.2
      (NewAssetFile ["controller"] "bin") (NewAssetDirectory [] "opt/bin")
      (by decide) (by decide) 0).2.2.2 (by decide)⟩

/-- C5, counterexample: the directory `data` is registered at `var/{{.Name}}` in a configuration
named `node1`.  `GetRelativeAssetDirectory` returns the raw template `var/{{.Name}}` and
`GetFullTargetAssetDirectory` returns `/deploy/var/{{.Name}}`, while the template expansion of
the registered path is `var/node1`. -/
theorem directory_path_not_expanded_counterexample :
    assetConfig.Config.Assets.Directories.get? "data"
      = some (NewAssetDirectory [] "var/\x7b\x7b.Name\x7d\x7d") ∧
    InternalConfig.ApplyTemplate exampleUtils assetConfig 1 "asset-directory"
      "var/\x7b\x7b.Name\x7d\x7d" = .ok "var/node1" ∧
    InternalConfig.GetRelativeAssetDirectory assetConfig "data"
      = .ok "var/\x7b\x7b.Name\x7d\x7d" ∧
    InternalConfig.GetRelativeAssetDirectory assetConfig "data" ≠ .ok "var/node1" ∧
    InternalConfig.GetFullTargetAssetDirectory assetConfig "data"
      = .ok "/deploy/var/\x7b\x7b.Name\x7d\x7d" := by
  decide

/-- C5, amended: for every registered directory name, `GetRelativeAssetDirectory` returns the
registered relative path as it is stored, without template expansion, and the full local and
target paths join the base path with that stored path; the returned path is the expanded
string when the registered path is plain text, which expands to itself. -/
theorem directory_path_as_stored (utils : Utils) (config : InternalConfig) (name : String)
    (directory : AssetDirectory)
    (hdirectory : config.Config.Assets.Directories.get? name = some directory) :
    InternalConfig.GetRelativeAssetDirectory config name = .ok directory.Directory ∧
    InternalConfig.GetFullLocalAssetDirectory config name
      = .ok (path.Join [config.BaseDirectory, directory.Directory]) ∧
    InternalConfig.GetFullTargetAssetDirectory config name
      = .ok (path.Join [config.Config.DeploymentDirectory, directory.Directory]) ∧
    (Template.isPlainText directory.Directory = true → ∀ (fuel : Nat) (label : String),
      InternalConfig.ApplyTemplate utils config (fuel + 1) label directory.Directory
        = InternalConfig.GetRelativeAssetDirectory config name) := by
  have h : InternalConfig.GetRelativeAssetDirectory config name = .ok directory.Directory := by
    simp [InternalConfig.GetRelativeAssetDirectory, hdirectory]
  refine ⟨h, ?_, ?_, ?_⟩
  · simp [InternalConfig.GetFullLocalAssetDirectory, h, Except.map]
  · simp [InternalConfig.GetFullTargetAssetDirectory, h, Except.map]
  · intro hplain fuel label
    rw [h]
    exact InternalConfig.ApplyTemplate_plain utils config fuel label _ hplain

/-- Witness for C5: the directory `bin` of `assetConfig`, registered at `opt/bin`. -/
theorem directory_path_as_stored_witness :
    assetConfig.Config.Assets.Directories.get? "bin" = some (NewAssetDirectory [] "opt/bin") ∧
    InternalConfig.GetRelativeAssetDirectory assetConfig "bin" = .ok "opt/bin" ∧
    InternalConfig.GetFullLocalAssetDirectory assetConfig "bin" = .ok "/base/opt/bin" ∧
    InternalConfig.GetFullTargetAssetDirectory assetConfig "bin" = .ok "/deploy/opt/bin" :=
  have h := directory_path_as_stored exampleUtils assetConfig "bin"
    (NewAssetDirectory [] "opt/bin") (by decide)
  ⟨by decide, h.1, h.2.1.trans (by decide), h.2.2.1.trans (by decide)⟩

/-! ## Template functions -/

/-- C6: for every node set, expanding `{{controllers_count}}` with `ApplyTemplate` yields the
decimal representation of the number of nodes that carry the Controller role; for the nodes
`{ctrl1: 10.0.0.1 [Controller], work1: 10.0.0.2 [Worker]}` it yields `1`, and for a node set
without controllers it yields `0`.  The result is the same for every iteration order of the
node map. -/
theorem controllers_count_expansion (utils : Utils) (config : InternalConfig) (fuel : Nat)
    (label : String) :
    InternalConfig.ApplyTemplate utils config (fuel + 1) label controllersCountTemplate
      = .ok (toString ((controllers utils config.Config.Nodes).length)) ∧
    InternalConfig.ApplyTemplate exampleUtils (nodesConfig twoNodes) (fuel + 1) label
      controllersCountTemplate = .ok "1" ∧
    ((∀ kv ∈ config.Config.Nodes, kv.2.IsController utils = false) →
      InternalConfig.ApplyTemplate utils config (fuel + 1) label controllersCountTemplate
        = .ok "0") ∧
    (∀ nodes : GoMap Node, nodes.Perm config.Config.Nodes →
      InternalConfig.ApplyTemplate utils (setNodes config nodes) (fuel + 1) label
          controllersCountTemplate
        = InternalConfig.ApplyTemplate utils config (fuel + 1) label
          controllersCountTemplate) := by
  have hmain : ∀ (u : Utils) (c : InternalConfig),
      InternalConfig.ApplyTemplate u c (fuel + 1) label controllersCountTemplate
        = .ok (toString ((controllers u c.Config.Nodes).length)) := by
    intro u c
    rw [InternalConfig.ApplyTemplate_controllers_count]
    have hcount : InternalConfig.controllersCount u c
        = toString ((controllers u c.Config.Nodes).length) := by
      simp [InternalConfig.controllersCount, InternalConfig.foldl_count, controllers,
        List.countP_eq_length_filter]
    rw [hcount, Template.HTMLEscape_of_escapeFree _ (Template.escapeFree_toString_nat _)]
    simp
  refine ⟨hmain utils config, ?_, ?_, ?_⟩
  · rw [hmain]
    rfl
  · intro hnone
    rw [hmain]
    have hempty : controllers utils config.Config.Nodes = [] := by
      simp only [controllers, List.filter_eq_nil_iff]
      intro kv hkv
      simp [hnone kv hkv]
    rw [hempty]
    rfl
  · intro nodes hperm
    rw [hmain, hmain]
    have hlength : (controllers utils (setNodes config nodes).Config.Nodes).length
        = (controllers utils config.Config.Nodes).length :=
      (List.Perm.filter _ hperm).length_eq
    rw [hlength]

/-- Witness for C6: a node set with a single worker node has no controller. -/
theorem controllers_count_expansion_witness :
    (∀ kv ∈ (nodesConfig [("work1", NewNode "10.0.0.2" 1 ["worker"])]).Config.Nodes,
      kv.2.IsController exampleUtils = false) ∧
    InternalConfig.ApplyTemplate exampleUtils
      (nodesConfig [("work1", NewNode "10.0.0.2" 1 ["worker"])]) 1 "count"
      controllersCountTemplate = .ok "0" :=
  ⟨by decide,
   (controllers_count_expansion exampleUtils
      (nodesConfig [("work1", NewNode "10.0.0.2" 1 ["worker"])]) 0 "count").2.2.1 (by decide)⟩

/-- C7, counterexample: the controller node `c&1` with ip `10.0.0.1`.  The entry of the claim is
`c&1=https://10.0.0.1:2380`, but the expansion of `{{etcd_cluster}}` is
`c&amp;1=https://10.0.0.1:2380`: the value of the action passes through the HTML escaper. -/
theorem etcd_cluster_escaped_counterexample :
    ",".intercalate
        ((controllers exampleUtils [("c&1", NewNode "10.0.0.1" 0 ["controller"])]).map
          clusterEntry)
      = "c&1=https://10.0.0.1:2380" ∧
    InternalConfig.ApplyTemplate exampleUtils
        (nodesConfig [("c&1", NewNode "10.0.0.1" 0 ["controller"])]) 1 "cluster"
        etcdClusterTemplate
      = .ok "c&amp;1=https://10.0.0.1:2380" := by
  decide

/-- C7, amended: for every node set whose Controller-role nodes have names and ips without the
characters `&`, `<`, `>`, `"`, `'`, `+` and NUL, expanding `{{etcd_cluster}}` with
`ApplyTemplate` yields the comma-joined list of exactly one entry `<nodeName>=https://<ip>:2380`
per Controller-role node, in iteration order, and no entry for any other node. -/
theorem etcd_cluster_expansion (utils : Utils) (config : InternalConfig) (fuel : Nat)
    (label : String)
    (hfree : ∀ kv ∈ config.Config.Nodes, kv.2.IsController utils = true →
      Template.escapeFree kv.1 = true ∧ Template.escapeFree kv.2.IP = true) :
    InternalConfig.ApplyTemplate utils config (fuel + 1) label etcdClusterTemplate
      = .ok (",".intercalate ((controllers utils config.Config.Nodes).map clusterEntry)) := by
  rw [ApplyTemplate_etcd_cluster, etcdCluster_eq]
  congr 1
  apply Template.HTMLEscape_of_escapeFree
  apply escapeFree_intercalate
  intro e he
  obtain ⟨kv, hkv, rfl⟩ := List.mem_map.mp he
  obtain ⟨hmem, hcontroller⟩ := List.mem_filter.mp hkv
  obtain ⟨h1, h2⟩ := hfree kv hmem hcontroller
  have h3 : Template.escapeFree "=https://" = true := by decide
  have h4 : Template.escapeFree ":2380" = true := by decide
  simp [Template.escapeFree_append, h1, h2, h3, h4]

/-- Witness for C7: for the nodes `{ctrl1: 10.0.0.1 [Controller], work1: 10.0.0.2 [Worker]}` the
expansion is `ctrl1=https://10.0.0.1:2380`. -/
theorem etcd_cluster_expansion_witness :
    (∀ kv ∈ (nodesConfig twoNodes).Config.Nodes, kv.2.IsController exampleUtils = true →
      Template.escapeFree kv.1 = true ∧ Template.escapeFree kv.2.IP = true) ∧
    InternalConfig.ApplyTemplate exampleUtils (nodesConfig twoNodes) 1 "cluster"
      etcdClusterTemplate = .ok "ctrl1=https://10.0.0.1:2380" :=
  ⟨by decide,
   (etcd_cluster_expansion exampleUtils (nodesConfig twoNodes) 0 "cluster" (by decide)).trans
     (by decide)⟩

/-- No character of an IP address is replaced by the HTML escaper: an address is written with
digits, letters, dots and colons. -/
theorem escapeFree_of_address (ip : String)
    (h : ip.data.all (fun c => c.isDigit || c.isAlpha || c == '.' || c == ':') = true) :
    Template.escapeFree ip = true := by
  unfold Template.escapeFree
  rw [List.all_eq_true] at h ⊢
  intro c hc
  have hchar := h c hc
  have hne : ∀ x : Char,
      (x.isDigit || x.isAlpha || x == '.' || x == ':') = false → c ≠ x := by
    intro x hx heq
    rw [heq, hx] at hchar
    cases hchar
  have h0 := hne (Char.ofNat 0) (by decide)
  have h1 := hne '"' (by decide)
  have h2 := hne '&' (by decide)
  have h3 := hne '\'' (by decide)
  have h4 := hne '+' (by decide)
  have h5 := hne '<' (by decide)
  have h6 := hne '>' (by decide)
  simp [Template.escapeRune, h0, h1, h2, h3, h4, h5, h6]

/-- C8: for every node set, expanding `{{etcd_servers}}` with `ApplyTemplate` yields the
comma-joined list of the elements of `GetETCDClientEndpoints`, which are exactly one entry
`https://<ip>:2379` per Controller-role node, in iteration order, and no entry for any other
node; with no controller node the result is the empty string.  The ips of the Controller-role
nodes are taken to hold none of the characters `&`, `<`, `>`, `"`, `'`, `+` and NUL, which the
HTML escaper of `html/template` replaces; as the last part says, this is so for every ip written
with digits, letters, dots and colons, as all IP addresses are. -/
theorem etcd_servers_expansion (utils : Utils) (config : InternalConfig) (fuel : Nat)
    (label : String)
    (hfree : ∀ kv ∈ config.Config.Nodes, kv.2.IsController utils = true →
      Template.escapeFree kv.2.IP = true) :
    InternalConfig.GetETCDClientEndpoints utils config
      = (controllers utils config.Config.Nodes).map clientEndpoint ∧
    InternalConfig.ApplyTemplate utils config (fuel + 1) label etcdServersTemplate
      = .ok (",".intercalate (InternalConfig.GetETCDClientEndpoints utils config)) ∧
    (controllers utils config.Config.Nodes = [] →
      InternalConfig.ApplyTemplate utils config (fuel + 1) label etcdServersTemplate = .ok "") ∧
    (∀ ip : String,
      ip.data.all (fun c => c.isDigit || c.isAlpha || c == '.' || c == ':') = true →
      Template.escapeFree ip = true) := by
  have hexpansion :
      InternalConfig.ApplyTemplate utils config (fuel + 1) label etcdServersTemplate
        = .ok (",".intercalate (InternalConfig.GetETCDClientEndpoints utils config)) := by
    rw [ApplyTemplate_etcd_servers, etcdServers_eq, GetETCDClientEndpoints_eq]
    congr 1
    apply Template.HTMLEscape_of_escapeFree
    apply escapeFree_intercalate
    intro e he
    obtain ⟨kv, hkv, rfl⟩ := List.mem_map.mp he
    obtain ⟨hmem, hcontroller⟩ := List.mem_filter.mp hkv
    have h1 := hfree kv hmem hcontroller
    have h2 : Template.escapeFree "https://" = true := by decide
    have h3 : Template.escapeFree ":2379" = true := by decide
    simp [Template.escapeFree_append, h1, h2, h3]
  refine ⟨GetETCDClientEndpoints_eq utils config, hexpansion, ?_, escapeFree_of_address⟩
  intro hnone
  rw [hexpansion, GetETCDClientEndpoints_eq]
  have hnone2 : List.filter (fun kv => kv.2.IsController utils) config.Config.Nodes = [] := hnone
  rw [hnone2]
  rfl

/-- Witness for C8: for the nodes `{ctrl1: 10.0.0.1 [Controller], work1: 10.0.0.2 [Worker]}` the
expansion is `https://10.0.0.1:2379`. -/
theorem etcd_servers_expansion_witness :
    (∀ kv ∈ (nodesConfig twoNodes).Config.Nodes, kv.2.IsController exampleUtils = true →
      Template.escapeFree kv.2.IP = true) ∧
    InternalConfig.ApplyTemplate exampleUtils (nodesConfig twoNodes) 1 "servers"
      etcdServersTemplate = .ok "https://10.0.0.1:2379" ∧
    Template.escapeFree "fe80::1" = true :=
  ⟨by decide,
   (etcd_servers_expansion exampleUtils (nodesConfig twoNodes) 0 "servers"
      (by decide)).2.1.trans (by decide),
   (etcd_servers_expansion exampleUtils (nodesConfig twoNodes) 0 "servers"
      (by decide)).2.2.2 "fe80::1" (by decide)⟩

/-- C9, counterexample: the node set with the controllers `ctrl1` and `ctrl2`, iterated once in
the order of the names and once in the opposite order.  Both lists are the same map, and the
expansions of `{{etcd_servers}}` and `{{etcd_cluster}}` differ: the entries follow the iteration
order, not the sorted names. -/
theorem etcd_expansion_order_counterexample :
    twoControllers.Perm twoControllers.reverse ∧
    InternalConfig.ApplyTemplate exampleUtils (nodesConfig twoControllers) 1 "servers"
      etcdServersTemplate = .ok "https://10.0.0.1:2379,https://10.0.0.2:2379" ∧
    InternalConfig.ApplyTemplate exampleUtils (nodesConfig twoControllers.reverse) 1 "servers"
      etcdServersTemplate = .ok "https://10.0.0.2:2379,https://10.0.0.1:2379" ∧
    InternalConfig.ApplyTemplate exampleUtils (nodesConfig twoControllers) 1 "cluster"
      etcdClusterTemplate = .ok "ctrl1=https://10.0.0.1:2380,ctrl2=https://10.0.0.2:2380" ∧
    InternalConfig.ApplyTemplate exampleUtils (nodesConfig twoControllers.reverse) 1 "cluster"
      etcdClusterTemplate = .ok "ctrl2=https://10.0.0.2:2380,ctrl1=https://10.0.0.1:2380" :=
  ⟨(List.reverse_perm twoControllers).symm, by decide, by decide, by decide, by decide⟩

/-- C9, amended: the expansions of `{{etcd_servers}}` and `{{etcd_cluster}}` list the entries in
the order in which the node map is iterated.  Two iterations that visit the Controller-role
nodes in the same order produce the same strings, and with at most one Controller-role node the
strings do not depend on the iteration order of the node map at all. -/
theorem etcd_expansion_order (utils : Utils) (config : InternalConfig)
    (nodes1 nodes2 : GoMap Node) (fuel : Nat) (label : String) :
    (controllers utils nodes1 = controllers utils nodes2 →
      InternalConfig.ApplyTemplate utils (setNodes config nodes1) (fuel + 1) label
          etcdServersTemplate
        = InternalConfig.ApplyTemplate utils (setNodes config nodes2) (fuel + 1) label
          etcdServersTemplate ∧
      InternalConfig.ApplyTemplate utils (setNodes config nodes1) (fuel + 1) label
          etcdClusterTemplate
        = InternalConfig.ApplyTemplate utils (setNodes config nodes2) (fuel + 1) label
          etcdClusterTemplate) ∧
    (nodes1.Perm nodes2 → (controllers utils nodes1).length ≤ 1 →
      InternalConfig.ApplyTemplate utils (setNodes config nodes1) (fuel + 1) label
          etcdServersTemplate
        = InternalConfig.ApplyTemplate utils (setNodes config nodes2) (fuel + 1) label
          etcdServersTemplate ∧
      InternalConfig.ApplyTemplate utils (setNodes config nodes1) (fuel + 1) label
          etcdClusterTemplate
        = InternalConfig.ApplyTemplate utils (setNodes config nodes2) (fuel + 1) label
          etcdClusterTemplate) := by
  have hsame : controllers utils nodes1 = controllers utils nodes2 →
      InternalConfig.ApplyTemplate utils (setNodes config nodes1) (fuel + 1) label
          etcdServersTemplate
        = InternalConfig.ApplyTemplate utils (setNodes config nodes2) (fuel + 1) label
          etcdServersTemplate ∧
      InternalConfig.ApplyTemplate utils (setNodes config nodes1) (fuel + 1) label
          etcdClusterTemplate
        = InternalConfig.ApplyTemplate utils (setNodes config nodes2) (fuel + 1) label
          etcdClusterTemplate := by
    intro h
    have h2 : List.filter (fun kv => kv.2.IsController utils) nodes1
        = List.filter (fun kv => kv.2.IsController utils) nodes2 := h
    simp only [ApplyTemplate_etcd_servers, ApplyTemplate_etcd_cluster, etcdServers_eq,
      etcdCluster_eq, setNodes, h2, and_self]
  refine ⟨hsame, ?_⟩
  intro hperm hlength
  apply hsame
  have hfilter : (controllers utils nodes1).Perm (controllers utils nodes2) :=
    List.Perm.filter _ hperm
  match hc : controllers utils nodes1, hlength, hfilter with
  | [], _, hp => exact hp.nil_eq
  | [a], _, hp => exact (List.perm_singleton.mp hp.symm).symm
  | _ :: _ :: _, hl, _ => simp at hl

/-- Witness for C9: the nodes `{ctrl1 [Controller], work1 [Worker]}` have one controller, so
iterating the map in the opposite order gives the same expansions. -/
theorem etcd_expansion_order_witness :
    twoNodes.Perm twoNodes.reverse ∧ (controllers exampleUtils twoNodes).length ≤ 1 ∧
    InternalConfig.ApplyTemplate exampleUtils (setNodes registeredConfig twoNodes) 1 "servers"
        etcdServersTemplate
      = InternalConfig.ApplyTemplate exampleUtils (setNodes registeredConfig twoNodes.reverse) 1
        "servers" etcdServersTemplate ∧
    InternalConfig.ApplyTemplate exampleUtils (setNodes registeredConfig twoNodes) 1 "servers"
        etcdClusterTemplate
      = InternalConfig.ApplyTemplate exampleUtils (setNodes registeredConfig twoNodes.reverse) 1
        "servers" etcdClusterTemplate :=
  have h := (etcd_expansion_order exampleUtils registeredConfig twoNodes twoNodes.reverse 0
    "servers").2 (List.reverse_perm twoNodes).symm (by decide)
  ⟨(List.reverse_perm twoNodes).symm, by decide, h.1, h.2⟩

/-- C10, counterexample: the file `a+b` is registered in the directory `bin`.  Its target path
is `/deploy/opt/bin/a+b`, but the expansion of the template `{{asset_file "a+b"}}` is
`/deploy/opt/bin/a&#43;b`: the value of the action passes through the HTML escaper. -/
theorem asset_template_escaped_counterexample :
    assetConfig.Config.Assets.Files.get? "a+b" = some (NewAssetFile [] "bin") ∧
    InternalConfig.GetFullTargetAssetFilename exampleUtils assetConfig 1 "a+b"
      = .ok "/deploy/opt/bin/a+b" ∧
    InternalConfig.ApplyTemplate exampleUtils assetConfig 2 "command"
      (InternalConfig.GetTemplateAssetFilename "a+b") = .ok "/deploy/opt/bin/a&#43;b" := by
  decide

/-- C10, amended: for every file name `F` and directory name `D` without double quote, backslash
and newline whose target path has none of the characters `&`, `<`, `>`, `"`, `'`, `+` and NUL,
expanding the templates produced by `GetTemplateAssetFilename(F)` and
`GetTemplateAssetDirectory(D)` with `ApplyTemplate` yields the fully-qualified target paths
`GetFullTargetAssetFilename(F)` and `GetFullTargetAssetDirectory(D)`, which are the relative
asset paths joined to the `DeploymentDirectory`. -/
theorem asset_template_expansion (utils : Utils) (config : InternalConfig) (fuel : Nat)
    (label name : String) (hname : Template.literalSafe name = true) :
    (∀ full, InternalConfig.GetFullTargetAssetFilename utils config fuel name = .ok full →
      Template.escapeFree full = true →
      InternalConfig.ApplyTemplate utils config (fuel + 1) label
        (InternalConfig.GetTemplateAssetFilename name) = .ok full) ∧
    (∀ full, InternalConfig.GetFullTargetAssetDirectory config name = .ok full →
      Template.escapeFree full = true →
      InternalConfig.ApplyTemplate utils config (fuel + 1) label
        (InternalConfig.GetTemplateAssetDirectory name) = .ok full) ∧
    InternalConfig.GetFullTargetAssetFilename utils config fuel name
      = (InternalConfig.GetRelativeAssetFilename utils config fuel name).map
          (fun relative => path.Join [config.Config.DeploymentDirectory, relative]) ∧
    InternalConfig.GetFullTargetAssetDirectory config name
      = (InternalConfig.GetRelativeAssetDirectory config name).map
          (fun relative => path.Join [config.Config.DeploymentDirectory, relative]) := by
  refine ⟨?_, ?_, rfl, rfl⟩
  · intro full hfull hfree
    rw [ApplyTemplate_asset_file utils config fuel label name hname, hfull]
    simp [Except.map, Template.HTMLEscape_of_escapeFree _ hfree]
  · intro full hfull hfree
    rw [ApplyTemplate_asset_directory utils config fuel label name hname, hfull]
    simp [Except.map, Template.HTMLEscape_of_escapeFree _ hfree]

/-- Witness for C10: the file `etcd` and the directory `bin` of `assetConfig`. -/
theorem asset_template_expansion_witness :
    Template.literalSafe "etcd" = true ∧ Template.literalSafe "bin" = true ∧
    InternalConfig.GetFullTargetAssetFilename exampleUtils assetConfig 1 "etcd"
      = .ok "/deploy/opt/bin/etcd" ∧
    InternalConfig.ApplyTemplate exampleUtils assetConfig 2 "command"
      (InternalConfig.GetTemplateAssetFilename "etcd") = .ok "/deploy/opt/bin/etcd" ∧
    InternalConfig.GetFullTargetAssetDirectory assetConfig "bin" = .ok "/deploy/opt/bin" ∧
    InternalConfig.ApplyTemplate exampleUtils assetConfig 2 "command"
      (InternalConfig.GetTemplateAssetDirectory "bin") = .ok "/deploy/opt/bin" :=
  ⟨by decide, by decide, by decide,
   (asset_template_expansion exampleUtils assetConfig 1 "command" "etcd" (by decide)).1
     "/deploy/opt/bin/etcd" (by decide) (by decide),
   by decide,
   (asset_template_expansion exampleUtils assetConfig 1 "command" "bin" (by decide)).2.1
     "/deploy/opt/bin" (by decide) (by decide)⟩

/-! ## Nodes -/

namespace GoMap

theorem get?_delete_self {α : Type} (m : GoMap α) (key : String) :
    (m.delete key).get? key = none := by
  induction m with
  | nil => rfl
  | cons kv rest ih =>
    obtain ⟨k, v⟩ := kv
    by_cases hk : k = key
    · simpa [delete, List.filter_cons, hk] using ih
    · have hk2 : (key == k) = false := by simpa using fun h => hk h.symm
      simpa [delete, List.filter_cons, hk, get?, List.lookup, hk2] using ih

theorem get?_delete_other {α : Type} (m : GoMap α) (key other : String) (h : other ≠ key) :
    (m.delete key).get? other = m.get? other := by
  induction m with
  | nil => rfl
  | cons kv rest ih =>
    obtain ⟨k, v⟩ := kv
    by_cases hk : k = key
    · subst hk
      have h2 : (other == k) = false := by simpa using h
      simpa [delete, List.filter_cons, get?, List.lookup, h2] using ih
    · by_cases ho : other = k
      · subst ho
        simp [delete, List.filter_cons, hk, get?, List.lookup]
      · have h2 : (other == k) = false := by simpa using ho
        simpa [delete, List.filter_cons, hk, get?, List.lookup, h2] using ih

end GoMap

theorem Trim_of_all_cutset (s cutset : String)
    (h : s.data.all (fun c => cutset.data.contains c) = true) : strings.Trim s cutset = "" := by
  have h1 : s.data.dropWhile (fun c => cutset.data.contains c) = [] := by
    rw [List.dropWhile_eq_nil_iff]
    simpa using h
  unfold strings.Trim
  rw [h1]
  rfl

theorem AddNode_cases (validIP : String → Bool) (config : InternalConfig) (name ip : String)
    (index : Nat) (labels : Labels) :
    (strings.Trim name " \n" = "" ∧
      InternalConfig.AddNode validIP config name ip index labels
        = (config, none, some "empty node name")) ∨
    (strings.Trim name " \n" ≠ "" ∧ validIP ip = false ∧
      InternalConfig.AddNode validIP config name ip index labels
        = (config, none, some "invalid or wrong ip format")) ∨
    (strings.Trim name " \n" ≠ "" ∧ validIP ip = true ∧
      InternalConfig.AddNode validIP config name ip index labels
        = (setNodes config
            (config.Config.Nodes.set (strings.Trim name " \n") (NewNode ip index labels)),
           some (NewNode ip index labels), none)) := by
  have hlen : ∀ t : String, t.length = 0 ↔ t = "" := by
    intro t
    constructor
    · intro h
      cases t with
      | mk data =>
        have : data = [] := List.length_eq_zero.mp h
        simp [this]
    · rintro rfl
      rfl
  by_cases h1 : strings.Trim name " \n" = ""
  · left
    refine ⟨h1, ?_⟩
    simp [InternalConfig.AddNode, h1]
  · right
    have h1' : ¬ (strings.Trim name " \n").length = 0 := fun h => h1 ((hlen _).mp h)
    by_cases h2 : validIP ip = true
    · right
      refine ⟨h1, h2, ?_⟩
      simp [InternalConfig.AddNode, h1', h2, setNodes, GoMap.get?_set_self]
    · left
      have h2' : validIP ip = false := by simpa using h2
      refine ⟨h1, h2', ?_⟩
      simp [InternalConfig.AddNode, h1', h2']

theorem dropWhile_prefix_of_fixed {p : Char → Bool} (r rest d : List Char) (h : r ++ rest = d)
    (hd : List.dropWhile p d = d) : List.dropWhile p r = r := by
  cases r with
  | nil => rfl
  | cons x xs =>
    subst h
    have hx : ¬ p x = true := by
      have := List.dropWhile_eq_self_iff.mp hd (by simp)
      simpa using this
    simp [List.dropWhile_cons, hx]

theorem Trim_idempotent (s cutset : String) :
    strings.Trim (strings.Trim s cutset) cutset = strings.Trim s cutset := by
  have hform : ∀ t : String, strings.Trim t cutset
      = String.mk (List.rdropWhile (fun c => cutset.data.contains c)
          (List.dropWhile (fun c => cutset.data.contains c) t.data)) := fun t => rfl
  rw [hform (strings.Trim s cutset), hform s]
  congr 1
  simp only
  generalize hd : List.dropWhile (fun c => cutset.data.contains c) s.data = d
  have hidem : List.dropWhile (fun c => cutset.data.contains c) d = d := by
    rw [← hd, List.dropWhile_idempotent]
  obtain ⟨rest, hrest⟩ : List.rdropWhile (fun c => cutset.data.contains c) d <+: d :=
    List.rdropWhile_prefix (fun c => cutset.data.contains c) d
  rw [dropWhile_prefix_of_fixed _ rest d hrest hidem, List.rdropWhile_idempotent]

/-- C16, counterexample: the name consisting of one tab.  It is empty once all whitespace is
trimmed, yet `AddNode` returns no error and stores the node under the key made of that tab:
the code trims blanks and newlines only. -/
theorem AddNode_tab_name_counterexample :
    strings.Trim "\t" " \n\t\r" = "" ∧
    (InternalConfig.AddNode dottedQuad (nodesConfig []) "\t" "10.0.0.1" 0 ["worker"]).2.2
      = none ∧
    (InternalConfig.AddNode dottedQuad (nodesConfig []) "\t" "10.0.0.1" 0
        ["worker"]).1.Config.Nodes
      = [("\t", NewNode "10.0.0.1" 0 ["worker"])] := by
  decide

/-- C16, amended: every node that `AddNode` stores has a key that is the name trimmed of blanks
and newlines, this key is not empty and trimming it again changes nothing, and its ip is one
that `net.ParseIP` accepts; a call that returns an error stores nothing, and for every name
consisting only of blanks and newlines `AddNode` stores nothing and returns an error. -/
theorem AddNode_stores_valid_nodes (validIP : String → Bool) (config : InternalConfig)
    (name ip : String) (index : Nat) (labels : Labels) :
    ((InternalConfig.AddNode validIP config name ip index labels).2.2 = none →
      strings.Trim name " \n" ≠ "" ∧
      strings.Trim (strings.Trim name " \n") " \n" = strings.Trim name " \n" ∧
      validIP ip = true ∧
      (InternalConfig.AddNode validIP config name ip index labels).1.Config.Nodes.get?
        (strings.Trim name " \n") = some (NewNode ip index labels)) ∧
    ((InternalConfig.AddNode validIP config name ip index labels).2.2 ≠ none →
      (InternalConfig.AddNode validIP config name ip index labels).1 = config) ∧
    (name.data.all (fun c => c == ' ' || c == '\n') = true →
      InternalConfig.AddNode validIP config name ip index labels
        = (config, none, some "empty node name")) := by
  refine ⟨?_, ?_, ?_⟩
  · intro hok
    rcases AddNode_cases validIP config name ip index labels with h | h | h
    · rw [h.2] at hok
      simp at hok
    · rw [h.2.2] at hok
      simp at hok
    · refine ⟨h.1, Trim_idempotent _ _, h.2.1, ?_⟩
      rw [h.2.2]
      simp [setNodes, GoMap.get?_set_self]
  · intro herror
    rcases AddNode_cases validIP config name ip index labels with h | h | h
    · rw [h.2]
    · rw [h.2.2]
    · rw [h.2.2] at herror
      simp at herror
  · intro hblank
    have htrim : strings.Trim name " \n" = "" := by
      apply Trim_of_all_cutset
      rw [List.all_eq_true] at hblank ⊢
      intro c hc
      have := hblank c hc
      have hdata : (" \n" : String).data = [' ', '\n'] := rfl
      rw [hdata]
      simpa using this
    rcases AddNode_cases validIP config name ip index labels with h | h | h
    · exact h.2
    · exact absurd htrim h.1
    · exact absurd htrim h.1

/-- Witness for C16: the name ` node3` followed by a newline is stored under `node3`, and the
name of two blanks is refused. -/
theorem AddNode_stores_valid_nodes_witness :
    (InternalConfig.AddNode dottedQuad (nodesConfig twoNodes) " node3\n" "10.0.0.3" 2
      ["worker"]).2.2 = none ∧
    strings.Trim " node3\n" " \n" = "node3" ∧
    (InternalConfig.AddNode dottedQuad (nodesConfig twoNodes) " node3\n" "10.0.0.3" 2
      ["worker"]).1.Config.Nodes.get? "node3" = some (NewNode "10.0.0.3" 2 ["worker"]) ∧
    InternalConfig.AddNode dottedQuad (nodesConfig twoNodes) "  " "10.0.0.3" 2 ["worker"]
      = (nodesConfig twoNodes, none, some "empty node name") :=
  ⟨by decide, by decide,
   ((AddNode_stores_valid_nodes dottedQuad (nodesConfig twoNodes) " node3\n" "10.0.0.3" 2
      ["worker"]).1 (by decide)).2.2.2,
   (AddNode_stores_valid_nodes dottedQuad (nodesConfig twoNodes) "  " "10.0.0.3" 2
      ["worker"]).2.2 (by decide)⟩

/-- C17, counterexample: the name made of a carriage return and a tab, with an ip that parses.
The name is empty after trimming whitespace, so the claim has `AddNode` return an error and a
nil node; the code trims blanks and newlines only, returns no error and returns the node, which
it has added to the node set. -/
theorem AddNode_whitespace_name_no_error_counterexample :
    strings.Trim "\r\t" " \n\t\r" = "" ∧
    strings.Trim "\r\t" " \n" = "\r\t" ∧
    dottedQuad "10.0.0.3" = true ∧
    (InternalConfig.AddNode dottedQuad (nodesConfig twoNodes) "\r\t" "10.0.0.3" 2
      ["worker"]).2.2 = none ∧
    (InternalConfig.AddNode dottedQuad (nodesConfig twoNodes) "\r\t" "10.0.0.3" 2
      ["worker"]).2.1 = some (NewNode "10.0.0.3" 2 ["worker"]) ∧
    (InternalConfig.AddNode dottedQuad (nodesConfig twoNodes) "\r\t" "10.0.0.3" 2
      ["worker"]).1.Config.Nodes ≠ twoNodes := by
  decide

/-- C17, amended: `AddNode` returns an error, and then a nil node, if and only if the name is
empty after trimming its leading and trailing blanks and newlines (tabs and carriage returns are
not trimmed) or the ip does not parse as an IP address; whenever it returns an error the node
set, with the whole configuration, is the one before the call. -/
theorem AddNode_error_iff (validIP : String → Bool) (config : InternalConfig)
    (name ip : String) (index : Nat) (labels : Labels) :
    ((InternalConfig.AddNode validIP config name ip index labels).2.2 ≠ none ↔
      strings.Trim name " \n" = "" ∨ validIP ip = false) ∧
    ((InternalConfig.AddNode validIP config name ip index labels).2.2 ≠ none →
      (InternalConfig.AddNode validIP config name ip index labels).2.1 = none ∧
      (InternalConfig.AddNode validIP config name ip index labels).1 = config ∧
      (InternalConfig.AddNode validIP config name ip index labels).1.Config.Nodes
        = config.Config.Nodes) := by
  rcases AddNode_cases validIP config name ip index labels with h | h | h
  · rw [h.2]
    simp [h.1]
  · rw [h.2.2]
    simp [h.2.1]
  · rw [h.2.2]
    simp [h.1, h.2.1]

/-- Witness for C17: an ip that does not parse is refused and the node set stays as it was. -/
theorem AddNode_error_iff_witness :
    (InternalConfig.AddNode dottedQuad (nodesConfig twoNodes) "node3" "10.0.0.300" 2
      ["worker"]).2.2 ≠ none ∧
    (InternalConfig.AddNode dottedQuad (nodesConfig twoNodes) "node3" "10.0.0.300" 2
      ["worker"]).2.1 = none ∧
    (InternalConfig.AddNode dottedQuad (nodesConfig twoNodes) "node3" "10.0.0.300" 2
      ["worker"]).1.Config.Nodes = twoNodes :=
  have h := (AddNode_error_iff dottedQuad (nodesConfig twoNodes) "node3" "10.0.0.300" 2
    ["worker"]).2 (by decide)
  ⟨by decide, h.1, h.2.2⟩

/-- C19: `RemoveNode(name)` returns the error "node not found" if and only if the name is not a
key of the node set, and then leaves the configuration unchanged; otherwise it succeeds, the
name is no longer a key afterwards, every other name maps to the same node as before and
nothing but the node set changes. -/
theorem RemoveNode_outcomes (config : InternalConfig) (name : String) :
    ((InternalConfig.RemoveNode config name).2 = some "node not found" ↔
      config.Config.Nodes.get? name = none) ∧
    (config.Config.Nodes.get? name = none →
      (InternalConfig.RemoveNode config name).1 = config) ∧
    (config.Config.Nodes.get? name ≠ none →
      (InternalConfig.RemoveNode config name).2 = none ∧
      (InternalConfig.RemoveNode config name).1.Config.Nodes.get? name = none ∧
      (∀ other : String, other ≠ name →
        (InternalConfig.RemoveNode config name).1.Config.Nodes.get? other
          = config.Config.Nodes.get? other) ∧
      (InternalConfig.RemoveNode config name).1
        = setNodes config (InternalConfig.RemoveNode config name).1.Config.Nodes) := by
  cases hget : config.Config.Nodes.get? name with
  | none => simp [InternalConfig.RemoveNode, hget]
  | some node =>
    refine ⟨by simp [InternalConfig.RemoveNode, hget], by simp, fun _ => ?_⟩
    refine ⟨by simp [InternalConfig.RemoveNode, hget], ?_, ?_, ?_⟩
    · simp [InternalConfig.RemoveNode, hget, setNodes, GoMap.get?_delete_self]
    · intro other hother
      simp [InternalConfig.RemoveNode, hget, setNodes, GoMap.get?_delete_other _ _ _ hother]
    · simp [InternalConfig.RemoveNode, hget, setNodes]

/-- Witness for C19: removing `ctrl1` from the two nodes succeeds and leaves `work1`; removing
the unknown `node9` is refused and changes nothing. -/
theorem RemoveNode_outcomes_witness :
    (nodesConfig twoNodes).Config.Nodes.get? "ctrl1" ≠ none ∧
    (InternalConfig.RemoveNode (nodesConfig twoNodes) "ctrl1").2 = none ∧
    (InternalConfig.RemoveNode (nodesConfig twoNodes) "ctrl1").1.Config.Nodes.get? "ctrl1"
      = none ∧
    (nodesConfig twoNodes).Config.Nodes.get? "node9" = none ∧
    (InternalConfig.RemoveNode (nodesConfig twoNodes) "node9").2 = some "node not found" ∧
    (InternalConfig.RemoveNode (nodesConfig twoNodes) "node9").1 = nodesConfig twoNodes :=
  have h := (RemoveNode_outcomes (nodesConfig twoNodes) "ctrl1").2.2 (by decide)
  ⟨by decide, h.1, h.2.1, by decide,
   (RemoveNode_outcomes (nodesConfig twoNodes) "node9").1.mpr (by decide),
   (RemoveNode_outcomes (nodesConfig twoNodes) "node9").2.1 (by decide)⟩

/-! ## Supervisor: `Stop` and `Name` -/

theorem Supervision.Start_server (s : Supervision) (createDirectory : Option String) :
    (s.Start createDirectory).1.server = { s.server with stop := false } := by
  unfold Supervision.Start
  dsimp only
  cases (if s.server.logger.Enabled = true then createDirectory else none) <;> rfl

theorem Supervision.run_name (s : Supervision) (calls : List Call) :
    (s.run calls).server.name = s.server.name := by
  induction calls generalizing s with
  | nil => rfl
  | cons call rest ih =>
    cases call with
    | start createDirectory =>
      rw [Supervision.run, ih, Supervision.Start_server]
    | stop =>
      rw [Supervision.run, ih]
      rfl

theorem NewServerWrapper_name (utils : Utils) (config : InternalConfig) (fuel : Nat)
    (name : String) (serverConfig : ServerConfig) (server : ServerWrapper)
    (h : NewServerWrapper utils config fuel name serverConfig = .ok server) :
    server.name = name := by
  unfold NewServerWrapper at h
  split at h
  · cases h
  · split at h
    · cases h
    · split at h
      · cases h
      · cases h
        rfl

/-- C20: `Stop` changes only the stop flag of the supervisor, which it sets to true: the name,
the base directory, the expanded argv and the logger settings are unchanged, and so are the
running child processes and the control loops; `Name` returns the name given at construction
after any sequence of `Start` and `Stop` calls. -/
theorem Stop_changes_only_the_flag (s : Supervision) :
    s.Stop.server.stop = true ∧
    s.Stop.server.name = s.server.name ∧
    s.Stop.server.baseDirectory = s.server.baseDirectory ∧
    s.Stop.server.command = s.server.command ∧
    s.Stop.server.logger = s.server.logger ∧
    s.Stop.children = s.children ∧
    s.Stop.loops = s.loops ∧
    s.Stop = { s with server := { s.server with stop := true } } ∧
    (∀ calls : List Call, (s.run calls).server.Name = s.server.Name) ∧
    (∀ (utils : Utils) (config : InternalConfig) (fuel : Nat) (name : String)
        (serverConfig : ServerConfig) (server : ServerWrapper),
      NewServerWrapper utils config fuel name serverConfig = .ok server →
      ∀ (loops : Nat) (children : List (List String)) (calls : List Call),
        ((Supervision.mk server loops children).run calls).server.Name = name) := by
  refine ⟨rfl, rfl, rfl, rfl, rfl, rfl, rfl, rfl, ?_, ?_⟩
  · intro calls
    exact Supervision.run_name s calls
  · intro utils config fuel name serverConfig server h loops children calls
    have h1 := Supervision.run_name (Supervision.mk server loops children) calls
    have h2 := NewServerWrapper_name utils config fuel name serverConfig server h
    simp only [ServerWrapper.Name]
    rw [h1]
    exact h2

/-- Witness for C20: the server `etcd` built from a plain descriptor keeps its name through
`Start`, `Stop`, a failed `Start` and `Stop`. -/
theorem Stop_changes_only_the_flag_witness :
    NewServerWrapper exampleUtils assetConfig 1 "etcd"
        { Name := "etcd", Labels := [], Command := "/bin/etcd", Arguments := [("v", "0")],
          Logger := { Enabled := true, Filename := "/log/etcd.log" } }
      = .ok { stop := false, name := "etcd", baseDirectory := "/base",
              command := ["/bin/etcd", "--v=0"],
              logger := { Enabled := true, Filename := "/log/etcd.log" } } ∧
    ((Supervision.mk
        { stop := false, name := "etcd", baseDirectory := "/base",
          command := ["/bin/etcd", "--v=0"],
          logger := { Enabled := true, Filename := "/log/etcd.log" } } 0 []).run
        [.start none, .stop, .start (some "mkdir failed"), .stop]).server.Name = "etcd" :=
  ⟨by decide,
   (Stop_changes_only_the_flag (Supervision.mk
      { stop := false, name := "etcd", baseDirectory := "/base",
        command := ["/bin/etcd", "--v=0"],
        logger := { Enabled := true, Filename := "/log/etcd.log" } } 0 [])).2.2.2.2.2.2.2.2.2
      exampleUtils assetConfig 1 "etcd"
      { Name := "etcd", Labels := [], Command := "/bin/etcd", Arguments := [("v", "0")],
        Logger := { Enabled := true, Filename := "/log/etcd.log" } } _ (by decide) 0 []
      [.start none, .stop, .start (some "mkdir failed"), .stop]⟩

/-! ## Server materialization -/

/-- What `NewServerWrapper` makes of one entry of the arguments map: the bare flag for an empty
value, the flag with the expanded value otherwise. -/
theorem appendArguments_ok (apply : String → String → Except Stop String) (name : String)
    (arguments : GoMap String) :
    ∀ command : List String,
      (∀ kv ∈ arguments, kv.2 ≠ "" → ∃ value, apply (name ++ "." ++ kv.1) kv.2 = .ok value) →
      appendArguments apply name arguments command
        = .ok (command ++ arguments.map (flagToken apply name)) := by
  induction arguments with
  | nil => intro command _; simp [appendArguments]
  | cons kv rest ih =>
    intro command h
    obtain ⟨key, value⟩ := kv
    have hrest := fun c => ih c fun kv hkv => h kv (List.mem_cons_of_mem _ hkv)
    by_cases hempty : value.length = 0
    · simp [appendArguments, hempty, hrest, flagToken]
    · have hne : value ≠ "" := by
        rintro rfl
        exact hempty rfl
      obtain ⟨expanded, hexpanded⟩ := h (key, value) (List.mem_cons_self _ _) hne
      simp [appendArguments, hempty, hexpanded, hrest, flagToken]

theorem appendArguments_error (apply : String → String → Except Stop String) (name : String)
    (before after : GoMap String) (key value : String) (error : Stop) :
    ∀ command : List String,
      (∀ kv ∈ before, kv.2 ≠ "" → ∃ value, apply (name ++ "." ++ kv.1) kv.2 = .ok value) →
      value ≠ "" → apply (name ++ "." ++ key) value = .error error →
      appendArguments apply name (before ++ (key, value) :: after) command = .error error := by
  induction before with
  | nil =>
    intro command _ hne herror
    have hlen : ¬ value.length = 0 := by
      intro h
      apply hne
      cases value with
      | mk data =>
        have : data = [] := List.length_eq_zero.mp h
        simp [this]
    simp [appendArguments, hlen, herror]
  | cons kv rest ih =>
    intro command h hne herror
    obtain ⟨k, v⟩ := kv
    have hrest := fun c => ih c (fun kv hkv => h kv (List.mem_cons_of_mem _ hkv)) hne herror
    by_cases hempty : v.length = 0
    · simp [appendArguments, hempty, hrest]
    · have hv : v ≠ "" := by
        rintro rfl
        exact hempty rfl
      obtain ⟨expanded, hexpanded⟩ := h (k, v) (List.mem_cons_self _ _) hv
      simp [appendArguments, hempty, hexpanded, hrest]

theorem appendArguments_ok_inv (apply : String → String → Except Stop String) (name : String)
    (arguments : GoMap String) :
    ∀ (command argv : List String), appendArguments apply name arguments command = .ok argv →
      ∀ kv ∈ arguments, kv.2 ≠ "" → ∃ value, apply (name ++ "." ++ kv.1) kv.2 = .ok value := by
  induction arguments with
  | nil => intro _ _ _ kv hkv; simp at hkv
  | cons first rest ih =>
    intro command argv h kv hkv hne
    obtain ⟨key, value⟩ := first
    by_cases hempty : value.length = 0
    · simp only [appendArguments, hempty, if_true] at h
      rcases List.mem_cons.mp hkv with rfl | hmem
      · exfalso
        apply hne
        cases value with
        | mk data =>
          have : data = [] := List.length_eq_zero.mp hempty
          simp [this]
      · exact ih _ _ h kv hmem hne
    · simp only [appendArguments, hempty, if_false] at h
      cases hexp : apply (name ++ "." ++ key) value with
      | error e => simp [hexp] at h
      | ok expanded =>
        simp only [hexp] at h
        rcases List.mem_cons.mp hkv with rfl | hmem
        · exact ⟨expanded, hexp⟩
        · exact ih _ _ h kv hmem hne

theorem NewServerWrapper_ok (utils : Utils) (config : InternalConfig) (fuel : Nat)
    (name : String) (serverConfig : ServerConfig) (command filename : String)
    (hcommand : InternalConfig.ApplyTemplate utils config fuel "command" serverConfig.Command
      = .ok command)
    (hfilename : InternalConfig.ApplyTemplate utils config fuel "LoggingDirectory"
      serverConfig.Logger.Filename = .ok filename)
    (harguments : ∀ kv ∈ serverConfig.Arguments, kv.2 ≠ "" →
      ∃ value, InternalConfig.ApplyTemplate utils config fuel (name ++ "." ++ kv.1) kv.2
        = .ok value) :
    NewServerWrapper utils config fuel name serverConfig
      = .ok { stop := false, name := name, baseDirectory := config.BaseDirectory,
              command := command :: serverConfig.Arguments.map
                (flagToken (InternalConfig.ApplyTemplate utils config fuel) name),
              logger := { Enabled := serverConfig.Logger.Enabled, Filename := filename } } := by
  unfold NewServerWrapper
  rw [hcommand, hfilename]
  simp only
  rw [appendArguments_ok _ name serverConfig.Arguments [command] harguments]
  rfl

theorem NewServerWrapper_ok_inv (utils : Utils) (config : InternalConfig) (fuel : Nat)
    (name : String) (serverConfig : ServerConfig) (server : ServerWrapper)
    (h : NewServerWrapper utils config fuel name serverConfig = .ok server) :
    (∃ command, InternalConfig.ApplyTemplate utils config fuel "command" serverConfig.Command
      = .ok command) ∧
    (∃ filename, InternalConfig.ApplyTemplate utils config fuel "LoggingDirectory"
      serverConfig.Logger.Filename = .ok filename) ∧
    (∀ kv ∈ serverConfig.Arguments, kv.2 ≠ "" →
      ∃ value, InternalConfig.ApplyTemplate utils config fuel (name ++ "." ++ kv.1) kv.2
        = .ok value) := by
  unfold NewServerWrapper at h
  cases hc : InternalConfig.ApplyTemplate utils config fuel "command" serverConfig.Command with
  | error e => simp [hc] at h
  | ok command =>
    cases hf : InternalConfig.ApplyTemplate utils config fuel "LoggingDirectory"
        serverConfig.Logger.Filename with
    | error e => simp [hc, hf] at h
    | ok filename =>
      cases ha : appendArguments (InternalConfig.ApplyTemplate utils config fuel) name
          serverConfig.Arguments [command] with
      | error e => simp [hc, hf, ha] at h
      | ok argv =>
        exact ⟨⟨command, rfl⟩, ⟨filename, rfl⟩,
          appendArguments_ok_inv _ name serverConfig.Arguments [command] argv ha⟩

/-- C12: for every server descriptor whose templates all expand, `NewServerWrapper` builds an argv
whose first token is the expanded binary path, followed by exactly one token per entry of the
arguments map: an entry with an empty value renders as the bare token `--<flag>`, an entry with
a non-empty value as `--<flag>=<expanded value>`; the argv has length 1 + number of arguments. -/
theorem NewServerWrapper_argv (utils : Utils) (config : InternalConfig) (fuel : Nat)
    (name : String) (serverConfig : ServerConfig) (command filename : String)
    (hcommand : InternalConfig.ApplyTemplate utils config fuel "command" serverConfig.Command
      = .ok command)
    (hfilename : InternalConfig.ApplyTemplate utils config fuel "LoggingDirectory"
      serverConfig.Logger.Filename = .ok filename)
    (harguments : ∀ kv ∈ serverConfig.Arguments, kv.2 ≠ "" →
      ∃ value, InternalConfig.ApplyTemplate utils config fuel (name ++ "." ++ kv.1) kv.2
        = .ok value) :
    ∃ server, NewServerWrapper utils config fuel name serverConfig = .ok server ∧
      server.command = command :: serverConfig.Arguments.map
        (flagToken (InternalConfig.ApplyTemplate utils config fuel) name) ∧
      server.command.length = 1 + serverConfig.Arguments.length ∧
      (∀ kv ∈ serverConfig.Arguments, kv.2 = "" →
        flagToken (InternalConfig.ApplyTemplate utils config fuel) name kv = "--" ++ kv.1) ∧
      (∀ kv ∈ serverConfig.Arguments, ∀ value, kv.2 ≠ "" →
        InternalConfig.ApplyTemplate utils config fuel (name ++ "." ++ kv.1) kv.2 = .ok value →
        flagToken (InternalConfig.ApplyTemplate utils config fuel) name kv
          = "--" ++ kv.1 ++ "=" ++ value) := by
  refine ⟨_, NewServerWrapper_ok utils config fuel name serverConfig command filename hcommand
    hfilename harguments, rfl, ?_, ?_, ?_⟩
  · simp [Nat.add_comm]
  · intro kv _ hempty
    simp [flagToken, hempty]
  · intro kv _ value hne hvalue
    have hlen : ¬ kv.2.length = 0 := by
      intro h
      apply hne
      cases hkv : kv.2 with
      | mk data =>
        rw [hkv] at h
        have : data = [] := List.length_eq_zero.mp h
        simp [this]
    simp [flagToken, hlen, hvalue]

/-- Witness for C12: the descriptor of `kube-apiserver` with the binary template of the file
`etcd` and the arguments `allow-privileged` (empty) and `v` (`0`). -/
theorem NewServerWrapper_argv_witness :
    ∃ server,
      NewServerWrapper exampleUtils assetConfig 2 "kube-apiserver"
          { Name := "kube-apiserver", Labels := ["controller"],
            Command := InternalConfig.GetTemplateAssetFilename "etcd",
            Arguments := [("allow-privileged", ""), ("v", "0")],
            Logger := { Enabled := true, Filename := "/log/kube-apiserver.log" } }
        = .ok server ∧
      server.command = ["/deploy/opt/bin/etcd", "--allow-privileged", "--v=0"] ∧
      server.command.length = 3 :=
  have h := NewServerWrapper_argv exampleUtils assetConfig 2 "kube-apiserver"
    { Name := "kube-apiserver", Labels := ["controller"],
      Command := InternalConfig.GetTemplateAssetFilename "etcd",
      Arguments := [("allow-privileged", ""), ("v", "0")],
      Logger := { Enabled := true, Filename := "/log/kube-apiserver.log" } }
    "/deploy/opt/bin/etcd" "/log/kube-apiserver.log" (by decide) (by decide)
    (by
      intro kv hkv hne
      simp only [List.mem_cons, List.mem_singleton, List.not_mem_nil, or_false] at hkv
      rcases hkv with rfl | rfl
      · exact absurd rfl hne
      · exact ⟨"0", by decide⟩)
  h.elim fun server hs => ⟨server, hs.1, hs.2.1.trans (by decide), hs.2.2.1⟩

/-- C13, counterexample: the arguments `{"v": "0", "allow-privileged": ""}` iterated with `v`
first.  The flags are rendered as `--v=0 --allow-privileged`, in the order of the iteration and
not in the order of the flag names. -/
theorem NewServerWrapper_unsorted_counterexample :
    [("v", "0"), ("allow-privileged", "")].Perm [("allow-privileged", ""), ("v", "0")] ∧
    NewServerWrapper exampleUtils assetConfig 1 "kube-apiserver"
        { Name := "kube-apiserver", Labels := ["controller"], Command := "/bin/kube-apiserver",
          Arguments := [("v", "0"), ("allow-privileged", "")],
          Logger := { Enabled := true, Filename := "/log/kube-apiserver.log" } }
      = .ok { stop := false, name := "kube-apiserver", baseDirectory := "/base",
              command := ["/bin/kube-apiserver", "--v=0", "--allow-privileged"],
              logger := { Enabled := true, Filename := "/log/kube-apiserver.log" } } ∧
    " ".intercalate ["--v=0", "--allow-privileged"] ≠ "--allow-privileged --v=0" :=
  ⟨List.Perm.swap _ _ _, by decide, by decide⟩

/-- C13, amended: for every server descriptor, the flag tokens of the argv built by
`NewServerWrapper` are emitted in the iteration order of the arguments map.  Two iteration
orders of the same map give the same binary path and the same flag tokens up to their order. -/
theorem NewServerWrapper_flag_order (utils : Utils) (config : InternalConfig) (fuel : Nat)
    (name : String) (serverConfig : ServerConfig) (arguments1 arguments2 : GoMap String)
    (server1 : ServerWrapper) (hperm : arguments1.Perm arguments2)
    (h1 : NewServerWrapper utils config fuel name (serverConfig.withArguments arguments1)
      = .ok server1) :
    server1.command.tail
      = arguments1.map (flagToken (InternalConfig.ApplyTemplate utils config fuel) name) ∧
    ∃ server2,
      NewServerWrapper utils config fuel name (serverConfig.withArguments arguments2)
        = .ok server2 ∧
      server2.command.tail
        = arguments2.map (flagToken (InternalConfig.ApplyTemplate utils config fuel) name) ∧
      server1.command.head? = server2.command.head? ∧
      server1.command.tail.Perm server2.command.tail := by
  obtain ⟨⟨command, hcommand⟩, ⟨filename, hfilename⟩, hargs⟩ :=
    NewServerWrapper_ok_inv utils config fuel name _ server1 h1
  have hargs2 : ∀ kv ∈ (serverConfig.withArguments arguments2).Arguments, kv.2 ≠ "" →
      ∃ value, InternalConfig.ApplyTemplate utils config fuel (name ++ "." ++ kv.1) kv.2
        = .ok value := by
    intro kv hkv hne
    exact hargs kv (hperm.mem_iff.mpr hkv) hne
  have hok1 := NewServerWrapper_ok utils config fuel name (serverConfig.withArguments arguments1)
    command filename hcommand hfilename hargs
  have hok2 := NewServerWrapper_ok utils config fuel name (serverConfig.withArguments arguments2)
    command filename hcommand hfilename hargs2
  rw [hok1] at h1
  cases h1
  refine ⟨rfl, _, hok2, rfl, rfl, ?_⟩
  exact hperm.map _

/-- Witness for C13: the arguments `{"v": "0", "allow-privileged": ""}` iterated in the order of
the flag names render as `--allow-privileged --v=0`. -/
theorem NewServerWrapper_flag_order_witness :
    [("allow-privileged", ""), ("v", "0")].Perm [("v", "0"), ("allow-privileged", "")] ∧
    NewServerWrapper exampleUtils assetConfig 1 "kube-apiserver"
        (ServerConfig.withArguments
          { Name := "kube-apiserver", Labels := ["controller"],
            Command := "/bin/kube-apiserver", Arguments := [],
            Logger := { Enabled := true, Filename := "/log/kube-apiserver.log" } }
          [("allow-privileged", ""), ("v", "0")])
      = .ok { stop := false, name := "kube-apiserver", baseDirectory := "/base",
              command := ["/bin/kube-apiserver", "--allow-privileged", "--v=0"],
              logger := { Enabled := true, Filename := "/log/kube-apiserver.log" } } ∧
    " ".intercalate ["--allow-privileged", "--v=0"] = "--allow-privileged --v=0" ∧
    ["--allow-privileged", "--v=0"]
      = [("allow-privileged", ""), ("v", "0")].map
          (flagToken (InternalConfig.ApplyTemplate exampleUtils assetConfig 1)
            "kube-apiserver") :=
  ⟨List.Perm.swap _ _ _, by decide, by decide,
   (NewServerWrapper_flag_order exampleUtils assetConfig 1 "kube-apiserver"
      { Name := "kube-apiserver", Labels := ["controller"],
        Command := "/bin/kube-apiserver", Arguments := [],
        Logger := { Enabled := true, Filename := "/log/kube-apiserver.log" } }
      [("allow-privileged", ""), ("v", "0")] [("v", "0"), ("allow-privileged", "")]
      { stop := false, name := "kube-apiserver", baseDirectory := "/base",
        command := ["/bin/kube-apiserver", "--allow-privileged", "--v=0"],
        logger := { Enabled := true, Filename := "/log/kube-apiserver.log" } }
      (List.Perm.swap _ _ _) (by decide)).1⟩

/-- C14: for every server descriptor, if the expansion of the binary path, of the log file path
or of a non-empty argument value fails, `NewServerWrapper` returns no server together with the
error of the first expansion that fails; it returns a server if and only if every one of these
expansions succeeds. -/
theorem NewServerWrapper_error_propagation (utils : Utils) (config : InternalConfig)
    (fuel : Nat) (name : String) (serverConfig : ServerConfig) :
    ((∃ server, NewServerWrapper utils config fuel name serverConfig = .ok server) ↔
      (∃ command, InternalConfig.ApplyTemplate utils config fuel "command"
        serverConfig.Command = .ok command) ∧
      (∃ filename, InternalConfig.ApplyTemplate utils config fuel "LoggingDirectory"
        serverConfig.Logger.Filename = .ok filename) ∧
      (∀ kv ∈ serverConfig.Arguments, kv.2 ≠ "" →
        ∃ value, InternalConfig.ApplyTemplate utils config fuel (name ++ "." ++ kv.1) kv.2
          = .ok value)) ∧
    (∀ error, InternalConfig.ApplyTemplate utils config fuel "command" serverConfig.Command
        = .error error →
      NewServerWrapper utils config fuel name serverConfig = .error error) ∧
    (∀ command error,
      InternalConfig.ApplyTemplate utils config fuel "command" serverConfig.Command
        = .ok command →
      InternalConfig.ApplyTemplate utils config fuel "LoggingDirectory"
        serverConfig.Logger.Filename = .error error →
      NewServerWrapper utils config fuel name serverConfig = .error error) ∧
    (∀ command filename before after key value error,
      InternalConfig.ApplyTemplate utils config fuel "command" serverConfig.Command
        = .ok command →
      InternalConfig.ApplyTemplate utils config fuel "LoggingDirectory"
        serverConfig.Logger.Filename = .ok filename →
      serverConfig.Arguments = before ++ (key, value) :: after →
      (∀ kv ∈ before, kv.2 ≠ "" →
        ∃ value, InternalConfig.ApplyTemplate utils config fuel (name ++ "." ++ kv.1) kv.2
          = .ok value) →
      value ≠ "" →
      InternalConfig.ApplyTemplate utils config fuel (name ++ "." ++ key) value
        = .error error →
      NewServerWrapper utils config fuel name serverConfig = .error error) := by
  refine ⟨⟨?_, ?_⟩, ?_, ?_, ?_⟩
  · rintro ⟨server, h⟩
    exact NewServerWrapper_ok_inv utils config fuel name serverConfig server h
  · rintro ⟨⟨command, hcommand⟩, ⟨filename, hfilename⟩, hargs⟩
    exact ⟨_, NewServerWrapper_ok utils config fuel name serverConfig command filename hcommand
      hfilename hargs⟩
  · intro error h
    simp [NewServerWrapper, h]
  · intro command error hc hf
    simp [NewServerWrapper, hc, hf]
  · intro command filename before after key value error hc hf hsplit hbefore hne herror
    unfold NewServerWrapper
    rw [hc, hf]
    simp only
    rw [hsplit, appendArguments_error _ name before after key value error [command] hbefore hne
      herror]

/-- Witness for C14: the value of the argument `config` names a function that does not exist;
its error is returned and no server is built. -/
theorem NewServerWrapper_error_propagation_witness :
    InternalConfig.ApplyTemplate exampleUtils assetConfig 1 "kubelet.config"
      "\x7b\x7bmissing_function\x7d\x7d"
      = .error (.error (.undefinedFunction "missing_function")) ∧
    NewServerWrapper exampleUtils assetConfig 1 "kubelet"
        { Name := "kubelet", Labels := ["worker"], Command := "/bin/kubelet",
          Arguments := [("v", "0"), ("config", "\x7b\x7bmissing_function\x7d\x7d")],
          Logger := { Enabled := true, Filename := "/log/kubelet.log" } }
      = .error (.error (.undefinedFunction "missing_function")) :=
  ⟨by decide,
   (NewServerWrapper_error_propagation exampleUtils assetConfig 1 "kubelet"
      { Name := "kubelet", Labels := ["worker"], Command := "/bin/kubelet",
        Arguments := [("v", "0"), ("config", "\x7b\x7bmissing_function\x7d\x7d")],
        Logger := { Enabled := true, Filename := "/log/kubelet.log" } }).2.2.2
      "/bin/kubelet" "/log/kubelet.log" [("v", "0")] [] "config"
      "\x7b\x7bmissing_function\x7d\x7d" (.error (.undefinedFunction "missing_function"))
      (by decide) (by decide) rfl
      (by
        intro kv hkv _
        simp only [List.mem_singleton] at hkv
        subst hkv
        exact ⟨"0", by decide⟩)
      (by decide) (by decide)⟩

/-! ## Template errors -/

namespace Template

theorem splitAtLeftDelim_append (text rest : List Char) (h : '{' ∉ text) :
    splitAtLeftDelim (text ++ '{' :: '{' :: rest) = (text, some rest) := by
  induction text with
  | nil => simp [splitAtLeftDelim]
  | cons c cs ih =>
    have hc : c ≠ '{' := fun e => h (by simp [e])
    have hcs : '{' ∉ cs := fun e => h (List.mem_cons_of_mem _ e)
    simp [splitAtLeftDelim, hc, ih hcs]

theorem isBraceFree_spec (text : String) (h : isBraceFree text = true) :
    '{' ∉ text.data ∧ text.data.contains '<' = false := by
  simp only [isBraceFree, List.all_eq_true, Bool.not_eq_true', Bool.or_eq_false_iff,
    beq_eq_false_iff_ne, ne_eq] at h
  constructor
  · intro hmem
    exact (h _ hmem).1 rfl
  · simp only [List.contains_eq_any_beq, List.any_eq_false, beq_iff_eq]
    intro c hc hlt
    exact (h c hc).2 hlt.symm

/-- The parse of a template that starts with brace-free text and an action. -/
theorem parsePieces_text_action (defined : List String) (fuel : Nat) (text : String)
    (rest : List Char) (h : isBraceFree text = true) :
    parsePieces defined (fuel + 1) (text.data ++ '{' :: '{' :: rest)
      = match parseAction defined rest with
        | .error e => .error e
        | .ok (piece, rest1) =>
          match parsePieces defined fuel rest1 with
          | .error e => .error e
          | .ok pieces => .ok (.text text :: piece :: pieces) := by
  obtain ⟨h1, h2⟩ := isBraceFree_spec text h
  rw [parsePieces, splitAtLeftDelim_append _ _ h1]
  simp only [h2, Bool.false_eq_true, if_false]

end Template

namespace Template

theorem parsePieces_plain (defined : List String) (fuel : Nat) (value : String)
    (h : isPlainText value = true) :
    parsePieces defined (fuel + 1) value.data = .ok [.text value] := by
  simp only [isPlainText, Bool.and_eq_true, Option.isNone_iff_eq_none, Bool.not_eq_true'] at h
  obtain ⟨h1, h2⟩ := h
  have h3 := splitAtLeftDelim_of_none _ h1
  have h4 : '<' ∉ value.data := by simpa using h2
  simp [parsePieces, h1, h3, h4]

end Template

namespace Template

theorem isPlainText_of_isBraceFree (text : String) (h : isBraceFree text = true) :
    isPlainText text = true := by
  obtain ⟨h1, h2⟩ := isBraceFree_spec text h
  have hsplit : ∀ cs : List Char, '{' ∉ cs → (splitAtLeftDelim cs).2 = none := by
    intro cs
    induction cs with
    | nil => intro _; rfl
    | cons c rest ih =>
      intro hmem
      have hc : c ≠ '{' := fun e => hmem (by simp [e])
      have hrest : '{' ∉ rest := fun e => hmem (List.mem_cons_of_mem _ e)
      simp [splitAtLeftDelim, hc, ih hrest]
  have h3 : '<' ∉ text.data := by simpa using h2
  simp [isPlainText, hsplit _ h1, h3]

theorem parseAction_asset_directory_then (defined : List String)
    (hdefined : defined.contains "asset_directory" = true)
    (name : String) (hname : literalSafe name = true) (tail : List Char) :
    parseAction defined ("asset_directory \"".data ++ (name.data ++ '"' :: '}' :: '}' :: tail))
      = .ok (.call "asset_directory" [name], tail) := by
  have hclose : hasRightDelim
      ("asset_directory \"".data ++ (name.data ++ '"' :: '}' :: '}' :: tail)) = true := by
    have h := hasRightDelim_append ("asset_directory \"".data ++ (name.data ++ ['"']))
      ('}' :: '}' :: tail) (by simp [hasRightDelim])
    simpa using h
  have hlit := takeLiteral_safe name.data ('}' :: '}' :: tail) hname
  have hres : isReserved "asset_directory" = false := by decide
  have hmem : "asset_directory" ∈ defined := by simpa using hdefined
  unfold parseAction
  rw [hclose]
  simp [skipSpaces, takeIdent, isIdentChar, hlit, checkFunction, hres, hmem, closeAction]

end Template

namespace path

/-- Two names joined by `Join` are the names with a slash between them. -/
theorem Join_two_names (first second : String)
    (hfirst : '/' ∉ first.data) (hsecond : '/' ∉ second.data)
    (hfirstName : isName first.data = true) (hsecondName : isName second.data = true)
    (hfirstDots : first.data ≠ ['.', '.']) (hsecondDots : second.data ≠ ['.', '.']) :
    Join [first, second] = first ++ "/" ++ second := by
  have hne : first ≠ "" := by
    rintro rfl
    simp [isName] at hfirstName
  have hb : (first == "") = false := by simpa using hne
  have hjoin : Join [first, second] = String.mk (cleanChars (first.data ++ '/' :: second.data)) := by
    simp [Join, hb, Clean, String.intercalate, String.intercalate.go, String.data_append]
  rw [hjoin]
  have hhead : (first.data ++ '/' :: second.data).head? = first.data.head? := by
    cases hd : first.data with
    | nil => simp [isName, hd] at hfirstName
    | cons c cs => rfl
  have hrooted : ((first.data ++ '/' :: second.data).head? == some '/') = false := by
    rw [hhead]
    cases hd : first.data with
    | nil => rfl
    | cons c cs =>
      have hc : c ≠ '/' := fun e => hfirst (by simp [hd, e])
      simpa using hc
  have hsplit : splitSlash (first.data ++ '/' :: second.data) = [first.data, second.data] := by
    rw [splitSlash_append_slash, splitSlash_of_no_slash _ hfirst,
      splitSlash_of_no_slash _ hsecond]
    rfl
  have hstack : List.foldl (cleanStep false) [] [first.data, second.data]
      = [second.data, first.data] := by
    rw [foldl_cleanStep_of_no_dotdot false _ (by simp [Ne.symm hfirstDots, Ne.symm hsecondDots])]
    simp [List.filter_cons, hfirstName, hsecondName]
  have hbody : joinSlash [first.data, second.data] = first.data ++ '/' :: second.data := rfl
  have hnonempty : first.data ++ '/' :: second.data ≠ [] := by simp
  apply String.ext
  simp only [cleanChars, hrooted, hsplit, hstack, List.reverse_cons, List.reverse_nil,
    List.nil_append, List.singleton_append, hbody, Bool.false_eq_true, if_false, hnonempty,
    String.data_append]
  simp

end path

theorem Parse_asset_directory_then (functions : Template.FuncMap)
    (hdefined : (functions.map Prod.fst).contains "asset_directory" = true)
    (directory file : String) (hdirectory : Template.literalSafe directory = true)
    (hfile : Template.isBraceFree file = true) :
    Template.Parse functions (InternalConfig.GetTemplateAssetDirectory directory ++ "/" ++ file)
      = .ok [.text "", .call "asset_directory" [directory], .text ("/" ++ file)] := by
  have hdata : (InternalConfig.GetTemplateAssetDirectory directory ++ "/" ++ file).data
      = ("" : String).data ++ '{' :: '{' :: ("asset_directory \"".data ++
          (directory.data ++ '"' :: '}' :: '}' :: ("/" ++ file).data)) := by
    simp [InternalConfig.GetTemplateAssetDirectory, String.data_append]
  have hlength : ∃ n, (InternalConfig.GetTemplateAssetDirectory directory ++ "/" ++ file).length
      = n + 1 := by
    refine ⟨(InternalConfig.GetTemplateAssetDirectory directory).length + file.length, ?_⟩
    simp only [String.length_append]
    have h1 : "/".length = 1 := by decide
    omega
  obtain ⟨n, hn⟩ := hlength
  have htail : Template.isPlainText ("/" ++ file) = true := by
    apply Template.isPlainText_of_isBraceFree
    have h1 : Template.isBraceFree "/" = true := by decide
    simp only [Template.isBraceFree, String.data_append, List.all_append, Bool.and_eq_true]
      at h1 hfile ⊢
    exact ⟨h1, hfile⟩
  unfold Template.Parse
  rw [hdata, Template.parsePieces_text_action _ _ "" _ (by decide),
    Template.parseAction_asset_directory_then _ hdefined directory hdirectory, hn]
  simp only [Template.parsePieces_plain _ n _ htail]

theorem ApplyTemplate_asset_directory_then (utils : Utils) (config : InternalConfig)
    (fuel : Nat) (label directory file : String)
    (hdirectory : Template.literalSafe directory = true)
    (hfile : Template.isBraceFree file = true) :
    InternalConfig.ApplyTemplate utils config (fuel + 1) label
        (InternalConfig.GetTemplateAssetDirectory directory ++ "/" ++ file)
      = (InternalConfig.GetFullTargetAssetDirectory config directory).map
          fun target => Template.HTMLEscape target ++ "/" ++ file := by
  unfold InternalConfig.ApplyTemplate
  simp only
  rw [Parse_asset_directory_then _ ?_ directory file hdirectory hfile]
  swap
  · rfl
  simp only [Template.Execute, Template.executePiece]
  have hlookup : ∀ (f1 f2 f3 f4 f5 : Template.Func),
      List.lookup "asset_directory" [("controllers_count", f1), ("etcd_servers", f2),
        ("etcd_cluster", f3), ("asset_file", f4), ("asset_directory", f5)] = some f5 := by
    intro f1 f2 f3 f4 f5
    rfl
  rw [hlookup]
  simp only
  cases InternalConfig.GetFullTargetAssetDirectory config directory with
  | error e => rfl
  | ok full => simp [Except.map, String.append_assoc]

theorem logFile_join (directory name : String) (hdirectory : '/' ∉ directory.data)
    (hname : '/' ∉ name.data) :
    path.Join [InternalConfig.GetTemplateAssetDirectory directory, name ++ ".log"]
      = InternalConfig.GetTemplateAssetDirectory directory ++ "/" ++ (name ++ ".log") := by
  have hfirst : (InternalConfig.GetTemplateAssetDirectory directory).data
      = '{' :: '{' :: ("asset_directory \"".data ++ (directory.data ++ "\"\x7d\x7d".data)) := by
    simp [InternalConfig.GetTemplateAssetDirectory, String.data_append]
  have hsecond : (name ++ ".log").data = name.data ++ ['.', 'l', 'o', 'g'] := by
    simp [String.data_append]
  have hlen : 4 ≤ (name ++ ".log").data.length := by
    rw [hsecond, List.length_append]
    simp
  apply path.Join_two_names
  · rw [hfirst]
    intro hmem
    simp only [List.mem_cons, List.mem_append] at hmem
    rcases hmem with h | h | h | h | h
    · exact absurd h (by decide)
    · exact absurd h (by decide)
    · exact absurd h (by decide)
    · exact hdirectory h
    · exact absurd h (by decide)
  · rw [hsecond]
    intro hmem
    rcases List.mem_append.mp hmem with h | h
    · exact hname h
    · exact absurd h (by decide)
  · rw [hfirst]
    simp [path.isName]
  · cases hd : (name ++ ".log").data with
    | nil => rw [hd] at hlen; simp at hlen
    | cons c cs =>
      cases cs with
      | nil => rw [hd] at hlen; simp at hlen
      | cons c2 cs2 => simp [path.isName]
  · rw [hfirst]
    simp
  · intro hd
    rw [hd] at hlen
    simp at hlen

/-- C15, counterexample: the server name `../x` is not registered.  `addServer` stores the log
file template `x.log`: `path.Join` cleans the joined template and the element `..` removes the
`asset_directory` action.  Expanded, the path is `x.log`; the target path of the logging
directory, `/deploy/var/log/k8s-tew`, is not part of it. -/
theorem addServer_log_file_counterexample :
    (InternalConfig.addServer exampleUtils loggingConfig "../x" ["worker"] "/bin/x"
        []).Config.Servers
      = [{ Name := "../x", Labels := ["worker"], Command := "/bin/x", Arguments := [],
           Logger := { Enabled := true, Filename := "x.log" } }] ∧
    InternalConfig.ApplyTemplate exampleUtils loggingConfig 1 "LoggingDirectory" "x.log"
      = .ok "x.log" ∧
    InternalConfig.GetFullTargetAssetDirectory loggingConfig exampleUtils.LOGGING_DIRECTORY
      = .ok "/deploy/var/log/k8s-tew" := by
  decide

/-- C15, amended: for every name not yet registered, `addServer` appends exactly one server
descriptor carrying the given name, labels, command and arguments, with logging enabled and the
log file path template `path.Join` of the `asset_directory` template of the logging directory
and `<name>.log`, and changes nothing else.  When neither the name of the logging directory nor
the server name has a slash, this template is the `asset_directory` template followed by
`/<name>.log`; when moreover the directory name has no double quote, backslash or newline and
the server name no left brace and no `<`, its expansion is the target path of the logging
directory followed by `/<name>.log`, for a target path without the characters `&`, `<`, `>`,
`"`, `'`, `+` and NUL. -/
theorem addServer_appends_descriptor (utils : Utils) (config : InternalConfig) (name : String)
    (labels : Labels) (command : String) (arguments : GoMap String)
    (hnew : ∀ server ∈ config.Config.Servers, server.Name ≠ name) :
    (InternalConfig.addServer utils config name labels command arguments).Config.Servers
      = config.Config.Servers ++
          [{ Name := name, Labels := labels, Command := command, Arguments := arguments,
             Logger := { Enabled := true,
                         Filename := path.Join
                           [InternalConfig.GetTemplateAssetDirectory utils.LOGGING_DIRECTORY,
                            name ++ ".log"] } }] ∧
    InternalConfig.addServer utils config name labels command arguments
      = { config with Config := { config.Config with
            Servers := (InternalConfig.addServer utils config name labels command
              arguments).Config.Servers } } ∧
    ('/' ∉ utils.LOGGING_DIRECTORY.data → '/' ∉ name.data →
      path.Join [InternalConfig.GetTemplateAssetDirectory utils.LOGGING_DIRECTORY,
          name ++ ".log"]
        = InternalConfig.GetTemplateAssetDirectory utils.LOGGING_DIRECTORY ++ "/" ++
            (name ++ ".log") ∧
      (Template.literalSafe utils.LOGGING_DIRECTORY = true →
        Template.isBraceFree name = true →
        ∀ (expanding : InternalConfig) (fuel : Nat) (label target : String),
          InternalConfig.GetFullTargetAssetDirectory expanding utils.LOGGING_DIRECTORY
            = .ok target →
          Template.escapeFree target = true →
          InternalConfig.ApplyTemplate utils expanding (fuel + 1) label
              (path.Join [InternalConfig.GetTemplateAssetDirectory utils.LOGGING_DIRECTORY,
                name ++ ".log"])
            = .ok (target ++ "/" ++ (name ++ ".log")))) := by
  have hany : config.Config.Servers.any (fun server => server.Name == name) = false := by
    rw [List.any_eq_false]
    intro server hserver
    simpa using hnew server hserver
  refine ⟨?_, ?_, ?_⟩
  · simp [InternalConfig.addServer, hany]
  · simp [InternalConfig.addServer, hany]
  · intro hdirectory hname
    have hjoin := logFile_join utils.LOGGING_DIRECTORY name hdirectory hname
    refine ⟨hjoin, ?_⟩
    intro hsafe hbrace expanding fuel label target htarget hfree
    have hfile : Template.isBraceFree (name ++ ".log") = true := by
      have h1 : Template.isBraceFree ".log" = true := by decide
      simp only [Template.isBraceFree, String.data_append, List.all_append, Bool.and_eq_true]
        at h1 hbrace ⊢
      exact ⟨hbrace, h1⟩
    rw [hjoin, ApplyTemplate_asset_directory_then utils expanding fuel label _ _ hsafe hfile,
      htarget]
    simp [Except.map, Template.HTMLEscape_of_escapeFree _ hfree]

/-- Witness for C15: the server `etcd` is added to `loggingConfig`; its log file template is
`{{asset_directory "logging-directory"}}/etcd.log` and expands to
`/deploy/var/log/k8s-tew/etcd.log`. -/
theorem addServer_appends_descriptor_witness :
    (∀ server ∈ loggingConfig.Config.Servers, server.Name ≠ "etcd") ∧
    (InternalConfig.addServer exampleUtils loggingConfig "etcd" ["controller"] "/bin/etcd"
        [("v", "0")]).Config.Servers
      = [{ Name := "etcd", Labels := ["controller"], Command := "/bin/etcd",
           Arguments := [("v", "0")],
           Logger := { Enabled := true,
                       Filename := "\x7b\x7basset_directory \"logging-directory\"\x7d\x7d/etcd.log" } }] ∧
    InternalConfig.ApplyTemplate exampleUtils loggingConfig 1 "LoggingDirectory"
        (path.Join [InternalConfig.GetTemplateAssetDirectory exampleUtils.LOGGING_DIRECTORY,
          "etcd" ++ ".log"])
      = .ok ("/deploy/var/log/k8s-tew" ++ "/" ++ ("etcd" ++ ".log")) :=
  have h := addServer_appends_descriptor exampleUtils loggingConfig "etcd" ["controller"]
    "/bin/etcd" [("v", "0")] (by decide)
  ⟨by decide, h.1.trans (by decide),
   (h.2.2 (by decide) (by decide)).2 (by decide) (by decide) loggingConfig 0
      "LoggingDirectory" "/deploy/var/log/k8s-tew" (by decide) (by decide)⟩

/-! ## Sorted node keys and the address of the API server -/

namespace sort

theorem lessChars_iff (as bs : List Char) : lessChars as bs = true ↔ as < bs := by
  induction as generalizing bs with
  | nil =>
    cases bs with
    | nil => simp [lessChars]
    | cons b bs =>
      simp only [lessChars, true_iff]
      exact List.Lex.nil
  | cons a as ih =>
    cases bs with
    | nil => simp [lessChars]
    | cons b bs =>
      by_cases hab : a = b
      · subst hab
        simp only [lessChars, if_true, ih]
        exact (List.Lex.cons_iff).symm
      · simp only [lessChars, hab, if_false, decide_eq_true_eq]
        constructor
        · intro h
          exact List.Lex.rel h
        · intro h
          cases h with
          | cons _ => exact absurd rfl hab
          | rel h => exact h

theorem less_iff (a b : String) : less a b = true ↔ a < b := by
  rw [less, lessChars_iff, String.lt_iff_toList_lt]
  rfl

theorem not_less_iff (a b : String) : less b a = false ↔ a ≤ b := by
  rw [← not_lt, ← less_iff]
  simp

theorem Strings_sorted (xs : List String) : (Strings xs).Sorted (fun a b => a ≤ b) := by
  haveI : IsTotal String (fun a b => less b a = false) :=
    ⟨fun a b => by
      simp only [not_less_iff]
      exact le_total a b⟩
  haveI : IsTrans String (fun a b => less b a = false) :=
    ⟨fun a b c => by
      simp only [not_less_iff]
      exact le_trans⟩
  have h := List.sorted_insertionSort (fun a b => less b a = false) xs
  exact List.Pairwise.imp (fun hab => (not_less_iff _ _).mp hab) h

theorem Strings_perm (xs : List String) : (Strings xs).Perm xs :=
  List.perm_insertionSort _ xs

end sort

theorem foldl_append_keys {α : Type} (m : GoMap α) (start : List String) :
    m.foldl (fun result kv => result ++ [kv.1]) start = start ++ m.map Prod.fst := by
  induction m generalizing start with
  | nil => simp
  | cons kv rest ih => simp [List.foldl, ih]

theorem GoMap.mem_keys_iff {α : Type} (m : GoMap α) (key : String) :
    key ∈ m.map Prod.fst ↔ m.get? key ≠ none := by
  induction m with
  | nil => simp [GoMap.get?, List.lookup]
  | cons kv rest ih =>
    obtain ⟨k, v⟩ := kv
    by_cases h : key = k
    · subst h
      simp [GoMap.get?, List.lookup]
    · have h2 : (key == k) = false := by simpa using h
      simp only [GoMap.get?, List.lookup, h2, List.map_cons, List.mem_cons, h, false_or]
      exact ih

theorem GetSortedNodeKeys_eq (config : InternalConfig) :
    InternalConfig.GetSortedNodeKeys config
      = sort.Strings (config.Config.Nodes.map Prod.fst) := by
  simp [InternalConfig.GetSortedNodeKeys, foldl_append_keys]

theorem firstControllerIP_none_iff (utils : Utils) (nodes : GoMap Node) :
    InternalConfig.firstControllerIP utils nodes = none
      ↔ ∀ kv ∈ nodes, kv.2.IsController utils = false := by
  induction nodes with
  | nil => simp [InternalConfig.firstControllerIP]
  | cons kv rest ih =>
    obtain ⟨k, node⟩ := kv
    by_cases h : node.IsController utils = true
    · simp [InternalConfig.firstControllerIP, h]
    · simp only [Bool.not_eq_true] at h
      simp [InternalConfig.firstControllerIP, h, ih]

theorem firstControllerIP_some (utils : Utils) (nodes : GoMap Node) (ip : String)
    (h : InternalConfig.firstControllerIP utils nodes = some ip) :
    ∃ kv ∈ nodes, kv.2.IsController utils = true ∧ kv.2.IP = ip := by
  induction nodes with
  | nil => simp [InternalConfig.firstControllerIP] at h
  | cons kv rest ih =>
    obtain ⟨k, node⟩ := kv
    by_cases hc : node.IsController utils = true
    · simp only [InternalConfig.firstControllerIP, hc, if_true, Option.some.injEq] at h
      exact ⟨(k, node), List.mem_cons_self _ _, hc, h⟩
    · simp only [InternalConfig.firstControllerIP, hc] at h
      obtain ⟨kv, hmem, hkv⟩ := ih h
      exact ⟨kv, List.mem_cons_of_mem _ hmem, hkv⟩

/-- C29: for every node set, `GetSortedNodeKeys` returns a list that is sorted in ascending
string order and is a permutation of the keys of the node set: a name is in the list exactly when
it is a node name, every node name of a map (whose keys are unique) stands in it exactly once and
the list is then strictly increasing; the list does not depend on the iteration order of the
map, and for an empty node set it is the empty list. -/
theorem GetSortedNodeKeys_sorted_permutation (config : InternalConfig) :
    (InternalConfig.GetSortedNodeKeys config).Sorted (fun a b => a ≤ b) ∧
    (InternalConfig.GetSortedNodeKeys config).Perm (config.Config.Nodes.map Prod.fst) ∧
    (∀ name : String, name ∈ InternalConfig.GetSortedNodeKeys config
      ↔ config.Config.Nodes.get? name ≠ none) ∧
    ((config.Config.Nodes.map Prod.fst).Nodup →
      (InternalConfig.GetSortedNodeKeys config).Sorted (fun a b => a < b) ∧
      ∀ name : String, config.Config.Nodes.get? name ≠ none →
        (InternalConfig.GetSortedNodeKeys config).count name = 1) ∧
    (∀ nodes : GoMap Node, nodes.Perm config.Config.Nodes →
      InternalConfig.GetSortedNodeKeys (setNodes config nodes)
        = InternalConfig.GetSortedNodeKeys config) ∧
    (config.Config.Nodes = [] → InternalConfig.GetSortedNodeKeys config = []) := by
  have hsorted := sort.Strings_sorted (config.Config.Nodes.map Prod.fst)
  have hperm := sort.Strings_perm (config.Config.Nodes.map Prod.fst)
  rw [GetSortedNodeKeys_eq]
  refine ⟨hsorted, hperm, ?_, ?_, ?_, ?_⟩
  · intro name
    rw [hperm.mem_iff]
    exact GoMap.mem_keys_iff _ _
  · intro hnodup
    have hnodup2 : (sort.Strings (config.Config.Nodes.map Prod.fst)).Nodup :=
      hperm.nodup_iff.mpr hnodup
    refine ⟨?_, ?_⟩
    · exact (List.Sorted.lt_of_le hsorted hnodup2)
    · intro name hname
      have hmem : name ∈ sort.Strings (config.Config.Nodes.map Prod.fst) := by
        rw [hperm.mem_iff]
        exact (GoMap.mem_keys_iff _ _).mpr hname
      exact List.count_eq_one_of_mem hnodup2 hmem
  · intro nodes hnodes
    rw [GetSortedNodeKeys_eq]
    apply List.eq_of_perm_of_sorted _ (sort.Strings_sorted _) hsorted
    exact (sort.Strings_perm _).trans ((hnodes.map Prod.fst).trans hperm.symm)
  · intro hempty
    rw [hempty]
    rfl

/-- Witness for C29: the nodes `work1`, `ctrl2`, `ctrl1` give the keys `ctrl1`, `ctrl2`,
`work1`, each once. -/
theorem GetSortedNodeKeys_sorted_permutation_witness :
    (threeNodes.map Prod.fst).Nodup ∧
    InternalConfig.GetSortedNodeKeys (nodesConfig threeNodes) = ["ctrl1", "ctrl2", "work1"] ∧
    (InternalConfig.GetSortedNodeKeys (nodesConfig threeNodes)).count "ctrl2" = 1 ∧
    InternalConfig.GetSortedNodeKeys (nodesConfig []) = [] :=
  ⟨by decide, by decide,
   ((GetSortedNodeKeys_sorted_permutation (nodesConfig threeNodes)).2.2.2.1 (by decide)).2
      "ctrl2" (by decide),
   (GetSortedNodeKeys_sorted_permutation (nodesConfig [])).2.2.2.2.2 rfl⟩

/-- C30: `GetAPIServerIP` returns the configured controller virtual ip whenever it is not empty;
otherwise it returns the ip of a node that carries the Controller role, the first one in the
iteration order of the node map; it returns an error, "No API Server IP found" with the empty
string, if and only if the controller virtual ip is empty and no node carries the Controller
role. -/
theorem GetAPIServerIP_outcomes (utils : Utils) (config : InternalConfig) :
    (config.Config.ControllerVirtualIP ≠ "" →
      InternalConfig.GetAPIServerIP utils config = (config.Config.ControllerVirtualIP, none)) ∧
    (config.Config.ControllerVirtualIP = "" →
      (∃ kv ∈ config.Config.Nodes, kv.2.IsController utils = true) →
      ∃ kv ∈ config.Config.Nodes, kv.2.IsController utils = true ∧
        InternalConfig.GetAPIServerIP utils config = (kv.2.IP, none)) ∧
    ((InternalConfig.GetAPIServerIP utils config).2 ≠ none ↔
      config.Config.ControllerVirtualIP = "" ∧
        ∀ kv ∈ config.Config.Nodes, kv.2.IsController utils = false) ∧
    ((InternalConfig.GetAPIServerIP utils config).2 ≠ none →
      InternalConfig.GetAPIServerIP utils config = ("", some "No API Server IP found")) := by
  have hlength : config.Config.ControllerVirtualIP.length > 0
      ↔ config.Config.ControllerVirtualIP ≠ "" := by
    cases hs : config.Config.ControllerVirtualIP with
    | mk data =>
      cases data with
      | nil => simp [String.length]
      | cons c cs =>
        have hne : String.mk (c :: cs) ≠ "" := by
          intro h
          have := congrArg String.data h
          simp at this
        simp [String.length, hne]
  by_cases hvip : config.Config.ControllerVirtualIP = ""
  · have hnot : ¬ config.Config.ControllerVirtualIP.length > 0 := by
      rw [hlength]
      simpa using hvip
    cases hfirst : InternalConfig.firstControllerIP utils config.Config.Nodes with
    | none =>
      have hnone := (firstControllerIP_none_iff utils _).mp hfirst
      refine ⟨fun h => absurd hvip h, ?_, ?_, ?_⟩
      · rintro _ ⟨kv, hmem, hkv⟩
        rw [hnone kv hmem] at hkv
        cases hkv
      · simp only [InternalConfig.GetAPIServerIP, hnot, hfirst, if_false, ne_eq]
        exact ⟨fun _ => ⟨hvip, hnone⟩, fun _ => by simp⟩
      · simp [InternalConfig.GetAPIServerIP, hnot, hfirst]
    | some ip =>
      obtain ⟨kv, hmem, hkv, hip⟩ := firstControllerIP_some utils _ ip hfirst
      refine ⟨fun h => absurd hvip h, ?_, ?_, ?_⟩
      · intro _ _
        exact ⟨kv, hmem, hkv, by simp [InternalConfig.GetAPIServerIP, hnot, hfirst, hip]⟩
      · simp only [InternalConfig.GetAPIServerIP, hnot, hfirst, if_false, ne_eq,
          not_true_eq_false, false_iff, not_and]
        intro _ hall
        rw [hall kv hmem] at hkv
        cases hkv
      · simp [InternalConfig.GetAPIServerIP, hnot, hfirst]
  · have hpos : config.Config.ControllerVirtualIP.length > 0 := hlength.mpr hvip
    refine ⟨fun _ => by simp [InternalConfig.GetAPIServerIP, hpos], fun h => absurd h hvip,
      ?_, ?_⟩
    · simp [InternalConfig.GetAPIServerIP, hpos, hvip]
    · simp [InternalConfig.GetAPIServerIP, hpos]

/-- Witness for C30: with the virtual ip `10.0.0.100` that ip is returned; without it the ip of
`ctrl2`, the first controller of `threeNodes`; with the worker alone the call fails. -/
theorem GetAPIServerIP_outcomes_witness :
    InternalConfig.GetAPIServerIP exampleUtils
        (setControllerVirtualIP (nodesConfig threeNodes) "10.0.0.100") = ("10.0.0.100", none) ∧
    (∃ kv ∈ (nodesConfig threeNodes).Config.Nodes, kv.2.IsController exampleUtils = true ∧
      InternalConfig.GetAPIServerIP exampleUtils (nodesConfig threeNodes) = (kv.2.IP, none)) ∧
    InternalConfig.GetAPIServerIP exampleUtils (nodesConfig threeNodes) = ("10.0.0.2", none) ∧
    InternalConfig.GetAPIServerIP exampleUtils
        (nodesConfig [("work1", NewNode "10.0.0.3" 2 ["worker"])])
      = ("", some "No API Server IP found") :=
  ⟨(GetAPIServerIP_outcomes exampleUtils
      (setControllerVirtualIP (nodesConfig threeNodes) "10.0.0.100")).1 (by decide),
   (GetAPIServerIP_outcomes exampleUtils (nodesConfig threeNodes)).2.1 (by decide)
      ⟨("ctrl2", NewNode "10.0.0.2" 1 ["controller"]), by decide, by decide⟩,
   by decide,
   (GetAPIServerIP_outcomes exampleUtils
      (nodesConfig [("work1", NewNode "10.0.0.3" 2 ["worker"])])).2.2.2 (by decide)⟩

/-! ## Supervisor: the control loop -/

theorem Supervisor.exec_cons (s : Supervisor) (a : Action) (schedule : List Action) :
    s.exec (a :: schedule) = (s.act a).exec schedule := rfl

theorem Supervisor.exec_append (s : Supervisor) (first second : List Action) :
    s.exec (first ++ second) = (s.exec first).exec second := by
  simp [Supervisor.exec, List.foldl_append]

theorem Supervisor.Start_clears_flag (s : Supervisor) (createDirectory : Option String) :
    (s.Start createDirectory).1.server = { s.server with stop := false } := by
  unfold Supervisor.Start
  dsimp only
  cases (if s.server.logger.Enabled = true then createDirectory else none) <;> rfl

theorem Supervisor.stepLoop_server (s : Supervisor) (index : Nat) (openFile : Bool) :
    (s.stepLoop index openFile).server = s.server := by
  unfold Supervisor.stepLoop
  cases s.loops.get? index <;> rfl

theorem Supervisor.act_server (s : Supervisor) (a : Action) :
    (s.act a).server.name = s.server.name ∧
    (s.act a).server.baseDirectory = s.server.baseDirectory ∧
    (s.act a).server.command = s.server.command ∧
    (s.act a).server.logger = s.server.logger := by
  cases a with
  | start createDirectory => simp [Supervisor.act, Supervisor.Start_clears_flag]
  | stop => simp [Supervisor.act, Supervisor.Stop]
  | step index openFile => simp [Supervisor.act, Supervisor.stepLoop_server]

theorem Supervisor.exec_server (s : Supervisor) (schedule : List Action) :
    (s.exec schedule).server.name = s.server.name ∧
    (s.exec schedule).server.baseDirectory = s.server.baseDirectory ∧
    (s.exec schedule).server.command = s.server.command ∧
    (s.exec schedule).server.logger = s.server.logger := by
  induction schedule generalizing s with
  | nil => exact ⟨rfl, rfl, rfl, rfl⟩
  | cons a rest ih =>
    rw [Supervisor.exec_cons]
    obtain ⟨h1, h2, h3, h4⟩ := ih (s.act a)
    obtain ⟨g1, g2, g3, g4⟩ := Supervisor.act_server s a
    exact ⟨h1.trans g1, h2.trans g2, h3.trans g3, h4.trans g4⟩

theorem Supervisor.act_stop_of_not_start (s : Supervisor) (a : Action)
    (ha : a.isStart = false) (hstop : s.server.stop = true) : (s.act a).server.stop = true := by
  cases a with
  | start createDirectory => simp [Action.isStart] at ha
  | stop => rfl
  | step index openFile =>
    simp only [Supervisor.act, Supervisor.stepLoop_server]
    exact hstop

theorem spawns_append (first second : List (Nat × Event)) (index : Nat) :
    spawns (first ++ second) index = spawns first index ++ spawns second index := by
  simp [spawns, List.filterMap_append]

theorem spawns_eq_nil_of_no_run (events : List Event) (number index : Nat)
    (h : ∀ argv, Event.run argv ∉ events) :
    spawns (events.map fun e => (number, e)) index = [] := by
  induction events with
  | nil => rfl
  | cons e rest ih =>
    have hrest : ∀ argv, Event.run argv ∉ rest := fun argv hmem =>
      h argv (List.mem_cons_of_mem _ hmem)
    have he : ∀ argv, e ≠ Event.run argv := fun argv heq =>
      h argv (heq ▸ List.mem_cons_self _ _)
    have ih2 := ih hrest
    simp only [spawns] at ih2 ⊢
    simp only [List.map_cons, List.filterMap_cons]
    cases e with
    | run argv => exact absurd rfl (he argv)
    | _ => simpa using ih2

theorem spawns_of_other_loop (events : List Event) (number index : Nat) (h : number ≠ index) :
    spawns (events.map fun e => (number, e)) index = [] := by
  induction events with
  | nil => rfl
  | cons e rest ih =>
    simp only [spawns] at ih ⊢
    simp only [List.map_cons, List.filterMap_cons]
    cases e <;> simp [h, ih]

/-- With the stop flag set, a step of a loop starts a child only from the body of the `for`
statement, and it leaves the loop outside the body. -/
theorem Loop.step_stopped (server : ServerWrapper) (openFile : Bool) (loop : Loop)
    (hstop : server.stop = true) (index : Nat) :
    (loop.step server openFile).1.point ≠ .entered ∧
    ∃ extra, spawns ((loop.step server openFile).2.map fun e => (index, e)) index = extra ∧
      (∀ argv ∈ extra, argv = server.command) ∧
      extra.length ≤ (if loop.point = .entered then 1 else 0) := by
  unfold Loop.step
  cases hpoint : loop.point with
  | head => simp [hstop, spawns]
  | entered =>
    cases henabled : server.logger.Enabled <;> cases openFile <;> simp [spawns]
  | running => simp [spawns]
  | sleeping => simp [spawns]
  | slept => simp [hstop, spawns]
  | returned => simp [spawns, hpoint]

theorem Supervisor.pending_set_other (s : Supervisor) (number index : Nat) (loop : Loop)
    (trace : List (Nat × Event)) (h : number ≠ index) :
    Supervisor.pending { s with loops := s.loops.set number loop, trace := trace } index
      = s.pending index := by
  simp only [Supervisor.pending, List.get?_eq_getElem?]
  rw [List.getElem?_set_ne h]

theorem Supervisor.pending_set_self (s : Supervisor) (index : Nat) (old loop : Loop)
    (trace : List (Nat × Event)) (hold : s.loops.get? index = some old) :
    Supervisor.pending { s with loops := s.loops.set index loop, trace := trace } index
      = (if loop.point = .entered then 1 else 0) := by
  have hlt : index < s.loops.length := by
    rw [List.get?_eq_getElem?] at hold
    exact (List.getElem?_eq_some_iff.mp hold).1
  simp only [Supervisor.pending, List.get?_eq_getElem?]
  rw [List.getElem?_set_self hlt]

/-- With the stop flag set, an action other than a call of `Start` lets a loop start a child
only if the loop stands in the body of the `for` statement, and then no more. -/
theorem Supervisor.act_stopped_spawns (s : Supervisor) (a : Action) (ha : a.isStart = false)
    (hstop : s.server.stop = true) (index : Nat) :
    ∃ extra, spawns (s.act a).trace index = spawns s.trace index ++ extra ∧
      (∀ argv ∈ extra, argv = s.server.command) ∧
      extra.length + (s.act a).pending index ≤ s.pending index := by
  cases a with
  | start createDirectory => simp [Action.isStart] at ha
  | stop => exact ⟨[], by simp [Supervisor.act, Supervisor.Stop, Supervisor.pending]⟩
  | step number openFile =>
    simp only [Supervisor.act, Supervisor.stepLoop]
    cases hget : s.loops.get? number with
    | none => exact ⟨[], by simp⟩
    | some loop =>
      simp only [spawns_append]
      by_cases hnumber : number = index
      · subst hnumber
        obtain ⟨hpoint, extra, hextra, hargv, hlength⟩ :=
          Loop.step_stopped s.server openFile loop hstop number
        refine ⟨extra, by rw [hextra], hargv, ?_⟩
        rw [Supervisor.pending_set_self s number loop _ _ hget]
        simp only [hpoint, if_false, Nat.add_zero]
        simp only [Supervisor.pending, hget]
        exact hlength
      · refine ⟨[], ?_, by simp, ?_⟩
        · rw [spawns_of_other_loop _ _ _ hnumber]
        · rw [Supervisor.pending_set_other s number index _ _ hnumber]
          simp

theorem Supervisor.exec_stopped_spawns (s : Supervisor) (schedule : List Action)
    (hschedule : ∀ a ∈ schedule, a.isStart = false) (hstop : s.server.stop = true)
    (index : Nat) :
    ∃ extra, spawns (s.exec schedule).trace index = spawns s.trace index ++ extra ∧
      (∀ argv ∈ extra, argv = s.server.command) ∧
      extra.length + (s.exec schedule).pending index ≤ s.pending index := by
  induction schedule generalizing s with
  | nil => exact ⟨[], by simp [Supervisor.exec]⟩
  | cons a rest ih =>
    rw [Supervisor.exec_cons]
    have ha := hschedule a (List.mem_cons_self _ _)
    obtain ⟨first, hfirst, hargv1, hlength1⟩ := Supervisor.act_stopped_spawns s a ha hstop index
    obtain ⟨second, hsecond, hargv2, hlength2⟩ :=
      ih (s.act a) (fun b hb => hschedule b (List.mem_cons_of_mem _ hb))
        (Supervisor.act_stop_of_not_start s a ha hstop)
    refine ⟨first ++ second, ?_, ?_, ?_⟩
    · rw [hsecond, hfirst, List.append_assoc]
    · intro argv hmem
      rcases List.mem_append.mp hmem with h | h
      · exact hargv1 argv h
      · rw [hargv2 argv h]
        exact (Supervisor.act_server s a).2.2.1
    · rw [List.length_append]
      omega

theorem Supervisor.pending_le_one (s : Supervisor) (index : Nat) : s.pending index ≤ 1 := by
  unfold Supervisor.pending
  cases s.loops.get? index with
  | none => exact Nat.zero_le _
  | some loop => by_cases h : loop.point = .entered <;> simp [h]

theorem Supervisor.act_loops_length (s : Supervisor) (a : Action) :
    (s.act a).loops.length = s.loops.length + (if a.launches s.server then 1 else 0) := by
  cases a with
  | start createDirectory =>
    simp only [Supervisor.act, Supervisor.Start, Action.launches]
    by_cases henabled : s.server.logger.Enabled = true
    · cases createDirectory <;> simp [henabled]
    · cases createDirectory <;> simp [henabled]
  | stop => simp [Supervisor.act, Supervisor.Stop, Action.launches]
  | step index openFile =>
    simp only [Supervisor.act, Supervisor.stepLoop, Action.launches]
    cases s.loops.get? index <;> simp

theorem Action.launches_congr (server other : ServerWrapper) (a : Action)
    (h : other.logger = server.logger) : a.launches other = a.launches server := by
  cases a <;> simp [Action.launches, h]

theorem Supervisor.exec_loops_length (s : Supervisor) (schedule : List Action) :
    (s.exec schedule).loops.length
      = s.loops.length + schedule.countP fun a => a.launches s.server := by
  induction schedule generalizing s with
  | nil => rfl
  | cons a rest ih =>
    rw [Supervisor.exec_cons, ih, Supervisor.act_loops_length, List.countP_cons]
    have hcongr : (fun b : Action => b.launches (s.act a).server)
        = fun b : Action => b.launches s.server := by
      funext b
      exact Action.launches_congr _ _ b (Supervisor.act_server s a).2.2.2
    rw [hcongr]
    omega

theorem Supervisor.active_length_le (s : Supervisor) : s.active.length ≤ s.loops.length :=
  List.length_filter_le _ _

theorem Supervisor.act_clear_of_not_stop (s : Supervisor) (a : Action) (ha : a ≠ .stop)
    (hclear : s.server.stop = false) : (s.act a).server.stop = false := by
  cases a with
  | start createDirectory =>
    simp only [Supervisor.act, Supervisor.Start_clears_flag]
  | stop => exact absurd rfl ha
  | step index openFile =>
    simp only [Supervisor.act, Supervisor.stepLoop_server]
    exact hclear

/-- Without a call of `Stop` the stop flag stays clear. -/
theorem Supervisor.exec_clear_of_no_stop (s : Supervisor) (schedule : List Action)
    (hschedule : ∀ a ∈ schedule, a ≠ .stop) (hclear : s.server.stop = false) :
    (s.exec schedule).server.stop = false := by
  induction schedule generalizing s with
  | nil => exact hclear
  | cons a rest ih =>
    rw [Supervisor.exec_cons]
    exact ih (s.act a) (fun b hb => hschedule b (List.mem_cons_of_mem _ hb))
      (Supervisor.act_clear_of_not_stop s a (hschedule a (List.mem_cons_self _ _)) hclear)

/-- C21, counterexample: the server `etcd` with logging enabled and no call of `Stop`.  The
first child exits, the second of backoff passes and the stop flag is clear, but the log file
does not open any more: the loop makes two more attempts and starts no second child.  And a
call of `Stop` that arrives when the loop has found its condition true and has not yet reached
`command.Run()` does not keep the loop from starting the child: the second child is started
with the stop flag set. -/
theorem control_loop_no_respawn_counterexample :
    ((Supervisor.idle etcdWrapper).exec [.start none, .step 0 true, .step 0 true, .step 0 true,
        .step 0 true, .step 0 true, .step 0 false, .step 0 false, .step 0 false,
        .step 0 false]).server.stop = false ∧
    (eventsOf ((Supervisor.idle etcdWrapper).exec [.start none, .step 0 true, .step 0 true,
        .step 0 true, .step 0 true, .step 0 true, .step 0 false, .step 0 false, .step 0 false,
        .step 0 false]).trace 0)
      = [.startingServer ["/bin/etcd", "--v=0"], .opened "/log/etcd.log",
         .run ["/bin/etcd", "--v=0"], .exited, .sleep, .serverTerminated,
         .startingServer ["/bin/etcd", "--v=0"], .openFailed,
         .startingServer ["/bin/etcd", "--v=0"], .openFailed] ∧
    spawns ((Supervisor.idle etcdWrapper).exec [.start none, .step 0 true, .step 0 true,
        .step 0 true, .step 0 true, .step 0 true, .step 0 false, .step 0 false, .step 0 false,
        .step 0 false]).trace 0
      = [["/bin/etcd", "--v=0"]] ∧
    ((Supervisor.idle etcdWrapper).exec [.start none, .step 0 true, .step 0 true, .step 0 true,
        .step 0 true, .step 0 true, .step 0 true, .stop]).server.stop = true ∧
    spawns ((Supervisor.idle etcdWrapper).exec [.start none, .step 0 true, .step 0 true,
        .step 0 true, .step 0 true, .step 0 true, .step 0 true, .stop]).trace 0
      = [["/bin/etcd", "--v=0"]] ∧
    spawns ((Supervisor.idle etcdWrapper).exec [.start none, .step 0 true, .step 0 true,
        .step 0 true, .step 0 true, .step 0 true, .step 0 true, .stop, .step 0 true]).trace 0
      = [["/bin/etcd", "--v=0"], ["/bin/etcd", "--v=0"]] := by
  decide

/-- C21, amended: in the control loop, when a child has exited and the second of backoff has
passed, the loop comes to the condition of its `for` statement.  With the stop flag set at that
point it returns and starts no child; with the flag clear it goes into another attempt, which
starts a child with the same argv if logging is disabled or the log file opens, whatever the
flag has become meanwhile, and otherwise starts no child and comes back to the condition.  With
no `Stop` call the flag stays clear after `Start`, and with a log file that opens a child that
exits at once is started a second time, after the sleep.  Once `Stop` has been called and
`Start` is not called again, a loop starts at most one more child, and only if it stood in an
attempt, past the condition and before `command.Run()`, when `Stop` was called: no child is
started after a child that runs at the call of `Stop` has exited.  No action changes the
argv. -/
theorem control_loop_respawns_unless_stopped (server : ServerWrapper) :
    (∀ (loop : Loop) (first second later : Bool), loop.point = .head →
      (Event.run server.command
          ∈ (loop.step server first).2
            ++ ((loop.step server first).1.step { server with stop := later } second).2 ↔
        server.stop = false ∧ (server.logger.Enabled = true → second = true)) ∧
      (∀ argv, Event.run argv ∈ (loop.step server first).2
            ++ ((loop.step server first).1.step { server with stop := later } second).2 →
        argv = server.command) ∧
      (server.stop = true → (loop.step server first).1.point = .returned) ∧
      (server.stop = false → (server.logger.Enabled = true → second = true) →
        ((loop.step server first).1.step { server with stop := later } second).1.point
          = .running) ∧
      (server.stop = false → server.logger.Enabled = true → second = false →
        ((loop.step server first).1.step { server with stop := later } second).1.point
          = .head)) ∧
    (∀ (loop : Loop) (first second third : Bool), loop.point = .running →
      (loop.step server first).2 = [.exited] ∧
      ((loop.step server first).1.step server second).2 = [.sleep] ∧
      (((loop.step server first).1.step server second).1.step server third).1.point = .head ∧
      ∀ argv, Event.run argv
        ∉ (((loop.step server first).1.step server second).1.step server third).2) ∧
    (spawns ((Supervisor.idle server).exec [.start none, .step 0 true, .step 0 true,
        .step 0 true, .step 0 true]).trace 0 = [server.command] ∧
      ((Supervisor.idle server).exec [.start none, .step 0 true, .step 0 true,
        .step 0 true, .step 0 true]).trace.getLast? = some (0, .sleep) ∧
      spawns ((Supervisor.idle server).exec [.start none, .step 0 true, .step 0 true,
        .step 0 true, .step 0 true, .step 0 true, .step 0 true, .step 0 true]).trace 0
        = [server.command, server.command]) ∧
    (∀ (s : Supervisor) (schedule : List Action), s.server = server →
      (∀ a ∈ schedule, a.isStart = false) →
      ∀ index, ∃ extra,
        spawns (s.Stop.exec schedule).trace index = spawns s.trace index ++ extra ∧
        (∀ argv ∈ extra, argv = server.command) ∧
        extra.length ≤ s.pending index ∧ s.pending index ≤ 1 ∧
        ((∀ loop, s.loops.get? index = some loop → loop.point ≠ .entered) → extra = [])) ∧
    (∀ (s : Supervisor) (schedule : List Action), s.server = server →
      (s.exec schedule).server.command = server.command) ∧
    (∀ (s : Supervisor) (createDirectory : Option String) (schedule : List Action),
      s.server = server → (∀ a ∈ schedule, a ≠ .stop) →
      ((s.Start createDirectory).1.exec schedule).server.stop = false) := by
  refine ⟨?_, ?_, ?_, ?_, ?_, ?_⟩
  · intro loop first second later hpoint
    cases hstop : server.stop <;> cases henabled : server.logger.Enabled <;> cases second <;>
      simp [Loop.step, hpoint, hstop, henabled]
  · intro loop first second third hpoint
    cases hstop : server.stop <;> simp [Loop.step, hpoint, hstop]
  · cases henabled : server.logger.Enabled <;>
      simp [Supervisor.exec, Supervisor.act, Supervisor.Start, Supervisor.idle,
        Supervisor.stepLoop, Loop.step, henabled, spawns]
  · intro s schedule hs hschedule index
    obtain ⟨extra, hextra, hargv, hlength⟩ :=
      Supervisor.exec_stopped_spawns s.Stop schedule hschedule rfl index
    have hpending : s.Stop.pending index = s.pending index := rfl
    rw [hpending] at hlength
    refine ⟨extra, hextra, ?_, by omega, Supervisor.pending_le_one s index, ?_⟩
    · intro argv hmem
      rw [hargv argv hmem, ← hs]
      rfl
    · intro hpoint
      have hzero : s.pending index = 0 := by
        unfold Supervisor.pending
        cases hget : s.loops.get? index with
        | none => rfl
        | some loop => simp [hpoint loop hget]
      apply List.eq_nil_of_length_eq_zero
      omega
  · intro s schedule hs
    rw [← hs]
    exact (Supervisor.exec_server s schedule).2.2.1
  · intro s createDirectory schedule _ hschedule
    apply Supervisor.exec_clear_of_no_stop _ schedule hschedule
    rw [Supervisor.Start_clears_flag]

/-- Witness for C21: the server `etcd`.  Its child ends at once and is started a second time with
the same argv; with `Stop` called while the second child runs, the loop returns after that child
and starts no third one. -/
theorem control_loop_respawns_unless_stopped_witness :
    spawns ((Supervisor.idle etcdWrapper).exec [.start none, .step 0 true, .step 0 true,
        .step 0 true, .step 0 true, .step 0 true, .step 0 true, .step 0 true]).trace 0
      = [["/bin/etcd", "--v=0"], ["/bin/etcd", "--v=0"]] ∧
    ((Supervisor.idle etcdWrapper).exec [.start none, .step 0 true, .step 0 true,
        .step 0 true, .step 0 true, .step 0 true, .step 0 true, .step 0 true]).loops
      = [{ point := .running, handles := 2 }] ∧
    spawns (((Supervisor.idle etcdWrapper).exec [.start none, .step 0 true, .step 0 true,
        .step 0 true, .step 0 true, .step 0 true, .step 0 true, .step 0 true]).Stop.exec
          [.step 0 true, .step 0 true, .step 0 true, .step 0 true, .step 0 true]).trace 0
      = [["/bin/etcd", "--v=0"], ["/bin/etcd", "--v=0"]] ∧
    (((Supervisor.idle etcdWrapper).exec [.start none, .step 0 true, .step 0 true,
        .step 0 true, .step 0 true, .step 0 true, .step 0 true, .step 0 true]).Stop.exec
          [.step 0 true, .step 0 true, .step 0 true, .step 0 true, .step 0 true]).loops
      = [{ point := .returned, handles := 0 }] :=
  ⟨(control_loop_respawns_unless_stopped etcdWrapper).2.2.1.2.2,
   by decide,
   ((control_loop_respawns_unless_stopped etcdWrapper).2.2.2.1
      ((Supervisor.idle etcdWrapper).exec [.start none, .step 0 true, .step 0 true,
        .step 0 true, .step 0 true, .step 0 true, .step 0 true, .step 0 true])
      [.step 0 true, .step 0 true, .step 0 true, .step 0 true, .step 0 true]
      (by decide) (by decide) 0).elim fun extra h => by
        have hnil : extra = [] := h.2.2.2.2 (by decide)
        rw [h.1, hnil]
        decide,
   by decide⟩

/-- C22, the code at the failing input: the server `etcd` with logging enabled and a log file
that does not open.  No child is started, and the second attempt follows the first without a
sleep between them: the `continue` statement skips `time.Sleep`. -/
theorem control_loop_open_failure_no_backoff :
    ((Supervisor.idle etcdWrapper).exec [.start none, .step 0 false, .step 0 false,
        .step 0 false, .step 0 false]).trace
      = [(0, .startingServer ["/bin/etcd", "--v=0"]), (0, .openFailed),
         (0, .startingServer ["/bin/etcd", "--v=0"]), (0, .openFailed)] ∧
    (0, Event.sleep) ∉
      ((Supervisor.idle etcdWrapper).exec [.start none, .step 0 false, .step 0 false,
        .step 0 false, .step 0 false]).trace ∧
    spawns ((Supervisor.idle etcdWrapper).exec [.start none, .step 0 false, .step 0 false,
      .step 0 false, .step 0 false]).trace 0 = [] ∧
    ((Supervisor.idle etcdWrapper).exec [.start none, .step 0 true, .step 0 true, .step 0 true,
        .step 0 true, .step 0 true, .step 0 true, .step 0 true]).trace
      = [(0, .startingServer ["/bin/etcd", "--v=0"]), (0, .opened "/log/etcd.log"),
         (0, .run ["/bin/etcd", "--v=0"]), (0, .exited), (0, .sleep), (0, .serverTerminated),
         (0, .startingServer ["/bin/etcd", "--v=0"]), (0, .opened "/log/etcd.log"),
         (0, .run ["/bin/etcd", "--v=0"])] := by
  decide

theorem Supervisor.exec_iteration (s : Supervisor) (handles : Nat)
    (hserver : s.server = etcdWrapper) (hloops : s.loops = [{ point := .head, handles := handles }]) :
    (s.exec (iteration 0)).server = etcdWrapper ∧
    (s.exec (iteration 0)).loops = [{ point := .head, handles := handles + 1 }] := by
  obtain ⟨server, loops, trace⟩ := s
  simp only at hserver hloops
  subst hserver hloops
  simp [Supervisor.exec, Supervisor.act, Supervisor.stepLoop, Loop.step, iteration, etcdWrapper]

/-- C23, the code at the failing input: the server `etcd` with logging enabled, a log file that
opens and children that end.  At the start of the second iteration the handle of the first
iteration is still open, after the second `os.OpenFile` two handles are open, and after `n`
iterations the loop holds `n` open handles: the deferred `Close` calls run when the function
literal returns, which happens after `Stop` alone. -/
theorem control_loop_handles_accumulate :
    ((Supervisor.idle etcdWrapper).exec (.start none :: iteration 0)).loops
      = [{ point := .head, handles := 1 }] ∧
    ((Supervisor.idle etcdWrapper).exec
        (.start none :: iteration 0 ++ [.step 0 true, .step 0 true])).loops
      = [{ point := .running, handles := 2 }] ∧
    (∀ n : Nat,
      ((Supervisor.idle etcdWrapper).exec
          (.start none :: (List.replicate n (iteration 0)).flatten)).loops
        = [{ point := .head, handles := n }]) ∧
    ((Supervisor.idle etcdWrapper).exec
        (.start none :: iteration 0 ++ iteration 0 ++ [.stop, .step 0 true])).trace.getLast?
      = some (0, .closed 2) := by
  refine ⟨by decide, by decide, ?_, by decide⟩
  intro n
  have h : ∀ n : Nat,
      ((Supervisor.idle etcdWrapper).exec
          (.start none :: (List.replicate n (iteration 0)).flatten)).server = etcdWrapper ∧
      ((Supervisor.idle etcdWrapper).exec
          (.start none :: (List.replicate n (iteration 0)).flatten)).loops
        = [{ point := .head, handles := n }] := by
    intro n
    induction n with
    | zero => exact ⟨by decide, by decide⟩
    | succ n ih =>
      have hsplit : Action.start none :: (List.replicate (n + 1) (iteration 0)).flatten
          = (Action.start none :: (List.replicate n (iteration 0)).flatten) ++ iteration 0 := by
        rw [List.replicate_succ', List.flatten_append]
        simp
      rw [hsplit, Supervisor.exec_append]
      exact Supervisor.exec_iteration _ n ih.1 ih.2
  exact (h n).2

/-- C24, counterexample: `Start` is called, the child of its loop runs, `Stop` is called and,
before the child ends, `Start` is called again.  Two control loops are active, and as the second
`Start` has cleared the stop flag the first loop does not return: both loops have a child
running at the same time.  Two calls of `Start` in a row launch two loops as well. -/
theorem Start_twice_two_loops_counterexample :
    ((Supervisor.idle etcdWrapper).exec
        [.start none, .step 0 true, .step 0 true, .stop, .start none]).active.length = 2 ∧
    ((Supervisor.idle etcdWrapper).exec
        [.start none, .step 0 true, .step 0 true, .stop, .start none]).loops
      = [{ point := .running, handles := 1 }, { point := .head, handles := 0 }] ∧
    ((Supervisor.idle etcdWrapper).exec
        [.start none, .step 0 true, .step 0 true, .stop, .start none, .step 1 true,
         .step 1 true, .step 0 true, .step 0 true, .step 0 true, .step 0 true,
         .step 0 true]).loops
      = [{ point := .running, handles := 2 }, { point := .running, handles := 1 }] ∧
    ((Supervisor.idle etcdWrapper).exec [.start none, .start none]).active.length = 2 := by
  decide

/-- C24, amended: for every sequence of `Start` and `Stop` calls and loop steps on one
supervisor, every `Start` call that returns no error launches one more control loop, whether or
not a loop is still active: `Start` does not look at the loops.  The number of loops launched is
the number of these calls, so at most one control loop is active when `Start` is called at most
once on a supervisor without loops. -/
theorem Start_launches_a_loop_per_call (s : Supervisor) (schedule : List Action) :
    (∀ createDirectory, (s.Start createDirectory).2 = none →
      (s.Start createDirectory).1.loops = s.loops ++ [{ point := .head, handles := 0 }]) ∧
    (s.exec schedule).loops.length
      = s.loops.length + schedule.countP (fun a => a.launches s.server) ∧
    (s.exec schedule).active.length ≤ (s.exec schedule).loops.length ∧
    (s.loops = [] → schedule.countP (fun a => a.isStart) ≤ 1 →
      (s.exec schedule).active.length ≤ 1) := by
  have hlength := Supervisor.exec_loops_length s schedule
  refine ⟨?_, hlength, Supervisor.active_length_le _, ?_⟩
  · intro createDirectory
    unfold Supervisor.Start
    dsimp only
    cases (if s.server.logger.Enabled = true then createDirectory else none) <;> simp
  · intro hloops hcount
    have hle : schedule.countP (fun a => a.launches s.server)
        ≤ schedule.countP (fun a => a.isStart) := by
      apply List.countP_mono_left
      intro a _ ha
      cases a <;> simp_all [Action.launches, Action.isStart]
    have hactive := Supervisor.active_length_le (s.exec schedule)
    rw [hlength, hloops] at hactive
    simp only [List.length_nil, Nat.zero_add] at hactive
    omega

/-- Witness for C24: one call of `Start` on the idle supervisor of `etcd`, followed by steps
and a `Stop`, leaves one loop. -/
theorem Start_launches_a_loop_per_call_witness :
    (Supervisor.idle etcdWrapper).loops = [] ∧
    ((Supervisor.idle etcdWrapper).exec
        [.start none, .step 0 true, .step 0 true, .stop, .step 0 true]).active.length ≤ 1 ∧
    ((Supervisor.idle etcdWrapper).exec
        [.start none, .step 0 true, .step 0 true, .stop, .step 0 true]).loops
      = [{ point := .sleeping, handles := 1 }] ∧
    ((Supervisor.idle etcdWrapper).Start none).1.loops = [{ point := .head, handles := 0 }] :=
  ⟨rfl,
   (Start_launches_a_loop_per_call (Supervisor.idle etcdWrapper)
      [.start none, .step 0 true, .step 0 true, .stop, .step 0 true]).2.2.2 rfl (by decide),
   by decide,
   (Start_launches_a_loop_per_call (Supervisor.idle etcdWrapper) []).1 none (by decide)⟩

/-! ## Sequences of map assignments -/

namespace GoMap

theorem set_set {α : Type} (m : GoMap α) (key : String) (first second : α) :
    (m.set key first).set key second = m.set key second := by
  induction m with
  | nil => simp [set]
  | cons kv rest ih =>
    obtain ⟨k, v⟩ := kv
    by_cases hk : k = key
    · simp [set, hk]
    · simp [set, hk, ih]

theorem get?_cons_ne {α : Type} (k key : String) (v : α) (rest : GoMap α) (h : key ≠ k) :
    get? ((k, v) :: rest) key = get? rest key := by
  have h2 : (key == k) = false := by simpa using h
  simp [get?, List.lookup, h2]

theorem set_comm {α : Type} (m : GoMap α) (key other : String) (value1 value2 : α)
    (hne : key ≠ other) (hkey : m.get? key ≠ none ∨ m.get? other ≠ none) :
    (m.set key value1).set other value2 = (m.set other value2).set key value1 := by
  induction m with
  | nil => simp [get?, List.lookup] at hkey
  | cons kv rest ih =>
    obtain ⟨k, v⟩ := kv
    by_cases hk : k = key
    · subst hk
      simp [set, hne]
    · by_cases ho : k = other
      · subst ho
        simp [set, hk]
      · have hrest : get? rest key ≠ none ∨ get? rest other ≠ none := by
          rw [get?_cons_ne k key v rest (fun e => hk e.symm),
            get?_cons_ne k other v rest (fun e => ho e.symm)] at hkey
          exact hkey
        simp [set, hk, ho, ih hrest]

theorem get?_set_ne_none {α : Type} (m : GoMap α) (key other : String) (value : α)
    (h : m.get? other ≠ none) : (m.set key value).get? other ≠ none := by
  by_cases hk : other = key
  · subst hk
    simp [get?_set_self]
  · rw [get?_set_other m key other value hk]
    exact h

theorem mem_set {α : Type} (m : GoMap α) (key : String) (value : α) (kv : String × α)
    (h : kv ∈ m.set key value) : kv ∈ m ∨ kv = (key, value) := by
  induction m with
  | nil =>
    simp only [set, List.mem_singleton] at h
    exact Or.inr h
  | cons head rest ih =>
    obtain ⟨k, v⟩ := head
    by_cases hk : k = key
    · simp only [set, hk, if_true, List.mem_cons] at h
      rcases h with h | h
      · exact Or.inr h
      · exact Or.inl (List.mem_cons_of_mem _ h)
    · simp only [set, hk, if_false, List.mem_cons] at h
      rcases h with h | h
      · exact Or.inl (h ▸ List.mem_cons_self _ _)
      · rcases ih h with h2 | h2
        · exact Or.inl (List.mem_cons_of_mem _ h2)
        · exact Or.inr h2

theorem assign_nil {α : Type} (m : GoMap α) : m.assign [] = m := rfl

theorem assign_cons {α : Type} (m : GoMap α) (kv : String × α) (writes : List (String × α)) :
    m.assign (kv :: writes) = (m.set kv.1 kv.2).assign writes := rfl

theorem assign_append {α : Type} (m : GoMap α) (first second : List (String × α)) :
    m.assign (first ++ second) = (m.assign first).assign second := by
  simp [assign, List.foldl_append]

theorem get?_assign_ne_none {α : Type} (writes : List (String × α)) (m : GoMap α)
    (key : String) (h : m.get? key ≠ none ∨ key ∈ writes.map Prod.fst) :
    (m.assign writes).get? key ≠ none := by
  induction writes generalizing m with
  | nil =>
    simpa using h
  | cons kv rest ih =>
    rw [assign_cons]
    apply ih
    rcases h with h | h
    · exact Or.inl (get?_set_ne_none m kv.1 key kv.2 h)
    · simp only [List.map_cons, List.mem_cons] at h
      rcases h with h | h
      · left
        rw [h, get?_set_self]
        simp
      · exact Or.inr h

theorem get?_assign_of_not_mem {α : Type} (writes : List (String × α)) (m : GoMap α)
    (key : String) (h : key ∉ writes.map Prod.fst) :
    (m.assign writes).get? key = m.get? key := by
  induction writes generalizing m with
  | nil => rfl
  | cons kv rest ih =>
    simp only [List.map_cons, List.mem_cons, not_or] at h
    rw [assign_cons, ih _ h.2, get?_set_other m kv.1 key kv.2 h.1]

theorem get?_assign_of_mem {α : Type} (writes : List (String × α)) (key : String)
    (h : key ∈ writes.map Prod.fst) :
    ∃ kv ∈ writes, kv.1 = key ∧ ∀ m : GoMap α, (m.assign writes).get? key = some kv.2 := by
  induction writes with
  | nil => simp at h
  | cons kv rest ih =>
    by_cases hrest : key ∈ rest.map Prod.fst
    · obtain ⟨w, hw, hkey, hget⟩ := ih hrest
      exact ⟨w, List.mem_cons_of_mem _ hw, hkey, fun m => by rw [assign_cons, hget]⟩
    · simp only [List.map_cons, List.mem_cons] at h
      rcases h with h | h
      · refine ⟨kv, List.mem_cons_self _ _, h.symm, fun m => ?_⟩
        rw [assign_cons, get?_assign_of_not_mem rest _ key hrest, h, get?_set_self]
      · exact absurd h hrest

theorem mem_assign {α : Type} (writes : List (String × α)) (m : GoMap α) (kv : String × α)
    (h : kv ∈ m.assign writes) : kv ∈ m ∨ kv ∈ writes := by
  induction writes generalizing m with
  | nil => exact Or.inl h
  | cons w rest ih =>
    rw [assign_cons] at h
    rcases ih _ h with h2 | h2
    · rcases mem_set m w.1 w.2 kv h2 with h3 | h3
      · exact Or.inl h3
      · exact Or.inr (h3 ▸ List.mem_cons_self _ _)
    · exact Or.inr (List.mem_cons_of_mem _ h2)

theorem set_assign_set {α : Type} (writes : List (String × α)) (m : GoMap α) (key : String)
    (first second : α) (h : ∀ k ∈ writes.map Prod.fst, m.get? k ≠ none) :
    ((m.set key first).assign writes).set key second = (m.assign writes).set key second := by
  induction writes generalizing m first with
  | nil => exact set_set m key first second
  | cons w rest ih =>
    have hw : m.get? w.1 ≠ none := h w.1 (by simp)
    have hrest : ∀ k ∈ rest.map Prod.fst, (m.set w.1 w.2).get? k ≠ none := fun k hk =>
      get?_set_ne_none m w.1 k w.2 (h k (by simp [List.mem_map] at hk ⊢; exact Or.inr hk))
    rw [assign_cons, assign_cons]
    by_cases hkey : w.1 = key
    · rw [hkey, set_set]
    · rw [set_comm m key w.1 first w.2 (fun e => hkey e.symm) (Or.inr hw)]
      exact ih (m.set w.1 w.2) first hrest

theorem assign_assign {α : Type} (writes : List (String × α)) (m : GoMap α) :
    (m.assign writes).assign writes = m.assign writes := by
  induction writes using List.reverseRecOn generalizing m with
  | nil => rfl
  | append_singleton init last ih =>
    have hpresent : ∀ k ∈ init.map Prod.fst, (m.assign init).get? k ≠ none := fun k hk =>
      get?_assign_ne_none init m k (Or.inr hk)
    have hlast : ∀ x : GoMap α, x.assign (init ++ [last]) = (x.assign init).set last.1 last.2 :=
      fun x => by rw [assign_append]; rfl
    rw [hlast, hlast, set_assign_set init (m.assign init) last.1 last.2 last.2 hpresent, ih]

end GoMap

/-! ## The characters of a joined path -/

namespace path

theorem all_splitSlash (good : Char → Bool) (p : List Char) (h : p.all good = true) :
    ∀ seg ∈ splitSlash p, seg.all good = true := by
  induction p with
  | nil => simp [splitSlash]
  | cons c cs ih =>
    simp only [List.all_cons, Bool.and_eq_true] at h
    intro seg hseg
    by_cases hc : c = '/'
    · simp only [splitSlash, hc, if_true, List.mem_cons] at hseg
      rcases hseg with rfl | hseg
      · rfl
      · exact ih h.2 seg hseg
    · simp only [splitSlash, if_neg hc] at hseg
      cases hs : splitSlash cs with
      | nil => exact absurd hs (splitSlash_ne_nil cs)
      | cons first rest =>
        rw [hs] at hseg
        have ih2 := ih h.2
        rw [hs] at ih2
        simp only [List.mem_cons] at hseg
        rcases hseg with rfl | hseg
        · simp only [List.all_cons, Bool.and_eq_true]
          exact ⟨h.1, ih2 first (List.mem_cons_self _ _)⟩
        · exact ih2 seg (List.mem_cons_of_mem _ hseg)

theorem all_cleanStep (good : Char → Bool) (rooted : Bool) (stack : List (List Char))
    (elem : List Char) (hstack : ∀ e ∈ stack, e.all good = true) (helem : elem.all good = true) :
    ∀ e ∈ cleanStep rooted stack elem, e.all good = true := by
  intro e he
  unfold cleanStep at he
  split at he
  · exact hstack e he
  · split at he
    · cases stack with
      | nil =>
        simp only at he
        split at he
        · simp at he
        · simp only [List.mem_singleton] at he
          rw [he]
          exact helem
      | cons top rest =>
        simp only at he
        split at he
        · simp only [List.mem_cons] at he
          rcases he with rfl | he
          · exact helem
          · exact hstack e (by simpa using he)
        · exact hstack e (List.mem_cons_of_mem _ he)
    · simp only [List.mem_cons] at he
      rcases he with rfl | he
      · exact helem
      · exact hstack e he

theorem all_foldl_cleanStep (good : Char → Bool) (rooted : Bool) (elems : List (List Char))
    (stack : List (List Char)) (hstack : ∀ e ∈ stack, e.all good = true)
    (helems : ∀ e ∈ elems, e.all good = true) :
    ∀ e ∈ elems.foldl (cleanStep rooted) stack, e.all good = true := by
  induction elems generalizing stack with
  | nil => exact hstack
  | cons elem rest ih =>
    simp only [List.foldl_cons]
    apply ih
    · exact all_cleanStep good rooted stack elem hstack (helems elem (List.mem_cons_self _ _))
    · exact fun e he => helems e (List.mem_cons_of_mem _ he)

theorem all_joinSlash (good : Char → Bool) (hslash : good '/' = true)
    (elems : List (List Char)) (h : ∀ e ∈ elems, e.all good = true) :
    (joinSlash elems).all good = true := by
  induction elems with
  | nil => rfl
  | cons elem rest ih =>
    cases rest with
    | nil => exact h elem (List.mem_cons_self _ _)
    | cons next more =>
      simp only [joinSlash, List.all_append, List.all_cons, Bool.and_eq_true]
      exact ⟨h elem (List.mem_cons_self _ _), hslash,
        ih fun e he => h e (List.mem_cons_of_mem _ he)⟩

theorem all_cleanChars (good : Char → Bool) (hslash : good '/' = true) (hdot : good '.' = true)
    (p : List Char) (h : p.all good = true) : (cleanChars p).all good = true := by
  have hbody : ∀ rooted : Bool,
      (joinSlash ((splitSlash p).foldl (cleanStep rooted) []).reverse).all good = true := by
    intro rooted
    apply all_joinSlash good hslash
    intro e he
    exact all_foldl_cleanStep good rooted _ [] (by simp) (all_splitSlash good p h) e
      (List.mem_reverse.mp he)
  unfold cleanChars
  simp only
  split
  · simp only [List.all_cons, Bool.and_eq_true]
    exact ⟨hslash, hbody _⟩
  · split
    · simp [hdot]
    · exact hbody _

theorem all_intercalate_go (good : Char → Bool) (hslash : good '/' = true)
    (elems : List String) (acc : String) (hacc : acc.data.all good = true)
    (h : ∀ e ∈ elems, e.data.all good = true) :
    (String.intercalate.go acc "/" elems).data.all good = true := by
  induction elems generalizing acc with
  | nil => simpa [String.intercalate.go] using hacc
  | cons e rest ih =>
    simp only [String.intercalate.go]
    apply ih
    · have he := h e (List.mem_cons_self _ _)
      have hs : ("/" : String).data = ['/'] := rfl
      simp only [String.data_append, List.all_append, Bool.and_eq_true, hs, List.all_cons,
        List.all_nil, Bool.and_true]
      exact ⟨⟨hacc, hslash⟩, he⟩
    · exact fun x hx => h x (List.mem_cons_of_mem _ hx)

theorem all_Join (good : Char → Bool) (hslash : good '/' = true) (hdot : good '.' = true)
    (elems : List String) (h : ∀ e ∈ elems, e.data.all good = true) :
    (Join elems).data.all good = true := by
  unfold Join
  have hdrop : ∀ e ∈ elems.dropWhile (fun e => e == ""), e.data.all good = true :=
    fun e he => h e ((List.dropWhile_sublist _).subset he)
  cases hes : elems.dropWhile (fun e => e == "") with
  | nil => rfl
  | cons first rest =>
    rw [hes] at hdrop
    simp only [Clean]
    apply all_cleanChars good hslash hdot
    simp only [String.intercalate]
    exact all_intercalate_go good hslash rest first (hdrop first (List.mem_cons_self _ _))
      fun e he => hdrop e (List.mem_cons_of_mem _ he)

end path

theorem isBraceFree_Join (elems : List String)
    (h : ∀ e ∈ elems, Template.isBraceFree e = true) :
    Template.isBraceFree (path.Join elems) = true :=
  path.all_Join (fun c => !(c == '{' || c == '<')) (by decide) (by decide) elems h

theorem isPlainText_Join (elems : List String)
    (h : ∀ e ∈ elems, Template.isBraceFree e = true) :
    Template.isPlainText (path.Join elems) = true :=
  Template.isPlainText_of_isBraceFree _ (isBraceFree_Join elems h)

/-! ## The registration of the asset directories and files -/

theorem setDirectories_self (config : InternalConfig) :
    setDirectories config config.Config.Assets.Directories = config := rfl

theorem setDirectories_setDirectories (config : InternalConfig)
    (first second : GoMap AssetDirectory) :
    setDirectories (setDirectories config first) second = setDirectories config second := rfl

theorem addAssetDirectory_eq (config : InternalConfig) (name : String) (labels : Labels)
    (directory : String) :
    InternalConfig.addAssetDirectory config name labels directory
      = setDirectories config
          (config.Config.Assets.Directories.set name (NewAssetDirectory labels directory)) := rfl

theorem addAssetFile_eq (config : InternalConfig) (name : String) (labels : Labels)
    (directory : String) :
    InternalConfig.addAssetFile config name labels directory
      = setFiles config (config.Config.Assets.Files.set name (NewAssetFile labels directory)) :=
  rfl

/-- The lines of a table whose lookups are all preceded by their registration write the same
values whatever the registry was before: the outcome is a sequence of assignments that does not
depend on the configuration. -/
theorem registerDirectoryLines_writes (good : AssetDirectory → Prop)
    (lines : List DirectoryLine) :
    ∀ (known : List String) (done : List (String × AssetDirectory)),
      (∀ k ∈ known, k ∈ done.map Prod.fst) →
      (∀ w ∈ done, good w.2) →
      parentsFirst known lines →
      (∀ line ∈ lines, line.parent = none →
        good (NewAssetDirectory line.labels (path.Join line.elems))) →
      (∀ line ∈ lines, ∀ parent : AssetDirectory, good parent →
        good (NewAssetDirectory line.labels (path.Join (parent.Directory :: line.elems)))) →
      ∃ ws : List (String × AssetDirectory),
        ws.map Prod.fst = lines.map (fun line => line.name) ∧ (∀ w ∈ ws, good w.2) ∧
        ∀ (config : InternalConfig) (m : GoMap AssetDirectory),
          config.Config.Assets.Directories = m.assign done →
          InternalConfig.registerDirectoryLines lines config
            = .ok (setDirectories config (m.assign (done ++ ws))) := by
  induction lines with
  | nil =>
    intro known done _ _ _ _ _
    refine ⟨[], rfl, by simp, ?_⟩
    intro config m hdirs
    simp only [InternalConfig.registerDirectoryLines, List.append_nil]
    rw [← hdirs]
    rfl
  | cons line rest ih =>
    intro known done hknown hdone hfirst hroot hchild
    obtain ⟨hparent, hrestFirst⟩ := hfirst
    have hrestRoot : ∀ l ∈ rest, l.parent = none →
        good (NewAssetDirectory l.labels (path.Join l.elems)) :=
      fun l hl => hroot l (List.mem_cons_of_mem _ hl)
    have hrestChild : ∀ l ∈ rest, ∀ parent : AssetDirectory, good parent →
        good (NewAssetDirectory l.labels (path.Join (parent.Directory :: l.elems))) :=
      fun l hl => hchild l (List.mem_cons_of_mem _ hl)
    -- the value that the line writes
    have hvalue : ∃ value : AssetDirectory, good value ∧
        ∀ (config : InternalConfig) (m : GoMap AssetDirectory),
          config.Config.Assets.Directories = m.assign done →
          InternalConfig.registerAssetDirectory config line
            = .ok (setDirectories config ((m.assign done).set line.name value)) := by
      cases hp : line.parent with
      | none =>
        refine ⟨_, hroot line (List.mem_cons_self _ _) hp, ?_⟩
        intro config m hdirs
        simp only [InternalConfig.registerAssetDirectory, hp, addAssetDirectory_eq, hdirs]
      | some parent =>
        obtain ⟨kv, hkv, _, hget⟩ :=
          GoMap.get?_assign_of_mem done parent (hknown parent (hparent parent hp))
        refine ⟨_, hchild line (List.mem_cons_self _ _) kv.2 (hdone kv hkv), ?_⟩
        intro config m hdirs
        simp only [InternalConfig.registerAssetDirectory, hp,
          InternalConfig.GetRelativeAssetDirectory, hdirs, hget m, addAssetDirectory_eq]
    obtain ⟨value, hgood, hstep⟩ := hvalue
    obtain ⟨ws, hkeys, hws, hrun⟩ := ih (line.name :: known) (done ++ [(line.name, value)])
      (by
        intro k hk
        simp only [List.mem_cons] at hk
        simp only [List.map_append, List.map_cons, List.map_nil, List.mem_append,
          List.mem_singleton]
        rcases hk with hk | hk
        · exact Or.inr hk
        · exact Or.inl (hknown k hk))
      (by
        intro w hw
        simp only [List.mem_append, List.mem_singleton] at hw
        rcases hw with hw | hw
        · exact hdone w hw
        · rw [hw]
          exact hgood)
      hrestFirst hrestRoot hrestChild
    refine ⟨(line.name, value) :: ws, by simp [hkeys], ?_, ?_⟩
    · intro w hw
      simp only [List.mem_cons] at hw
      rcases hw with hw | hw
      · rw [hw]
        exact hgood
      · exact hws w hw
    · intro config m hdirs
      simp only [InternalConfig.registerDirectoryLines, hstep config m hdirs]
      have hnext : (setDirectories config ((m.assign done).set line.name value)).Config.Assets.Directories
          = m.assign (done ++ [(line.name, value)]) := by
        rw [GoMap.assign_append]
        rfl
      rw [hrun _ m hnext, setDirectories_setDirectories]
      simp

theorem registerAssetFiles_eq (utils : Utils) (config : InternalConfig) :
    InternalConfig.registerAssetFiles utils config
      = setFiles config (config.Config.Assets.Files.assign
          ((InternalConfig.assetFileLines utils).map
            fun line => (line.1, NewAssetFile line.2.1 line.2.2))) := by
  unfold InternalConfig.registerAssetFiles
  generalize InternalConfig.assetFileLines utils = lines
  induction lines generalizing config with
  | nil => rfl
  | cons line rest ih =>
    simp only [List.foldl_cons, List.map_cons, GoMap.assign_cons]
    rw [ih]
    rfl

theorem parentsFirst_assetDirectoryLines (utils : Utils) :
    parentsFirst [] (InternalConfig.assetDirectoryLines utils) := by
  simp [parentsFirst, InternalConfig.assetDirectoryLines]

/-! ## Template expansion does not read the lists of commands and servers -/

theorem evalField_setLists (config : InternalConfig) (commands : List Command)
    (servers : List ServerConfig) :
    InternalConfig.evalField (setLists config commands servers)
      = InternalConfig.evalField config := by
  funext chain
  rfl

theorem ApplyTemplate_setLists (utils : Utils) (config : InternalConfig)
    (commands : List Command) (servers : List ServerConfig) (fuel : Nat) :
    InternalConfig.ApplyTemplate utils (setLists config commands servers) fuel
      = InternalConfig.ApplyTemplate utils config fuel := by
  induction fuel with
  | zero => rfl
  | succ fuel ih =>
    funext label value
    simp only [InternalConfig.ApplyTemplate]
    rw [ih, evalField_setLists]
    rfl

theorem GetFullLocalAssetFilename_setLists (utils : Utils) (config : InternalConfig)
    (commands : List Command) (servers : List ServerConfig) (fuel : Nat) (name : String) :
    InternalConfig.GetFullLocalAssetFilename utils (setLists config commands servers) fuel name
      = InternalConfig.GetFullLocalAssetFilename utils config fuel name := by
  simp only [InternalConfig.GetFullLocalAssetFilename, InternalConfig.GetRelativeAssetFilename,
    ApplyTemplate_setLists]
  rfl

theorem addCommand_eq_setLists (config : InternalConfig) (name : String) (labels : Labels)
    (command : String) :
    InternalConfig.addCommand config name labels command
      = setLists config (InternalConfig.addCommand config name labels command).Config.Commands
          config.Config.Servers := by
  unfold InternalConfig.addCommand
  split <;> rfl

theorem addServer_eq_setLists (utils : Utils) (config : InternalConfig) (name : String)
    (labels : Labels) (command : String) (arguments : GoMap String) :
    InternalConfig.addServer utils config name labels command arguments
      = setLists config config.Config.Commands
          (InternalConfig.addServer utils config name labels command arguments).Config.Servers := by
  unfold InternalConfig.addServer
  split <;> rfl

/-! ## The registration of the commands and servers -/

theorem GetFullLocalAssetFilename_addCommand (utils : Utils) (config : InternalConfig)
    (name : String) (labels : Labels) (command : String) (fuel : Nat) (asset : String) :
    InternalConfig.GetFullLocalAssetFilename utils
        (InternalConfig.addCommand config name labels command) fuel asset
      = InternalConfig.GetFullLocalAssetFilename utils config fuel asset := by
  rw [addCommand_eq_setLists, GetFullLocalAssetFilename_setLists]

theorem GetETCDClientEndpoints_addCommand (utils : Utils) (config : InternalConfig)
    (name : String) (labels : Labels) (command : String) :
    InternalConfig.GetETCDClientEndpoints utils
        (InternalConfig.addCommand config name labels command)
      = InternalConfig.GetETCDClientEndpoints utils config := by
  rw [addCommand_eq_setLists]
  rfl

theorem ClusterCIDR_addCommand (config : InternalConfig)
    (name : String) (labels : Labels) (command : String) :
    (InternalConfig.addCommand config name labels command).Config.ClusterCIDR
      = config.Config.ClusterCIDR := by
  rw [addCommand_eq_setLists]
  rfl

theorem registerCommands_eq (utils : Utils) (config : InternalConfig) (fuel : Nat) :
    InternalConfig.registerCommands utils config fuel
      = (commandPaths utils config fuel).map fun paths =>
          addCommands config (commandsOf utils config paths) := by
  simp only [InternalConfig.registerCommands, commandPaths, GetFullLocalAssetFilename_addCommand,
    GetETCDClientEndpoints_addCommand, ClusterCIDR_addCommand, commandsOf, addCommands,
    List.foldl_cons, List.foldl_nil, NewCommand]
  cases InternalConfig.GetFullLocalAssetFilename utils config fuel utils.KUBECTL_BINARY <;>
  cases InternalConfig.GetFullLocalAssetFilename utils config fuel utils.ADMIN_KUBECONFIG <;>
  cases InternalConfig.GetFullLocalAssetDirectory config utils.HELM_DATA_DIRECTORY <;>
  cases InternalConfig.GetFullLocalAssetFilename utils config fuel utils.HELM_BINARY <;>
  cases InternalConfig.GetFullLocalAssetFilename utils config fuel utils.ETCDCTL_BINARY <;>
  cases InternalConfig.GetFullLocalAssetFilename utils config fuel utils.CA_PEM <;>
  cases InternalConfig.GetFullLocalAssetFilename utils config fuel utils.KUBERNETES_PEM <;>
  cases InternalConfig.GetFullLocalAssetFilename utils config fuel utils.KUBERNETES_KEY_PEM <;>
  cases InternalConfig.GetFullLocalAssetFilename utils config fuel utils.K8S_KUBELET_SETUP <;>
  cases InternalConfig.GetFullLocalAssetFilename utils config fuel utils.K8S_ADMIN_USER_SETUP <;>
  cases InternalConfig.GetFullLocalAssetFilename utils config fuel utils.K8S_HELM_USER_SETUP <;>
  rfl

theorem addCommand_of_hasCommand (config : InternalConfig) (name : String) (labels : Labels)
    (command : String) (h : hasCommand config name = true) :
    InternalConfig.addCommand config name labels command = config := by
  unfold hasCommand at h
  simp [InternalConfig.addCommand, h]

theorem hasCommand_addCommand (config : InternalConfig) (name : String) (labels : Labels)
    (command : String) (other : String) (h : hasCommand config other = true ∨ other = name) :
    hasCommand (InternalConfig.addCommand config name labels command) other = true := by
  by_cases hpresent : hasCommand config name = true
  · rw [addCommand_of_hasCommand config name labels command hpresent]
    rcases h with h | h
    · exact h
    · rw [h]
      exact hpresent
  · have hfalse : config.Config.Commands.any (fun c => c.Name == name) = false := by
      simpa [hasCommand] using hpresent
    simp only [hasCommand, InternalConfig.addCommand, hfalse, Bool.false_eq_true, if_false,
      List.any_append, Bool.or_eq_true]
    rcases h with h | h
    · exact Or.inl h
    · right
      simp [NewCommand, h]

theorem hasCommand_addCommands (commands : List Command) (config : InternalConfig)
    (name : String)
    (h : hasCommand config name = true ∨ name ∈ commands.map fun c => c.Name) :
    hasCommand (addCommands config commands) name = true := by
  induction commands generalizing config with
  | nil => simpa [addCommands] using h
  | cons c rest ih =>
    simp only [addCommands, List.foldl_cons]
    apply ih
    simp only [List.map_cons, List.mem_cons] at h
    rcases h with h | h | h
    · exact Or.inl (hasCommand_addCommand config _ _ _ name (Or.inl h))
    · exact Or.inl (hasCommand_addCommand config _ _ _ name (Or.inr h))
    · exact Or.inr h

theorem addCommands_of_hasCommand (commands : List Command) (config : InternalConfig)
    (h : ∀ c ∈ commands, hasCommand config c.Name = true) :
    addCommands config commands = config := by
  induction commands with
  | nil => rfl
  | cons c rest ih =>
    simp only [addCommands, List.foldl_cons]
    rw [addCommand_of_hasCommand config c.Name c.Labels c.Command
      (h c (List.mem_cons_self _ _))]
    exact ih fun x hx => h x (List.mem_cons_of_mem _ hx)

theorem addCommands_eq_setLists (commands : List Command) (config : InternalConfig) :
    addCommands config commands
      = setLists config (addCommands config commands).Config.Commands config.Config.Servers := by
  induction commands generalizing config with
  | nil => rfl
  | cons c rest ih =>
    simp only [addCommands, List.foldl_cons] at ih ⊢
    rw [ih (InternalConfig.addCommand config c.Name c.Labels c.Command)]
    generalize (List.foldl (fun config c =>
      InternalConfig.addCommand config c.Name c.Labels c.Command)
      (InternalConfig.addCommand config c.Name c.Labels c.Command) rest).Config.Commands = cs
    rw [addCommand_eq_setLists]
    rfl

theorem addServer_of_hasServer (utils : Utils) (config : InternalConfig) (name : String)
    (labels : Labels) (command : String) (arguments : GoMap String)
    (h : hasServer config name = true) :
    InternalConfig.addServer utils config name labels command arguments = config := by
  unfold hasServer at h
  simp [InternalConfig.addServer, h]

theorem hasServer_addServer (utils : Utils) (config : InternalConfig) (name : String)
    (labels : Labels) (command : String) (arguments : GoMap String) (other : String)
    (h : hasServer config other = true ∨ other = name) :
    hasServer (InternalConfig.addServer utils config name labels command arguments) other
      = true := by
  by_cases hpresent : hasServer config name = true
  · rw [addServer_of_hasServer utils config name labels command arguments hpresent]
    rcases h with h | h
    · exact h
    · rw [h]
      exact hpresent
  · have hfalse : config.Config.Servers.any (fun s => s.Name == name) = false := by
      simpa [hasServer] using hpresent
    simp only [hasServer, InternalConfig.addServer, hfalse, Bool.false_eq_true, if_false,
      List.any_append, Bool.or_eq_true]
    rcases h with h | h
    · exact Or.inl h
    · right
      simp [h]

theorem hasServer_addServers (utils : Utils)
    (lines : List (String × Labels × String × GoMap String)) (config : InternalConfig)
    (name : String)
    (h : hasServer config name = true ∨ name ∈ lines.map fun line => line.1) :
    hasServer (addServers utils config lines) name = true := by
  induction lines generalizing config with
  | nil => simpa [addServers] using h
  | cons line rest ih =>
    simp only [addServers, List.foldl_cons]
    apply ih
    simp only [List.map_cons, List.mem_cons] at h
    rcases h with h | h | h
    · exact Or.inl (hasServer_addServer utils config _ _ _ _ name (Or.inl h))
    · exact Or.inl (hasServer_addServer utils config _ _ _ _ name (Or.inr h))
    · exact Or.inr h

theorem addServers_of_hasServer (utils : Utils)
    (lines : List (String × Labels × String × GoMap String)) (config : InternalConfig)
    (h : ∀ line ∈ lines, hasServer config line.1 = true) :
    addServers utils config lines = config := by
  induction lines with
  | nil => rfl
  | cons line rest ih =>
    simp only [addServers, List.foldl_cons]
    rw [addServer_of_hasServer utils config line.1 line.2.1 line.2.2.1 line.2.2.2
      (h line (List.mem_cons_self _ _))]
    exact ih fun x hx => h x (List.mem_cons_of_mem _ hx)

theorem addServers_eq_setLists (utils : Utils)
    (lines : List (String × Labels × String × GoMap String)) (config : InternalConfig) :
    addServers utils config lines
      = setLists config config.Config.Commands
          (addServers utils config lines).Config.Servers := by
  induction lines generalizing config with
  | nil => rfl
  | cons line rest ih =>
    simp only [addServers, List.foldl_cons] at ih ⊢
    rw [ih (InternalConfig.addServer utils config line.1 line.2.1 line.2.2.1 line.2.2.2)]
    generalize (List.foldl (fun config line =>
      InternalConfig.addServer utils config line.1 line.2.1 line.2.2.1 line.2.2.2)
      (InternalConfig.addServer utils config line.1 line.2.1 line.2.2.1 line.2.2.2)
      rest).Config.Servers = ss
    rw [addServer_eq_setLists]
    rfl

theorem commandPaths_setLists (utils : Utils) (config : InternalConfig)
    (commands : List Command) (servers : List ServerConfig) (fuel : Nat) :
    commandPaths utils (setLists config commands servers) fuel
      = commandPaths utils config fuel := by
  simp only [commandPaths, GetFullLocalAssetFilename_setLists]
  rfl

theorem commandsOf_setLists (utils : Utils) (config : InternalConfig)
    (commands : List Command) (servers : List ServerConfig) (paths : CommandPaths) :
    commandsOf utils (setLists config commands servers) paths
      = commandsOf utils config paths := rfl

/-- The outcome of `Generate` in one expression: the directories and the files are sequences of
assignments that do not depend on the configuration, the commands need the lookups of
`registerCommands`, and the commands and servers are added in order. -/
theorem Generate_normal (utils : Utils) :
    ∃ directoryWrites : List (String × AssetDirectory),
      directoryWrites.map Prod.fst
        = (InternalConfig.assetDirectoryLines utils).map (fun line => line.name) ∧
      (utils.plain → ∀ w ∈ directoryWrites, Template.isBraceFree w.2.Directory = true) ∧
      ∀ (config : InternalConfig) (fuel : Nat) (deploymentDirectory : String),
        InternalConfig.registerAssetDirectories utils (setTarget config deploymentDirectory)
          = .ok (setDirectories (setTarget config deploymentDirectory)
              (config.Config.Assets.Directories.assign directoryWrites)) ∧
        InternalConfig.Generate utils config fuel deploymentDirectory
          = (commandPaths utils
              (setFiles (setDirectories (setTarget config deploymentDirectory)
                (config.Config.Assets.Directories.assign directoryWrites))
                (config.Config.Assets.Files.assign (fileWrites utils))) fuel).map fun paths =>
              addServers utils
                (addCommands
                  (setFiles (setDirectories (setTarget config deploymentDirectory)
                    (config.Config.Assets.Directories.assign directoryWrites))
                    (config.Config.Assets.Files.assign (fileWrites utils)))
                  (commandsOf utils
                    (setFiles (setDirectories (setTarget config deploymentDirectory)
                      (config.Config.Assets.Directories.assign directoryWrites))
                      (config.Config.Assets.Files.assign (fileWrites utils))) paths))
                (InternalConfig.serverLines utils) := by
  have helems : utils.plain → ∀ line ∈ InternalConfig.assetDirectoryLines utils,
      ∀ e ∈ line.elems, Template.isBraceFree e = true := by
    intro hplain line hline e he
    apply hplain
    simp only [Utils.pathParts, List.mem_append, List.mem_flatMap]
    exact Or.inl ⟨line, hline, he⟩
  obtain ⟨ws, hkeys, hgood, hrun⟩ := registerDirectoryLines_writes
    (fun a => utils.plain → Template.isBraceFree a.Directory = true)
    (InternalConfig.assetDirectoryLines utils) [] [] (by simp) (by simp)
    (parentsFirst_assetDirectoryLines utils)
    (by
      intro line hline _ hplain
      exact isBraceFree_Join _ (helems hplain line hline))
    (by
      intro line hline parent hparent hplain
      apply isBraceFree_Join
      intro e he
      simp only [List.mem_cons] at he
      rcases he with he | he
      · rw [he]
        exact hparent hplain
      · exact helems hplain line hline e he)
  refine ⟨ws, hkeys, fun hplain w hw => hgood w hw hplain, ?_⟩
  intro config fuel deploymentDirectory
  have hdirs := hrun (setTarget config deploymentDirectory) config.Config.Assets.Directories rfl
  simp only [List.nil_append] at hdirs
  refine ⟨hdirs, ?_⟩
  have hgen : InternalConfig.Generate utils config fuel deploymentDirectory
      = match InternalConfig.registerAssetDirectories utils
          (setTarget config deploymentDirectory) with
        | .error stop => .error stop
        | .ok config =>
          match InternalConfig.registerCommands utils
              (InternalConfig.registerAssetFiles utils config) fuel with
          | .error stop => .error stop
          | .ok config => .ok (InternalConfig.registerServers utils config) := rfl
  have hservers : ∀ c : InternalConfig, InternalConfig.registerServers utils c
      = addServers utils c (InternalConfig.serverLines utils) := fun c => rfl
  rw [hgen]
  simp only [InternalConfig.registerAssetDirectories] at hdirs ⊢
  rw [hdirs]
  simp only [registerAssetFiles_eq, registerCommands_eq, hservers, fileWrites]
  have hfiles : (setDirectories (setTarget config deploymentDirectory)
      (config.Config.Assets.Directories.assign ws)).Config.Assets.Files
        = config.Config.Assets.Files := rfl
  rw [hfiles]
  generalize commandPaths utils
      (setFiles (setDirectories (setTarget config deploymentDirectory)
        (config.Config.Assets.Directories.assign ws))
        (config.Config.Assets.Files.assign
          ((InternalConfig.assetFileLines utils).map
            fun line => (line.1, NewAssetFile line.2.1 line.2.2)))) fuel = outcome
  cases outcome with
  | error stop => simp only [Except.map]
  | ok paths => simp only [Except.map]

/-! ## `Generate` twice -/

theorem added_shape (utils : Utils) (config : InternalConfig) (commands : List Command)
    (lines : List (String × Labels × String × GoMap String)) :
    ∃ (cs : List Command) (ss : List ServerConfig),
      addServers utils (addCommands config commands) lines = setLists config cs ss ∧
      (∀ c ∈ commands, hasCommand (setLists config cs ss) c.Name = true) ∧
      (∀ line ∈ lines, hasServer (setLists config cs ss) line.1 = true) := by
  have hcommands := addCommands_eq_setLists commands config
  have hservers := addServers_eq_setLists utils lines (addCommands config commands)
  refine ⟨(addCommands config commands).Config.Commands,
    (addServers utils (addCommands config commands) lines).Config.Servers, ?_, ?_, ?_⟩
  · rw [hservers]
    generalize (addServers utils (addCommands config commands) lines).Config.Servers = ss
    rw [hcommands]
    rfl
  · intro c hc
    have h := hasCommand_addCommands commands config c.Name
      (Or.inr (List.mem_map.mpr ⟨c, hc, rfl⟩))
    exact h
  · intro line hline
    have h := hasServer_addServers utils lines (addCommands config commands) line.1
      (Or.inr (List.mem_map.mpr ⟨line, hline, rfl⟩))
    exact h

/-- C28: `Generate` is idempotent.  For every deployment directory and every configuration, a
call of `Generate` that returns leaves a configuration on which a second call with the same
directory returns the same configuration: the port of the API server, the deployment directory,
the asset directories and files, the list of commands and the list of servers are those of the
first call, so no command and no server is added a second time. -/
theorem Generate_idempotent (utils : Utils) (config : InternalConfig) (fuel : Nat)
    (deploymentDirectory : String) (generated : InternalConfig)
    (h : InternalConfig.Generate utils config fuel deploymentDirectory = .ok generated) :
    InternalConfig.Generate utils generated fuel deploymentDirectory = .ok generated ∧
    generated.Config.APIServerPort = 6443 ∧
    generated.Config.DeploymentDirectory = deploymentDirectory := by
  obtain ⟨ws, _, _, hnormal⟩ := Generate_normal utils
  generalize fileWrites utils = fw at hnormal
  generalize InternalConfig.serverLines utils = lines at hnormal
  have hfirst := (hnormal config fuel deploymentDirectory).2
  rw [hfirst] at h
  cases hpaths : commandPaths utils
      (setFiles (setDirectories (setTarget config deploymentDirectory)
        (config.Config.Assets.Directories.assign ws))
        (config.Config.Assets.Files.assign fw)) fuel with
  | error stop =>
    rw [hpaths] at h
    simp [Except.map] at h
  | ok paths =>
    rw [hpaths] at h
    simp only [Except.map, Except.ok.injEq] at h
    obtain ⟨cs, ss, hshape, hcommands, hservers⟩ := added_shape utils
      (setFiles (setDirectories (setTarget config deploymentDirectory)
        (config.Config.Assets.Directories.assign ws))
        (config.Config.Assets.Files.assign fw))
      (commandsOf utils
        (setFiles (setDirectories (setTarget config deploymentDirectory)
          (config.Config.Assets.Directories.assign ws))
          (config.Config.Assets.Files.assign fw)) paths)
      lines
    rw [hshape] at h
    subst h
    refine ⟨?_, rfl, rfl⟩
    rw [(hnormal _ fuel deploymentDirectory).2]
    have hdirs : (setLists
        (setFiles (setDirectories (setTarget config deploymentDirectory)
          (config.Config.Assets.Directories.assign ws))
          (config.Config.Assets.Files.assign fw)) cs
            ss).Config.Assets.Directories.assign ws
        = config.Config.Assets.Directories.assign ws :=
      GoMap.assign_assign ws config.Config.Assets.Directories
    have hfiles : (setLists
        (setFiles (setDirectories (setTarget config deploymentDirectory)
          (config.Config.Assets.Directories.assign ws))
          (config.Config.Assets.Files.assign fw)) cs
            ss).Config.Assets.Files.assign fw
        = config.Config.Assets.Files.assign fw :=
      GoMap.assign_assign fw config.Config.Assets.Files
    rw [hdirs, hfiles]
    have hsame : setFiles (setDirectories (setTarget
        (setLists
          (setFiles (setDirectories (setTarget config deploymentDirectory)
            (config.Config.Assets.Directories.assign ws))
            (config.Config.Assets.Files.assign fw)) cs ss)
        deploymentDirectory)
        (config.Config.Assets.Directories.assign ws))
        (config.Config.Assets.Files.assign fw)
        = setLists
          (setFiles (setDirectories (setTarget config deploymentDirectory)
            (config.Config.Assets.Directories.assign ws))
            (config.Config.Assets.Files.assign fw)) cs ss := rfl
    rw [hsame, commandPaths_setLists, hpaths]
    simp only [Except.map, commandsOf_setLists]
    rw [addCommands_of_hasCommand _ _ hcommands, addServers_of_hasServer _ _ _ hservers]

/-- Witness for C28: `Generate` on the fresh configuration with the constants of `exampleUtils`
returns, and the second call on its result returns the same configuration, with 13 commands and
9 servers. -/
theorem Generate_idempotent_witness :
    ∃ generated : InternalConfig,
      InternalConfig.Generate exampleUtils (NewInternalConfig exampleUtils "/base") 1 "/deploy"
        = .ok generated ∧
      InternalConfig.Generate exampleUtils generated 1 "/deploy" = .ok generated ∧
      generated.Config.Commands.length = 13 ∧ generated.Config.Servers.length = 9 := by
  cases hgenerate : InternalConfig.Generate exampleUtils (NewInternalConfig exampleUtils "/base")
      1 "/deploy" with
  | error stop =>
    have hok : (InternalConfig.Generate exampleUtils (NewInternalConfig exampleUtils "/base")
        1 "/deploy").toBool = true := by decide
    rw [hgenerate] at hok
    cases hok
  | ok generated =>
    have hcommands : (match InternalConfig.Generate exampleUtils
        (NewInternalConfig exampleUtils "/base") 1 "/deploy" with
        | .ok c => c.Config.Commands.length
        | .error _ => 0) = 13 := by decide
    have hservers : (match InternalConfig.Generate exampleUtils
        (NewInternalConfig exampleUtils "/base") 1 "/deploy" with
        | .ok c => c.Config.Servers.length
        | .error _ => 0) = 9 := by decide
    rw [hgenerate] at hcommands hservers
    exact ⟨generated, rfl,
      (Generate_idempotent exampleUtils (NewInternalConfig exampleUtils "/base") 1 "/deploy"
        generated hgenerate).1, hcommands, hservers⟩

/-! ## The registry after `Generate` -/

theorem fileOwners_registered (utils : Utils) :
    ∀ line ∈ InternalConfig.assetFileLines utils,
      line.2.2 ∈ (InternalConfig.assetDirectoryLines utils).map (fun l => l.name) := by
  simp [InternalConfig.assetFileLines, InternalConfig.assetDirectoryLines]

theorem commandFiles_registered (utils : Utils) :
    ∀ name ∈ [utils.KUBECTL_BINARY, utils.ADMIN_KUBECONFIG, utils.HELM_BINARY,
        utils.ETCDCTL_BINARY, utils.CA_PEM, utils.KUBERNETES_PEM, utils.KUBERNETES_KEY_PEM,
        utils.K8S_KUBELET_SETUP, utils.K8S_ADMIN_USER_SETUP, utils.K8S_HELM_USER_SETUP],
      name ∈ (InternalConfig.assetFileLines utils).map (fun l => l.1) := by
  simp [InternalConfig.assetFileLines]

theorem helmData_registered (utils : Utils) :
    utils.HELM_DATA_DIRECTORY
      ∈ (InternalConfig.assetDirectoryLines utils).map (fun l => l.name) := by
  simp [InternalConfig.assetDirectoryLines]

theorem GoMap.mem_of_get? {α : Type} (m : GoMap α) (key : String) (value : α)
    (h : m.get? key = some value) : (key, value) ∈ m := by
  induction m with
  | nil => simp [GoMap.get?, List.lookup] at h
  | cons kv rest ih =>
    obtain ⟨k, v⟩ := kv
    by_cases hk : key = k
    · subst hk
      simp only [GoMap.get?, List.lookup, beq_self_eq_true, Option.some.injEq] at h
      rw [h]
      exact List.mem_cons_self _ _
    · rw [GoMap.get?_cons_ne k key v rest hk] at h
      exact List.mem_cons_of_mem _ (ih h)

/-- The registry after the directories and the files have been registered: a file of the table
is found, and so is its owner directory, whose entry is one of the assignments of
`registerAssetDirectories`. -/
theorem registered_file_lookup (utils : Utils) (ws : List (String × AssetDirectory))
    (hkeys : ws.map Prod.fst
      = (InternalConfig.assetDirectoryLines utils).map (fun line => line.name))
    (directories : GoMap AssetDirectory) (files : GoMap AssetFile) (name : String)
    (hname : name ∈ (InternalConfig.assetFileLines utils).map (fun l => l.1)) :
    ∃ (file : AssetFile) (directory : AssetDirectory),
      (files.assign (fileWrites utils)).get? name = some file ∧
      (directories.assign ws).get? file.Directory = some directory ∧
      (file.Directory, directory) ∈ ws := by
  have hmem : name ∈ (fileWrites utils).map Prod.fst := by
    simp only [fileWrites, List.map_map]
    exact hname
  obtain ⟨kv, hkv, _, hget⟩ := GoMap.get?_assign_of_mem (fileWrites utils) name hmem
  obtain ⟨line, hline, hkvline⟩ := List.mem_map.mp hkv
  have howner : kv.2.Directory ∈ ws.map Prod.fst := by
    rw [hkeys, ← hkvline]
    exact fileOwners_registered utils line hline
  obtain ⟨w, hw, hwkey, hwget⟩ := GoMap.get?_assign_of_mem ws kv.2.Directory howner
  refine ⟨kv.2, w.2, hget files, hwget directories, ?_⟩
  rw [← hwkey]
  exact hw

theorem registered_files_owned (utils : Utils) (ws : List (String × AssetDirectory))
    (hkeys : ws.map Prod.fst
      = (InternalConfig.assetDirectoryLines utils).map (fun line => line.name))
    (directories : GoMap AssetDirectory) (files : GoMap AssetFile)
    (hold : ∀ kv ∈ files, directories.get? kv.2.Directory ≠ none) :
    ∀ kv ∈ files.assign (fileWrites utils),
      (directories.assign ws).get? kv.2.Directory ≠ none := by
  intro kv hkv
  rcases GoMap.mem_assign (fileWrites utils) files kv hkv with h | h
  · exact GoMap.get?_assign_ne_none ws directories _ (Or.inl (hold kv h))
  · obtain ⟨line, hline, hkvline⟩ := List.mem_map.mp h
    apply GoMap.get?_assign_ne_none ws directories _ (Or.inr _)
    rw [hkeys, ← hkvline]
    exact fileOwners_registered utils line hline

theorem GetRelativeAssetFilename_of_plain (utils : Utils) (config : InternalConfig)
    (fuel : Nat) (name : String) (file : AssetFile) (directory : AssetDirectory)
    (hfile : config.Config.Assets.Files.get? name = some file)
    (hdirectory : config.Config.Assets.Directories.get? file.Directory = some directory)
    (hpath : Template.isBraceFree directory.Directory = true)
    (hname : Template.isBraceFree name = true) :
    InternalConfig.GetRelativeAssetFilename utils config (fuel + 1) name
      = .ok (path.Join ["/", path.Join [directory.Directory, name]]) := by
  have hplain : Template.isPlainText (path.Join [directory.Directory, name]) = true := by
    apply isPlainText_Join
    intro e he
    simp only [List.mem_cons, List.mem_singleton, List.not_mem_nil, or_false] at he
    rcases he with he | he
    · rw [he]
      exact hpath
    · rw [he]
      exact hname
  simp [InternalConfig.GetRelativeAssetFilename, InternalConfig.relativeAssetFilename, hfile,
    hdirectory, InternalConfig.ApplyTemplate_plain _ _ _ _ _ hplain]

/-- With plain constants every lookup of `registerCommands` returns a path on the registry that
the registration of the directories and files leaves. -/
theorem commandPaths_ok (utils : Utils) (hplain : utils.plain)
    (ws : List (String × AssetDirectory))
    (hkeys : ws.map Prod.fst
      = (InternalConfig.assetDirectoryLines utils).map (fun line => line.name))
    (hws : ∀ w ∈ ws, Template.isBraceFree w.2.Directory = true)
    (config : InternalConfig) (fuel : Nat) (deploymentDirectory : String) :
    ∃ paths, commandPaths utils
      (setFiles (setDirectories (setTarget config deploymentDirectory)
        (config.Config.Assets.Directories.assign ws))
        (config.Config.Assets.Files.assign (fileWrites utils))) (fuel + 1) = .ok paths := by
  have hfile : ∀ name ∈ [utils.KUBECTL_BINARY, utils.ADMIN_KUBECONFIG, utils.HELM_BINARY,
        utils.ETCDCTL_BINARY, utils.CA_PEM, utils.KUBERNETES_PEM, utils.KUBERNETES_KEY_PEM,
        utils.K8S_KUBELET_SETUP, utils.K8S_ADMIN_USER_SETUP, utils.K8S_HELM_USER_SETUP],
      ∃ p, InternalConfig.GetFullLocalAssetFilename utils
        (setFiles (setDirectories (setTarget config deploymentDirectory)
          (config.Config.Assets.Directories.assign ws))
          (config.Config.Assets.Files.assign (fileWrites utils))) (fuel + 1) name
        = .ok p := by
    intro name hname
    have hregistered := commandFiles_registered utils name hname
    obtain ⟨file, directory, hf, hd, hmem⟩ := registered_file_lookup utils ws hkeys
      config.Config.Assets.Directories config.Config.Assets.Files name hregistered
    have hbrace : Template.isBraceFree name = true := by
      apply hplain
      simp only [Utils.pathParts, List.mem_append]
      exact Or.inr hregistered
    refine ⟨path.Join [config.BaseDirectory,
      path.Join ["/", path.Join [directory.Directory, name]]], ?_⟩
    generalize fileWrites utils = fw at hf ⊢
    simp only [InternalConfig.GetFullLocalAssetFilename]
    rw [GetRelativeAssetFilename_of_plain utils _ fuel name file directory hf hd
      (hws _ hmem) hbrace]
    rfl
  obtain ⟨w, _, _, hwget⟩ := GoMap.get?_assign_of_mem ws utils.HELM_DATA_DIRECTORY
    (by rw [hkeys]; exact helmData_registered utils)
  have hhelmData : InternalConfig.GetFullLocalAssetDirectory
      (setFiles (setDirectories (setTarget config deploymentDirectory)
        (config.Config.Assets.Directories.assign ws))
        (config.Config.Assets.Files.assign (fileWrites utils))) utils.HELM_DATA_DIRECTORY
      = .ok (path.Join [config.BaseDirectory, w.2.Directory]) := by
    generalize fileWrites utils = fw
    have hget : (setFiles (setDirectories (setTarget config deploymentDirectory)
        (config.Config.Assets.Directories.assign ws))
        (config.Config.Assets.Files.assign fw)).Config.Assets.Directories.get?
          utils.HELM_DATA_DIRECTORY = some w.2 := hwget _
    simp only [InternalConfig.GetFullLocalAssetDirectory,
      InternalConfig.GetRelativeAssetDirectory, hget]
    rfl
  obtain ⟨p1, h1⟩ := hfile utils.KUBECTL_BINARY (by simp)
  obtain ⟨p2, h2⟩ := hfile utils.ADMIN_KUBECONFIG (by simp)
  obtain ⟨p3, h3⟩ := hfile utils.HELM_BINARY (by simp)
  obtain ⟨p4, h4⟩ := hfile utils.ETCDCTL_BINARY (by simp)
  obtain ⟨p5, h5⟩ := hfile utils.CA_PEM (by simp)
  obtain ⟨p6, h6⟩ := hfile utils.KUBERNETES_PEM (by simp)
  obtain ⟨p7, h7⟩ := hfile utils.KUBERNETES_KEY_PEM (by simp)
  obtain ⟨p8, h8⟩ := hfile utils.K8S_KUBELET_SETUP (by simp)
  obtain ⟨p9, h9⟩ := hfile utils.K8S_ADMIN_USER_SETUP (by simp)
  obtain ⟨p10, h10⟩ := hfile utils.K8S_HELM_USER_SETUP (by simp)
  refine ⟨CommandPaths.mk p1 p2 p2 (path.Join [config.BaseDirectory, w.2.Directory]) p3 p4 p5
    p6 p7 p8 p9 p10, ?_⟩
  generalize fileWrites utils = fw at h1 h2 h3 h4 h5 h6 h7 h8 h9 h10 hhelmData ⊢
  simp only [commandPaths, h1, h2, h3, h4, h5, h6, h7, h8, h9, h10, hhelmData]
  rfl

/-- With plain constants `Generate` returns on every configuration, given fuel for one template
expansion. -/
theorem Generate_ok (utils : Utils) (hplain : utils.plain) (config : InternalConfig)
    (fuel : Nat) (deploymentDirectory : String) :
    ∃ generated, InternalConfig.Generate utils config (fuel + 1) deploymentDirectory
      = .ok generated := by
  obtain ⟨ws, hkeys, hgood, hnormal⟩ := Generate_normal utils
  obtain ⟨paths, hpaths⟩ := commandPaths_ok utils hplain ws hkeys (hgood hplain) config fuel
    deploymentDirectory
  rw [(hnormal config (fuel + 1) deploymentDirectory).2, hpaths]
  exact ⟨_, rfl⟩

theorem addServer_servers (utils : Utils) (first second : InternalConfig) (name : String)
    (labels : Labels) (command : String) (arguments : GoMap String)
    (h : first.Config.Servers = second.Config.Servers) :
    (InternalConfig.addServer utils first name labels command arguments).Config.Servers
      = (InternalConfig.addServer utils second name labels command arguments).Config.Servers := by
  unfold InternalConfig.addServer
  rw [h]
  split <;> simp [h]

/-- The list of servers that `addServers` leaves depends on the list of servers alone. -/
theorem addServers_servers (utils : Utils)
    (lines : List (String × Labels × String × GoMap String)) (first second : InternalConfig)
    (h : first.Config.Servers = second.Config.Servers) :
    (addServers utils first lines).Config.Servers
      = (addServers utils second lines).Config.Servers := by
  induction lines generalizing first second with
  | nil => exact h
  | cons line rest ih =>
    simp only [addServers, List.foldl_cons] at ih ⊢
    exact ih _ _ (addServer_servers utils first second _ _ _ _ h)

theorem relativeAssetFilename_reaches_expansion (apply : String → String → Except Stop String)
    (config : InternalConfig) (name : String) (file : AssetFile) (directory : AssetDirectory)
    (hfile : config.Config.Assets.Files.get? name = some file)
    (hdirectory : config.Config.Assets.Directories.get? file.Directory = some directory)
    (missing : String)
    (happly : ∀ label value, apply label value ≠ .error (.fatalMissingAssetDirectory missing)) :
    InternalConfig.relativeAssetFilename apply config name
      ≠ .error (.fatalMissingAssetDirectory missing) := by
  simp only [InternalConfig.relativeAssetFilename, hfile, hdirectory]
  cases happ : apply "asset-file" (path.Join [directory.Directory, name]) with
  | ok value => simp
  | error stop =>
    cases stop with
    | error e => simp
    | fatalMissingAssetDirectory other =>
      intro h
      simp only [Except.error.injEq, Stop.fatalMissingAssetDirectory.injEq] at h
      rw [h] at happ
      exact happly _ _ happ
    | _ => simp

/-- The configuration that `Generate` returns on a fresh configuration: the registries are those
that the assignments of the two tables leave on empty registries. -/
theorem Generate_fresh (utils : Utils) (baseDirectory deploymentDirectory : String)
    (fuel : Nat) (generated : InternalConfig)
    (h : InternalConfig.Generate utils (NewInternalConfig utils baseDirectory) fuel
      deploymentDirectory = .ok generated) :
    ∃ ws : List (String × AssetDirectory),
      ws.map Prod.fst
        = (InternalConfig.assetDirectoryLines utils).map (fun line => line.name) ∧
      (utils.plain → ∀ w ∈ ws, Template.isBraceFree w.2.Directory = true) ∧
      generated.Config.Assets.Directories = GoMap.assign [] ws ∧
      generated.Config.Assets.Files = GoMap.assign [] (fileWrites utils) ∧
      generated.Config.Servers
        = (addServers utils (NewInternalConfig utils baseDirectory)
            (InternalConfig.serverLines utils)).Config.Servers := by
  obtain ⟨ws, hkeys, hgood, hnormal⟩ := Generate_normal utils
  refine ⟨ws, hkeys, hgood, ?_⟩
  have hfirst := (hnormal (NewInternalConfig utils baseDirectory) fuel deploymentDirectory).2
  rw [hfirst] at h
  generalize fileWrites utils = fw at h ⊢
  generalize hlines : InternalConfig.serverLines utils = lines at h ⊢
  cases hpaths : commandPaths utils
      (setFiles (setDirectories (setTarget (NewInternalConfig utils baseDirectory)
        deploymentDirectory)
        ((NewInternalConfig utils baseDirectory).Config.Assets.Directories.assign ws))
        ((NewInternalConfig utils baseDirectory).Config.Assets.Files.assign fw)) fuel with
  | error stop =>
    rw [hpaths] at h
    simp [Except.map] at h
  | ok paths =>
    rw [hpaths] at h
    simp only [Except.map, Except.ok.injEq] at h
    rw [← h]
    have hcommands := addCommands_eq_setLists
      (commandsOf utils
        (setFiles (setDirectories (setTarget (NewInternalConfig utils baseDirectory)
          deploymentDirectory)
          ((NewInternalConfig utils baseDirectory).Config.Assets.Directories.assign ws))
          ((NewInternalConfig utils baseDirectory).Config.Assets.Files.assign fw)) paths)
      (setFiles (setDirectories (setTarget (NewInternalConfig utils baseDirectory)
        deploymentDirectory)
        ((NewInternalConfig utils baseDirectory).Config.Assets.Directories.assign ws))
        ((NewInternalConfig utils baseDirectory).Config.Assets.Files.assign fw))
    generalize hcs : (addCommands
      (setFiles (setDirectories (setTarget (NewInternalConfig utils baseDirectory)
        deploymentDirectory)
        ((NewInternalConfig utils baseDirectory).Config.Assets.Directories.assign ws))
        ((NewInternalConfig utils baseDirectory).Config.Assets.Files.assign fw))
      (commandsOf utils
        (setFiles (setDirectories (setTarget (NewInternalConfig utils baseDirectory)
          deploymentDirectory)
          ((NewInternalConfig utils baseDirectory).Config.Assets.Directories.assign ws))
          ((NewInternalConfig utils baseDirectory).Config.Assets.Files.assign fw))
        paths)).Config.Commands = cs at hcommands
    rw [hcommands]
    refine ⟨?_, ?_, ?_⟩
    · rw [addServers_eq_setLists]
      rfl
    · rw [addServers_eq_setLists]
      rfl
    · exact addServers_servers utils lines _ _ rfl

theorem registerAssetFiles_eq_fileWrites (utils : Utils) (config : InternalConfig) :
    InternalConfig.registerAssetFiles utils config
      = setFiles config (config.Config.Assets.Files.assign (fileWrites utils)) :=
  registerAssetFiles_eq utils config

theorem mem_assign_nil {α : Type} (writes : List (String × α)) (kv : String × α)
    (h : kv ∈ GoMap.assign [] writes) : kv ∈ writes := by
  rcases GoMap.mem_assign writes [] kv h with h | h
  · cases h
  · exact h

/-- C25: after `Generate` on a freshly created configuration the asset registry is internally
consistent: the owner directory of every registered file is a key of the directory registry, so
for a registered file `GetRelativeAssetFilename` finds the file and its directory and does not
reach its exit "missing asset directory"; with constants that are plain text it returns the
path of the file. -/
theorem Generate_registry_consistent (utils : Utils) (baseDirectory deploymentDirectory : String)
    (fuel : Nat) (generated : InternalConfig)
    (h : InternalConfig.Generate utils (NewInternalConfig utils baseDirectory) fuel
      deploymentDirectory = .ok generated) :
    (∀ kv ∈ generated.Config.Assets.Files,
      generated.Config.Assets.Directories.get? kv.2.Directory ≠ none) ∧
    (∀ (name : String) (file : AssetFile),
      generated.Config.Assets.Files.get? name = some file →
      ∃ directory, generated.Config.Assets.Directories.get? file.Directory = some directory ∧
        ∀ (apply : String → String → Except Stop String) (missing : String),
          (∀ label value, apply label value ≠ .error (.fatalMissingAssetDirectory missing)) →
          InternalConfig.relativeAssetFilename apply generated name
            ≠ .error (.fatalMissingAssetDirectory missing)) ∧
    (utils.plain → ∀ (name : String) (file : AssetFile),
      generated.Config.Assets.Files.get? name = some file →
      ∃ directory, generated.Config.Assets.Directories.get? file.Directory = some directory ∧
        ∀ expanding : Nat,
          InternalConfig.GetRelativeAssetFilename utils generated (expanding + 1) name
            = .ok (path.Join ["/", path.Join [directory.Directory, name]])) := by
  obtain ⟨ws, hkeys, hgood, hdirs, hfiles, _⟩ :=
    Generate_fresh utils baseDirectory deploymentDirectory fuel generated h
  have howned : ∀ kv ∈ generated.Config.Assets.Files,
      generated.Config.Assets.Directories.get? kv.2.Directory ≠ none := by
    rw [hdirs, hfiles]
    exact registered_files_owned utils ws hkeys [] [] (by simp)
  have hfound : ∀ (name : String) (file : AssetFile),
      generated.Config.Assets.Files.get? name = some file →
      ∃ directory, generated.Config.Assets.Directories.get? file.Directory
        = some directory := by
    intro name file hfile
    have hmem := GoMap.mem_of_get? _ name file hfile
    have hne := howned (name, file) hmem
    cases hget : generated.Config.Assets.Directories.get? file.Directory with
    | none => exact absurd hget hne
    | some directory => exact ⟨directory, rfl⟩
  refine ⟨howned, ?_, ?_⟩
  · intro name file hfile
    obtain ⟨directory, hdirectory⟩ := hfound name file hfile
    exact ⟨directory, hdirectory, fun apply missing happly =>
      relativeAssetFilename_reaches_expansion apply generated name file directory hfile
        hdirectory missing happly⟩
  · intro hplain name file hfile
    obtain ⟨directory, hdirectory⟩ := hfound name file hfile
    refine ⟨directory, hdirectory, fun expanding => ?_⟩
    have hname : Template.isBraceFree name = true := by
      have hmem := GoMap.mem_of_get? _ name file hfile
      rw [hfiles] at hmem
      have hfw := mem_assign_nil (fileWrites utils) (name, file) hmem
      obtain ⟨line, hline, hkv⟩ := List.mem_map.mp hfw
      apply hplain
      simp only [Utils.pathParts, List.mem_append, List.mem_map]
      right
      refine ⟨line, hline, ?_⟩
      have := congrArg Prod.fst hkv
      exact this
    have hpath : Template.isBraceFree directory.Directory = true := by
      have hmem := GoMap.mem_of_get? _ file.Directory directory hdirectory
      rw [hdirs] at hmem
      exact hgood hplain _ (mem_assign_nil ws _ hmem)
    exact GetRelativeAssetFilename_of_plain utils generated expanding name file directory hfile
      hdirectory hpath hname

theorem exampleUtils_plain : exampleUtils.plain := by
  unfold Utils.plain
  decide

/-- Witness for C25: `Generate` on the fresh configuration with the constants of `exampleUtils`
returns a configuration in which every file has a registered owner and the path of `kubectl`
is `/opt/k8s-tew/bin/k8s/kubectl`. -/
theorem Generate_registry_consistent_witness :
    ∃ generated : InternalConfig,
      InternalConfig.Generate exampleUtils (NewInternalConfig exampleUtils "/base") 1 "/deploy"
        = .ok generated ∧
      (∀ kv ∈ generated.Config.Assets.Files,
        generated.Config.Assets.Directories.get? kv.2.Directory ≠ none) ∧
      generated.Config.Assets.Files.length = 60 ∧
      InternalConfig.GetRelativeAssetFilename exampleUtils generated 1 "kubectl"
        = .ok "/opt/k8s-tew/bin/k8s/kubectl" := by
  cases hgenerate : InternalConfig.Generate exampleUtils (NewInternalConfig exampleUtils "/base")
      1 "/deploy" with
  | error stop =>
    have hok : (InternalConfig.Generate exampleUtils (NewInternalConfig exampleUtils "/base")
        1 "/deploy").toBool = true := by decide
    rw [hgenerate] at hok
    cases hok
  | ok generated =>
    have hfiles : (match InternalConfig.Generate exampleUtils
        (NewInternalConfig exampleUtils "/base") 1 "/deploy" with
        | .ok c => c.Config.Assets.Files.length
        | .error _ => 0) = 60 := by decide
    have hkubectl : (match InternalConfig.Generate exampleUtils
        (NewInternalConfig exampleUtils "/base") 1 "/deploy" with
        | .ok c => InternalConfig.GetRelativeAssetFilename exampleUtils c 1 "kubectl"
        | .error stop => .error stop) = .ok "/opt/k8s-tew/bin/k8s/kubectl" := by decide
    rw [hgenerate] at hfiles hkubectl
    exact ⟨generated, rfl,
      (Generate_registry_consistent exampleUtils "/base" "/deploy" 1 generated hgenerate).1,
      hfiles, hkubectl⟩

/-- C26: `Generate` on a freshly created configuration never reaches a missing-asset failure.
Every directory that a line of `registerAssetDirectories` looks up has been registered by an
earlier line, so the registration of the directories returns; on the registry that it and
`registerAssetFiles` leave, every file that `registerCommands` looks up is registered together
with its owner directory, and so is the directory that it looks up.  With constants that are
plain text `Generate` returns. -/
theorem Generate_never_misses_an_asset (utils : Utils)
    (baseDirectory deploymentDirectory : String) :
    parentsFirst [] (InternalConfig.assetDirectoryLines utils) ∧
    (∃ registered : InternalConfig,
      InternalConfig.registerAssetDirectories utils
        (setTarget (NewInternalConfig utils baseDirectory) deploymentDirectory)
          = .ok registered ∧
      (∀ name ∈ [utils.KUBECTL_BINARY, utils.ADMIN_KUBECONFIG, utils.HELM_BINARY,
          utils.ETCDCTL_BINARY, utils.CA_PEM, utils.KUBERNETES_PEM, utils.KUBERNETES_KEY_PEM,
          utils.K8S_KUBELET_SETUP, utils.K8S_ADMIN_USER_SETUP, utils.K8S_HELM_USER_SETUP],
        ∃ (file : AssetFile) (directory : AssetDirectory),
          (InternalConfig.registerAssetFiles utils registered).Config.Assets.Files.get? name
            = some file ∧
          (InternalConfig.registerAssetFiles utils registered).Config.Assets.Directories.get?
            file.Directory = some directory) ∧
      (InternalConfig.registerAssetFiles utils registered).Config.Assets.Directories.get?
        utils.HELM_DATA_DIRECTORY ≠ none) ∧
    (utils.plain → ∀ fuel : Nat,
      ∃ generated, InternalConfig.Generate utils (NewInternalConfig utils baseDirectory)
        (fuel + 1) deploymentDirectory = .ok generated ∧
        ∀ stop, InternalConfig.Generate utils (NewInternalConfig utils baseDirectory)
          (fuel + 1) deploymentDirectory = .error stop → stop.isMissingAsset = false) := by
  refine ⟨parentsFirst_assetDirectoryLines utils, ?_, ?_⟩
  · obtain ⟨ws, hkeys, _, hnormal⟩ := Generate_normal utils
    have hdirs := (hnormal (NewInternalConfig utils baseDirectory) 0 deploymentDirectory).1
    refine ⟨_, hdirs, ?_, ?_⟩
    · intro name hname
      obtain ⟨file, directory, hf, hd, _⟩ := registered_file_lookup utils ws hkeys
        (NewInternalConfig utils baseDirectory).Config.Assets.Directories
        (NewInternalConfig utils baseDirectory).Config.Assets.Files name
        (commandFiles_registered utils name hname)
      refine ⟨file, directory, ?_, ?_⟩
      · rw [registerAssetFiles_eq_fileWrites]
        generalize fileWrites utils = fw at hf ⊢
        exact hf
      · rw [registerAssetFiles_eq_fileWrites]
        generalize fileWrites utils = fw
        exact hd
    · rw [registerAssetFiles_eq_fileWrites]
      generalize fileWrites utils = fw
      have hmem : utils.HELM_DATA_DIRECTORY ∈ ws.map Prod.fst := by
        rw [hkeys]
        exact helmData_registered utils
      exact GoMap.get?_assign_ne_none ws
        (NewInternalConfig utils baseDirectory).Config.Assets.Directories
        utils.HELM_DATA_DIRECTORY (Or.inr hmem)
  · intro hplain fuel
    obtain ⟨generated, hgenerated⟩ := Generate_ok utils hplain
      (NewInternalConfig utils baseDirectory) fuel deploymentDirectory
    refine ⟨generated, hgenerated, ?_⟩
    intro stop hstop
    rw [hgenerated] at hstop
    cases hstop

/-- Witness for C26: with the constants of `exampleUtils`, which are plain text, `Generate`
returns on the fresh configuration. -/
theorem Generate_never_misses_an_asset_witness :
    exampleUtils.plain ∧
    ∃ generated, InternalConfig.Generate exampleUtils (NewInternalConfig exampleUtils "/base")
      (0 + 1) "/deploy" = .ok generated :=
  ⟨exampleUtils_plain,
   ((Generate_never_misses_an_asset exampleUtils "/base" "/deploy").2.2
      exampleUtils_plain 0).elim fun generated hgenerated => ⟨generated, hgenerated.1⟩⟩

/-! ## The templates of the generated servers -/

theorem templateReady_of_closed (config : InternalConfig) (value : String)
    (h : refersToNoAsset value = true) : templateReady config value := by
  unfold refersToNoAsset at h
  cases hparse : Template.parsePieces InternalConfig.functionNames (value.length + 1)
      value.data with
  | error stop =>
    rw [hparse] at h
    cases h
  | ok pieces =>
    rw [hparse] at h
    refine ⟨pieces, hparse, ?_⟩
    intro piece hpiece
    have hno := List.all_eq_true.mp h piece hpiece
    simp only [Bool.and_eq_true] at hno
    refine ⟨?_, hno.2⟩
    have hcall := hno.1
    cases piece with
    | text s => trivial
    | field chain => trivial
    | call function args =>
      cases args with
      | nil => trivial
      | cons a rest =>
        cases rest with
        | cons b more => trivial
        | nil =>
          simp only [Template.Piece.isAssetCall, Bool.not_eq_true', Bool.or_eq_false_iff,
            beq_eq_false_iff_ne, ne_eq] at hcall
          exact ⟨fun hf => absurd hf hcall.1, fun hd => absurd hd hcall.2⟩

theorem templateReady_file (config : InternalConfig) (name : String)
    (hname : Template.literalSafe name = true)
    (hfile : ∃ (file : AssetFile) (directory : AssetDirectory),
      config.Config.Assets.Files.get? name = some file ∧
      config.Config.Assets.Directories.get? file.Directory = some directory) :
    templateReady config (InternalConfig.GetTemplateAssetFilename name) := by
  have hparse2 : Template.parsePieces InternalConfig.functionNames
      ((InternalConfig.GetTemplateAssetFilename name).length + 1)
      (InternalConfig.GetTemplateAssetFilename name).data
        = .ok [.text "", .call "asset_file" [name], .text ""] :=
    Template.Parse_asset_file
      [("controllers_count", Template.Func.niladic fun _ => .ok ""),
       ("etcd_servers", Template.Func.niladic fun _ => .ok ""),
       ("etcd_cluster", Template.Func.niladic fun _ => .ok ""),
       ("asset_file", Template.Func.niladic fun _ => .ok ""),
       ("asset_directory", Template.Func.niladic fun _ => .ok "")] rfl name hname
  refine ⟨_, hparse2, ?_⟩
  intro piece hpiece
  simp only [List.mem_cons, List.mem_singleton, List.not_mem_nil, or_false] at hpiece
  rcases hpiece with rfl | rfl | rfl
  · exact ⟨trivial, rfl⟩
  · exact ⟨⟨fun _ => hfile, fun h => absurd h (by decide)⟩, rfl⟩
  · exact ⟨trivial, rfl⟩

theorem templateReady_directory (config : InternalConfig) (name : String)
    (hname : Template.literalSafe name = true)
    (hdirectory : config.Config.Assets.Directories.get? name ≠ none) :
    templateReady config (InternalConfig.GetTemplateAssetDirectory name) := by
  have hparse : Template.parsePieces InternalConfig.functionNames
      ((InternalConfig.GetTemplateAssetDirectory name).length + 1)
      (InternalConfig.GetTemplateAssetDirectory name).data
        = .ok [.text "", .call "asset_directory" [name], .text ""] :=
    Template.Parse_asset_directory
      [("controllers_count", Template.Func.niladic fun _ => .ok ""),
       ("etcd_servers", Template.Func.niladic fun _ => .ok ""),
       ("etcd_cluster", Template.Func.niladic fun _ => .ok ""),
       ("asset_file", Template.Func.niladic fun _ => .ok ""),
       ("asset_directory", Template.Func.niladic fun _ => .ok "")] rfl name hname
  refine ⟨_, hparse, ?_⟩
  intro piece hpiece
  simp only [List.mem_cons, List.mem_singleton, List.not_mem_nil, or_false] at hpiece
  rcases hpiece with rfl | rfl | rfl
  · exact ⟨trivial, rfl⟩
  · exact ⟨⟨fun h => absurd h (by decide), fun _ => hdirectory⟩, rfl⟩
  · exact ⟨trivial, rfl⟩

theorem templateReady_directory_then (config : InternalConfig) (name file : String)
    (hname : Template.literalSafe name = true) (hfile : Template.isBraceFree file = true)
    (hdirectory : config.Config.Assets.Directories.get? name ≠ none) :
    templateReady config (InternalConfig.GetTemplateAssetDirectory name ++ "/" ++ file) := by
  have hparse : Template.parsePieces InternalConfig.functionNames
      ((InternalConfig.GetTemplateAssetDirectory name ++ "/" ++ file).length + 1)
      (InternalConfig.GetTemplateAssetDirectory name ++ "/" ++ file).data
        = .ok [.text "", .call "asset_directory" [name], .text ("/" ++ file)] :=
    Parse_asset_directory_then
      [("controllers_count", Template.Func.niladic fun _ => .ok ""),
       ("etcd_servers", Template.Func.niladic fun _ => .ok ""),
       ("etcd_cluster", Template.Func.niladic fun _ => .ok ""),
       ("asset_file", Template.Func.niladic fun _ => .ok ""),
       ("asset_directory", Template.Func.niladic fun _ => .ok "")] rfl name file hname hfile
  refine ⟨_, hparse, ?_⟩
  intro piece hpiece
  simp only [List.mem_cons, List.mem_singleton, List.not_mem_nil, or_false] at hpiece
  rcases hpiece with rfl | rfl | rfl
  · exact ⟨trivial, rfl⟩
  · exact ⟨⟨fun h => absurd h (by decide), fun _ => hdirectory⟩, rfl⟩
  · exact ⟨trivial, rfl⟩

theorem templateReady_text_file (config : InternalConfig) (text name : String)
    (htext : Template.isBraceFree text = true) (hname : Template.literalSafe name = true)
    (hfile : ∃ (file : AssetFile) (directory : AssetDirectory),
      config.Config.Assets.Files.get? name = some file ∧
      config.Config.Assets.Directories.get? file.Directory = some directory) :
    templateReady config (text ++ InternalConfig.GetTemplateAssetFilename name) := by
  have hdata : (text ++ InternalConfig.GetTemplateAssetFilename name).data
      = text.data ++ '{' :: '{' ::
          ("asset_file \"".data ++ (name.data ++ "\"\x7d\x7d".data)) := by
    simp [InternalConfig.GetTemplateAssetFilename, String.data_append]
  have hlength : (text ++ InternalConfig.GetTemplateAssetFilename name).length + 1
      = (text.length + name.length + 16) + 1 + 1 := by
    simp only [InternalConfig.GetTemplateAssetFilename, String.length_append]
    have h1 : "\x7b\x7basset_file \"".length = 14 := by decide
    have h2 : "\"\x7d\x7d".length = 3 := by decide
    omega
  have hparse : Template.parsePieces InternalConfig.functionNames
      ((text ++ InternalConfig.GetTemplateAssetFilename name).length + 1)
      (text ++ InternalConfig.GetTemplateAssetFilename name).data
        = .ok [.text text, .call "asset_file" [name], .text ""] := by
    rw [hdata, hlength, Template.parsePieces_text_action _ _ text _ htext,
      Template.parseAction_asset_file _ (by decide) name hname]
    simp [Template.parsePieces, Template.splitAtLeftDelim]
  refine ⟨_, hparse, ?_⟩
  intro piece hpiece
  simp only [List.mem_cons, List.mem_singleton, List.not_mem_nil, or_false] at hpiece
  rcases hpiece with rfl | rfl | rfl
  · exact ⟨trivial, rfl⟩
  · exact ⟨⟨fun _ => hfile, fun h => absurd h (by decide)⟩, rfl⟩
  · exact ⟨trivial, rfl⟩

theorem Join_template_file (directory file : String) (hdirectory : '/' ∉ directory.data)
    (hfile : '/' ∉ file.data) (hname : path.isName file.data = true)
    (hdots : file.data ≠ ['.', '.']) :
    path.Join [InternalConfig.GetTemplateAssetDirectory directory, file]
      = InternalConfig.GetTemplateAssetDirectory directory ++ "/" ++ file := by
  have hfirst : (InternalConfig.GetTemplateAssetDirectory directory).data
      = '{' :: '{' :: ("asset_directory \"".data ++ (directory.data ++ "\"\x7d\x7d".data)) := by
    simp [InternalConfig.GetTemplateAssetDirectory, String.data_append]
  apply path.Join_two_names _ _ _ hfile _ hname _ hdots
  · rw [hfirst]
    intro hmem
    simp only [List.mem_cons, List.mem_append] at hmem
    rcases hmem with h | h | h | h | h
    · exact absurd h (by decide)
    · exact absurd h (by decide)
    · exact absurd h (by decide)
    · exact hdirectory h
    · exact absurd h (by decide)
  · rw [hfirst]
    simp [path.isName]
  · rw [hfirst]
    simp

theorem mem_addServers (utils : Utils)
    (lines : List (String × Labels × String × GoMap String)) (config : InternalConfig)
    (server : ServerConfig) (h : server ∈ (addServers utils config lines).Config.Servers) :
    server ∈ config.Config.Servers ∨ ∃ line ∈ lines, server = serverOf utils line := by
  induction lines generalizing config with
  | nil => exact Or.inl h
  | cons line rest ih =>
    simp only [addServers, List.foldl_cons] at ih h
    rcases ih _ h with h2 | ⟨l, hl, hserver⟩
    · unfold InternalConfig.addServer at h2
      split at h2
      · exact Or.inl h2
      · simp only [List.mem_append, List.mem_singleton] at h2
        rcases h2 with h3 | h3
        · exact Or.inl h3
        · exact Or.inr ⟨line, List.mem_cons_self _ _, h3⟩
    · exact Or.inr ⟨l, List.mem_cons_of_mem _ hl, hserver⟩

theorem templateResolved_of_ready (config : InternalConfig) (value : String)
    (h : templateReady config value) : templateResolved config value := by
  obtain ⟨pieces, hparse, hpieces⟩ := h
  exact ⟨pieces, hparse, fun piece hpiece => (hpieces piece hpiece).1⟩

set_option maxHeartbeats 4000000 in
/-- Every template of every line of `registerServers` parses and refers to registered assets
alone, on a registry that holds the files and directories of the two tables. -/
theorem serverLines_resolved (utils : Utils) (hsafe : utils.namesSafe)
    (config : InternalConfig)
    (hfiles : ∀ name ∈ (InternalConfig.assetFileLines utils).map (fun l => l.1),
      ∃ (file : AssetFile) (directory : AssetDirectory),
        config.Config.Assets.Files.get? name = some file ∧
        config.Config.Assets.Directories.get? file.Directory = some directory)
    (hdirs : ∀ name ∈ (InternalConfig.assetDirectoryLines utils).map (fun l => l.name),
      config.Config.Assets.Directories.get? name ≠ none) :
    ∀ line ∈ InternalConfig.serverLines utils,
      ∀ template ∈ (serverOf utils line).templates, templateReady config template := by
  obtain ⟨hsafeFiles, hsafeDirs, hlogging, hauditSlash, hauditBrace, hauditName, hauditDots⟩ :=
    hsafe
  have hfile : ∀ name, name ∈ (InternalConfig.assetFileLines utils).map (fun l => l.1) →
      templateReady config (InternalConfig.GetTemplateAssetFilename name) := by
    intro name hname
    obtain ⟨line, hline, hl⟩ := List.mem_map.mp hname
    exact templateReady_file config name (hl ▸ hsafeFiles line hline) (hfiles name hname)
  have hunix : ∀ name, name ∈ (InternalConfig.assetFileLines utils).map (fun l => l.1) →
      templateReady config ("unix://" ++ InternalConfig.GetTemplateAssetFilename name) := by
    intro name hname
    obtain ⟨line, hline, hl⟩ := List.mem_map.mp hname
    exact templateReady_text_file config "unix://" name (by decide)
      (hl ▸ hsafeFiles line hline) (hfiles name hname)
  have hdirectory : ∀ name,
      name ∈ (InternalConfig.assetDirectoryLines utils).map (fun l => l.name) →
      templateReady config (InternalConfig.GetTemplateAssetDirectory name) := by
    intro name hname
    obtain ⟨line, hline, hl⟩ := List.mem_map.mp hname
    exact templateReady_directory config name (hl ▸ hsafeDirs line hline) (hdirs name hname)
  have hloggingMem : utils.LOGGING_DIRECTORY
      ∈ (InternalConfig.assetDirectoryLines utils).map (fun l => l.name) := by
    simp [InternalConfig.assetDirectoryLines]
  have hloggingSafe : Template.literalSafe utils.LOGGING_DIRECTORY = true := by
    obtain ⟨line, hline, hl⟩ := List.mem_map.mp hloggingMem
    exact hl ▸ hsafeDirs line hline
  have hlog : ∀ name : String, '/' ∉ name.data → Template.isBraceFree (name ++ ".log") = true →
      templateReady config
        (path.Join [InternalConfig.GetTemplateAssetDirectory utils.LOGGING_DIRECTORY,
          name ++ ".log"]) := by
    intro name hname hbrace
    rw [logFile_join utils.LOGGING_DIRECTORY name hlogging hname]
    exact templateReady_directory_then config _ _ hloggingSafe hbrace
      (hdirs _ hloggingMem)
  have haudit : templateReady config
      (path.Join [InternalConfig.GetTemplateAssetDirectory utils.LOGGING_DIRECTORY,
        utils.AUDIT_LOG]) := by
    rw [Join_template_file utils.LOGGING_DIRECTORY utils.AUDIT_LOG hlogging hauditSlash
      hauditName hauditDots]
    exact templateReady_directory_then config _ _ hloggingSafe hauditBrace
      (hdirs _ hloggingMem)
  have hclosed : ∀ value : String, refersToNoAsset value = true →
      templateReady config value := templateReady_of_closed config
  simp only [InternalConfig.serverLines, serverOf, ServerConfig.templates, List.forall_mem_cons,
    List.map_cons, List.map_nil, List.not_mem_nil, false_implies, implies_true, and_true]
  refine ⟨⟨?_, ?_, ?_, ?_, ?_, ?_, ?_, ?_, ?_, ?_, ?_, ?_, ?_, ?_, ?_, ?_, ?_, ?_, ?_⟩,
    ⟨?_, ?_, ?_, ?_, ?_, ?_, ?_, ?_⟩,
    ⟨?_, ?_, ?_⟩,
    ⟨?_, ?_, ?_⟩,
    ⟨?_, ?_, ?_, ?_, ?_, ?_, ?_, ?_, ?_, ?_, ?_, ?_, ?_, ?_, ?_, ?_, ?_, ?_, ?_, ?_, ?_, ?_, ?_, ?_, ?_, ?_, ?_, ?_, ?_, ?_, ?_, ?_⟩,
    ⟨?_, ?_, ?_, ?_, ?_, ?_, ?_, ?_, ?_, ?_, ?_, ?_, ?_, ?_⟩,
    ⟨?_, ?_, ?_, ?_⟩,
    ⟨?_, ?_, ?_, ?_, ?_, ?_⟩,
    ⟨?_, ?_, ?_, ?_, ?_, ?_, ?_, ?_, ?_, ?_, ?_, ?_, ?_⟩⟩
  · exact hfile _ (by simp [InternalConfig.assetFileLines])
  · exact hlog _ (by decide) (by decide)
  · exact hclosed _ (by decide)
  · exact hfile _ (by simp [InternalConfig.assetFileLines])
  · exact hfile _ (by simp [InternalConfig.assetFileLines])
  · exact hfile _ (by simp [InternalConfig.assetFileLines])
  · exact hfile _ (by simp [InternalConfig.assetFileLines])
  · exact hfile _ (by simp [InternalConfig.assetFileLines])
  · exact hfile _ (by simp [InternalConfig.assetFileLines])
  · exact hclosed _ (by decide)
  · exact hclosed _ (by decide)
  · exact hclosed _ (by decide)
  · exact hclosed _ (by decide)
  · exact hclosed _ (by decide)
  · exact hclosed _ (by decide)
  · exact hclosed _ (by decide)
  · exact hclosed _ (by decide)
  · exact hclosed _ (by decide)
  · exact hdirectory _ (by simp [InternalConfig.assetDirectoryLines])
  · exact hfile _ (by simp [InternalConfig.assetFileLines])
  · exact hlog _ (by decide) (by decide)
  · exact hclosed _ (by decide)
  · exact hfile _ (by simp [InternalConfig.assetFileLines])
  · exact hfile _ (by simp [InternalConfig.assetFileLines])
  · exact hfile _ (by simp [InternalConfig.assetFileLines])
  · exact hclosed _ (by decide)
  · exact hclosed _ (by decide)
  · exact hfile _ (by simp [InternalConfig.assetFileLines])
  · exact hlog _ (by decide) (by decide)
  · exact hfile _ (by simp [InternalConfig.assetFileLines])
  · exact hfile _ (by simp [InternalConfig.assetFileLines])
  · exact hlog _ (by decide) (by decide)
  · exact hfile _ (by simp [InternalConfig.assetFileLines])
  · exact hfile _ (by simp [InternalConfig.assetFileLines])
  · exact hlog _ (by decide) (by decide)
  · exact hclosed _ (by decide)
  · exact hclosed _ (by decide)
  · exact hclosed _ (by decide)
  · exact hclosed _ (by decide)
  · exact hclosed _ (by decide)
  · exact hclosed _ (by decide)
  · exact haudit
  · exact hclosed _ (by decide)
  · exact hclosed _ (by decide)
  · exact hclosed _ (by decide)
  · exact hfile _ (by simp [InternalConfig.assetFileLines])
  · exact hclosed _ (by decide)
  · exact hclosed _ (by decide)
  · exact hfile _ (by simp [InternalConfig.assetFileLines])
  · exact hfile _ (by simp [InternalConfig.assetFileLines])
  · exact hfile _ (by simp [InternalConfig.assetFileLines])
  · exact hclosed _ (by decide)
  · exact hclosed _ (by decide)
  · exact hfile _ (by simp [InternalConfig.assetFileLines])
  · exact hfile _ (by simp [InternalConfig.assetFileLines])
  · exact hfile _ (by simp [InternalConfig.assetFileLines])
  · exact hfile _ (by simp [InternalConfig.assetFileLines])
  · exact hclosed _ (by decide)
  · exact hclosed _ (by decide)
  · exact hfile _ (by simp [InternalConfig.assetFileLines])
  · exact hclosed _ (by decide)
  · exact hclosed _ (by decide)
  · exact hfile _ (by simp [InternalConfig.assetFileLines])
  · exact hfile _ (by simp [InternalConfig.assetFileLines])
  · exact hclosed _ (by decide)
  · exact hfile _ (by simp [InternalConfig.assetFileLines])
  · exact hlog _ (by decide) (by decide)
  · exact hclosed _ (by decide)
  · exact hclosed _ (by decide)
  · exact hclosed _ (by decide)
  · exact hfile _ (by simp [InternalConfig.assetFileLines])
  · exact hfile _ (by simp [InternalConfig.assetFileLines])
  · exact hfile _ (by simp [InternalConfig.assetFileLines])
  · exact hclosed _ (by decide)
  · exact hfile _ (by simp [InternalConfig.assetFileLines])
  · exact hfile _ (by simp [InternalConfig.assetFileLines])
  · exact hclosed _ (by decide)
  · exact hclosed _ (by decide)
  · exact hclosed _ (by decide)
  · exact hfile _ (by simp [InternalConfig.assetFileLines])
  · exact hlog _ (by decide) (by decide)
  · exact hfile _ (by simp [InternalConfig.assetFileLines])
  · exact hclosed _ (by decide)
  · exact hfile _ (by simp [InternalConfig.assetFileLines])
  · exact hlog _ (by decide) (by decide)
  · exact hclosed _ (by decide)
  · exact hfile _ (by simp [InternalConfig.assetFileLines])
  · exact hclosed _ (by decide)
  · exact hclosed _ (by decide)
  · exact hfile _ (by simp [InternalConfig.assetFileLines])
  · exact hlog _ (by decide) (by decide)
  · exact hfile _ (by simp [InternalConfig.assetFileLines])
  · exact hclosed _ (by decide)
  · exact hunix _ (by simp [InternalConfig.assetFileLines])
  · exact hclosed _ (by decide)
  · exact hfile _ (by simp [InternalConfig.assetFileLines])
  · exact hclosed _ (by decide)
  · exact hclosed _ (by decide)
  · exact hclosed _ (by decide)
  · exact hclosed _ (by decide)
  · exact hdirectory _ (by simp [InternalConfig.assetDirectoryLines])
  · exact hclosed _ (by decide)

/-! ## Materialization of the generated servers -/

theorem ApplyTemplate_functions (utils : Utils) (config : InternalConfig) (fuel : Nat)
    (label value : String) :
    InternalConfig.ApplyTemplate utils config (fuel + 1) label value
      = match Template.Parse (InternalConfig.functions utils config fuel) value with
        | .error e => .error e
        | .ok template =>
          Template.Execute (InternalConfig.functions utils config fuel)
            (InternalConfig.evalField config) template := rfl

theorem evalField_known (config : InternalConfig) (chain : List String) (stop : Stop)
    (hknown : knownChains.contains chain = true)
    (h : InternalConfig.evalField config chain = .error stop) :
    stop.isReturned = true := by
  have hmem : chain ∈ knownChains := by simpa using hknown
  obtain ⟨baseDirectory, name, node, settings⟩ := config
  simp only [knownChains, List.mem_cons, List.not_mem_nil, or_false] at hmem
  cases node with
  | none =>
    rcases hmem with rfl | rfl | rfl | rfl | rfl | rfl | rfl | rfl | rfl | rfl | rfl | rfl |
      rfl | rfl | rfl | rfl <;> cases h <;> rfl
  | some node =>
    rcases hmem with rfl | rfl | rfl | rfl | rfl | rfl | rfl | rfl | rfl | rfl | rfl | rfl |
      rfl | rfl | rfl | rfl <;> cases h

theorem functions_lookup (utils : Utils) (config : InternalConfig) (fuel : Nat)
    (name : String) (f : Template.Func)
    (h : List.lookup name (InternalConfig.functions utils config fuel) = some f) :
    (name = "controllers_count" ∧
      f = .niladic fun _ => .ok (InternalConfig.controllersCount utils config)) ∨
    (name = "etcd_servers" ∧
      f = .niladic fun _ => .ok (InternalConfig.etcdServers utils config)) ∨
    (name = "etcd_cluster" ∧
      f = .niladic fun _ => .ok (InternalConfig.etcdCluster utils config)) ∨
    (name = "asset_file" ∧
      f = .unary fun asset =>
        (InternalConfig.relativeAssetFilename (InternalConfig.ApplyTemplate utils config fuel)
          config asset).map fun relative =>
            path.Join [config.Config.DeploymentDirectory, relative]) ∨
    (name = "asset_directory" ∧
      f = .unary fun asset => InternalConfig.GetFullTargetAssetDirectory config asset) := by
  unfold InternalConfig.functions at h
  by_cases h1 : name = "controllers_count"
  · subst h1
    simp only [List.lookup, beq_self_eq_true, Option.some.injEq] at h
    exact Or.inl ⟨rfl, h.symm⟩
  · have b1 : (name == "controllers_count") = false := by simpa using h1
    by_cases h2 : name = "etcd_servers"
    · subst h2
      simp only [List.lookup, b1, beq_self_eq_true, Option.some.injEq] at h
      exact Or.inr (Or.inl ⟨rfl, h.symm⟩)
    · have b2 : (name == "etcd_servers") = false := by simpa using h2
      by_cases h3 : name = "etcd_cluster"
      · subst h3
        simp only [List.lookup, b1, b2, beq_self_eq_true, Option.some.injEq] at h
        exact Or.inr (Or.inr (Or.inl ⟨rfl, h.symm⟩))
      · have b3 : (name == "etcd_cluster") = false := by simpa using h3
        by_cases h4 : name = "asset_file"
        · subst h4
          simp only [List.lookup, b1, b2, b3, beq_self_eq_true, Option.some.injEq] at h
          exact Or.inr (Or.inr (Or.inr (Or.inl ⟨rfl, h.symm⟩)))
        · have b4 : (name == "asset_file") = false := by simpa using h4
          by_cases h5 : name = "asset_directory"
          · subst h5
            simp only [List.lookup, b1, b2, b3, b4, beq_self_eq_true, Option.some.injEq] at h
            exact Or.inr (Or.inr (Or.inr (Or.inr ⟨rfl, h.symm⟩)))
          · have b5 : (name == "asset_directory") = false := by simpa using h5
            simp [List.lookup, b1, b2, b3, b4, b5] at h

theorem executePiece_not_missing (utils : Utils) (config : InternalConfig) (fuel : Nat)
    (hplain : registryPlain config) (piece : Template.Piece)
    (hresolved : assetResolved config piece) (hknown : piece.isKnown = true) (stop : Stop)
    (h : Template.executePiece (InternalConfig.functions utils config (fuel + 1))
      (InternalConfig.evalField config) piece = .error stop) :
    stop.isReturned = true := by
  cases piece with
  | text s => simp [Template.executePiece] at h
  | field chain =>
    simp only [Template.executePiece] at h
    cases hfield : InternalConfig.evalField config chain with
    | ok value =>
      rw [hfield] at h
      simp [Except.map] at h
    | error e =>
      rw [hfield] at h
      simp only [Except.map, Except.error.injEq] at h
      rw [← h]
      exact evalField_known config chain e hknown hfield
  | call name args =>
    simp only [Template.executePiece] at h
    cases hlookup : List.lookup name (InternalConfig.functions utils config (fuel + 1)) with
    | none =>
      rw [hlookup] at h
      simp only [Except.error.injEq] at h
      rw [← h]
      rfl
    | some f =>
      rw [hlookup] at h
      rcases functions_lookup utils config (fuel + 1) name f hlookup with
        ⟨_, hf⟩ | ⟨_, hf⟩ | ⟨_, hf⟩ | ⟨hname, hf⟩ | ⟨hname, hf⟩
      · subst hf
        cases args with
        | nil => simp [Except.map] at h
        | cons a rest =>
          simp only [Except.error.injEq] at h
          rw [← h]
          rfl
      · subst hf
        cases args with
        | nil => simp [Except.map] at h
        | cons a rest =>
          simp only [Except.error.injEq] at h
          rw [← h]
          rfl
      · subst hf
        cases args with
        | nil => simp [Except.map] at h
        | cons a rest =>
          simp only [Except.error.injEq] at h
          rw [← h]
          rfl
      · subst hf
        cases args with
        | nil =>
          simp only [Except.error.injEq] at h
          rw [← h]
          rfl
        | cons a rest =>
          cases rest with
          | cons b more =>
            simp only [Except.error.injEq] at h
            rw [← h]
            rfl
          | nil =>
            exfalso
            obtain ⟨file, directory, hfile, hdirectory⟩ := hresolved.1 hname
            have hbraceName := hplain.2 (a, file) (GoMap.mem_of_get? _ a file hfile)
            have hbracePath := hplain.1 (file.Directory, directory)
              (GoMap.mem_of_get? _ file.Directory directory hdirectory)
            have hok := GetRelativeAssetFilename_of_plain utils config fuel a file directory
              hfile hdirectory hbracePath hbraceName
            simp only [InternalConfig.GetRelativeAssetFilename] at hok
            simp only [hok, Except.map] at h
            cases h
      · subst hf
        cases args with
        | nil =>
          simp only [Except.error.injEq] at h
          rw [← h]
          rfl
        | cons a rest =>
          cases rest with
          | cons b more =>
            simp only [Except.error.injEq] at h
            rw [← h]
            rfl
          | nil =>
            exfalso
            have hne := hresolved.2 hname
            cases hget : config.Config.Assets.Directories.get? a with
            | none => exact hne hget
            | some directory =>
              simp only [InternalConfig.GetFullTargetAssetDirectory,
                InternalConfig.GetRelativeAssetDirectory, hget, Except.map] at h
              cases h

theorem Execute_not_missing (utils : Utils) (config : InternalConfig) (fuel : Nat)
    (hplain : registryPlain config) (pieces : List Template.Piece)
    (hpieces : ∀ piece ∈ pieces, assetResolved config piece ∧ piece.isKnown = true)
    (stop : Stop)
    (h : Template.Execute (InternalConfig.functions utils config (fuel + 1))
      (InternalConfig.evalField config) pieces = .error stop) :
    stop.isReturned = true := by
  induction pieces generalizing stop with
  | nil => simp [Template.Execute] at h
  | cons piece rest ih =>
    simp only [Template.Execute] at h
    cases hpiece : Template.executePiece (InternalConfig.functions utils config (fuel + 1))
        (InternalConfig.evalField config) piece with
    | error e =>
      rw [hpiece] at h
      simp only [Except.error.injEq] at h
      rw [← h]
      exact executePiece_not_missing utils config fuel hplain piece
        (hpieces piece (List.mem_cons_self _ _)).1 (hpieces piece (List.mem_cons_self _ _)).2
        e hpiece
    | ok s =>
      rw [hpiece] at h
      cases hrest : Template.Execute (InternalConfig.functions utils config (fuel + 1))
          (InternalConfig.evalField config) rest with
      | error e =>
        rw [hrest] at h
        simp only [Except.error.injEq] at h
        rw [← h]
        exact ih (fun p hp => hpieces p (List.mem_cons_of_mem _ hp)) e hrest
      | ok t =>
        rw [hrest] at h
        cases h

/-- On a registry with plain paths, the expansion of a template whose assets are registered
ends in no failure but an error that the expansion returns. -/
theorem ApplyTemplate_not_missing (utils : Utils) (config : InternalConfig)
    (hplain : registryPlain config) (value : String) (hready : templateReady config value)
    (fuel : Nat) (label : String) (stop : Stop)
    (h : InternalConfig.ApplyTemplate utils config (fuel + 2) label value = .error stop) :
    stop.isReturned = true := by
  obtain ⟨pieces, hparse, hpieces⟩ := hready
  have hparse2 : Template.Parse (InternalConfig.functions utils config (fuel + 1)) value
      = .ok pieces := hparse
  rw [ApplyTemplate_functions, hparse2] at h
  exact Execute_not_missing utils config fuel hplain pieces hpieces stop h

theorem appendArguments_error_source (apply : String → String → Except Stop String)
    (name : String) (arguments : GoMap String) (command : List String) (stop : Stop)
    (h : appendArguments apply name arguments command = .error stop) :
    ∃ kv ∈ arguments, apply (name ++ "." ++ kv.1) kv.2 = .error stop := by
  induction arguments generalizing command with
  | nil => simp [appendArguments] at h
  | cons kv rest ih =>
    obtain ⟨key, value⟩ := kv
    unfold appendArguments at h
    split at h
    · obtain ⟨kv, hkv, hsource⟩ := ih _ h
      exact ⟨kv, List.mem_cons_of_mem _ hkv, hsource⟩
    · cases happly : apply (name ++ "." ++ key) value with
      | error e =>
        rw [happly] at h
        simp only [Except.error.injEq] at h
        exact ⟨(key, value), List.mem_cons_self _ _, h ▸ happly⟩
      | ok newValue =>
        rw [happly] at h
        obtain ⟨kv, hkv, hsource⟩ := ih _ h
        exact ⟨kv, List.mem_cons_of_mem _ hkv, hsource⟩

/-- The materialization of a server whose templates refer to registered assets ends in no
failure but an error that the expansion returns. -/
theorem NewServerWrapper_not_missing (utils : Utils) (config : InternalConfig)
    (hplain : registryPlain config) (server : ServerConfig)
    (hready : ∀ template ∈ server.templates, templateReady config template)
    (fuel : Nat) (name : String) (stop : Stop)
    (h : NewServerWrapper utils config (fuel + 2) name server = .error stop) :
    stop.isReturned = true := by
  unfold NewServerWrapper at h
  cases hcommand : InternalConfig.ApplyTemplate utils config (fuel + 2) "command"
      server.Command with
  | error e =>
    rw [hcommand] at h
    simp only [Except.error.injEq] at h
    rw [← h]
    exact ApplyTemplate_not_missing utils config hplain _
      (hready _ (by simp [ServerConfig.templates])) fuel _ e hcommand
  | ok command =>
    rw [hcommand] at h
    simp only at h
    cases hlog : InternalConfig.ApplyTemplate utils config (fuel + 2) "LoggingDirectory"
        server.Logger.Filename with
    | error e =>
      rw [hlog] at h
      simp only [Except.error.injEq] at h
      rw [← h]
      exact ApplyTemplate_not_missing utils config hplain _
        (hready _ (by simp [ServerConfig.templates])) fuel _ e hlog
    | ok filename =>
      rw [hlog] at h
      simp only at h
      cases hargs : appendArguments (InternalConfig.ApplyTemplate utils config (fuel + 2)) name
          server.Arguments [command] with
      | ok argv =>
        rw [hargs] at h
        cases h
      | error e =>
        rw [hargs] at h
        simp only [Except.error.injEq] at h
        rw [← h]
        obtain ⟨kv, hkv, hsource⟩ := appendArguments_error_source _ name _ _ e hargs
        refine ApplyTemplate_not_missing utils config hplain kv.2 (hready kv.2 ?_) fuel _ e
          hsource
        simp only [ServerConfig.templates, List.mem_cons, List.mem_map]
        exact Or.inr (Or.inr ⟨kv, hkv, rfl⟩)


theorem Stop.not_missing_of_returned (stop : Stop) (h : stop.isReturned = true) :
    stop.isMissingAsset = false := by
  cases stop <;> first | rfl | cases h

theorem templateReady_of_same_registry (first second : InternalConfig)
    (hsame : first.Config = second.Config) (value : String)
    (h : templateReady first value) : templateReady second value := by
  obtain ⟨b1, n1, node1, c1⟩ := first
  obtain ⟨b2, n2, node2, c2⟩ := second
  simp only at hsame
  subst hsame
  exact h

theorem registryPlain_of_same_registry (first second : InternalConfig)
    (hsame : first.Config = second.Config) (h : registryPlain first) :
    registryPlain second := by
  obtain ⟨b1, n1, node1, c1⟩ := first
  obtain ⟨b2, n2, node2, c2⟩ := second
  simp only at hsame
  subst hsame
  exact h

/-- Every template of every server that `Generate` registers on a fresh configuration parses and
refers to registered assets alone. -/
theorem Generate_servers_ready (utils : Utils) (hsafe : utils.namesSafe)
    (baseDirectory deploymentDirectory : String) (fuel : Nat) (generated : InternalConfig)
    (h : InternalConfig.Generate utils (NewInternalConfig utils baseDirectory) fuel
      deploymentDirectory = .ok generated) :
    ∀ server ∈ generated.Config.Servers, ∀ template ∈ server.templates,
      templateReady generated template := by
  obtain ⟨ws, hkeys, _, hdirs, hfiles, hservers⟩ :=
    Generate_fresh utils baseDirectory deploymentDirectory fuel generated h
  have hfound : ∀ name ∈ (InternalConfig.assetFileLines utils).map (fun l => l.1),
      ∃ (file : AssetFile) (directory : AssetDirectory),
        generated.Config.Assets.Files.get? name = some file ∧
        generated.Config.Assets.Directories.get? file.Directory = some directory := by
    intro name hname
    obtain ⟨file, directory, hf, hd, _⟩ := registered_file_lookup utils ws hkeys [] [] name hname
    rw [hdirs, hfiles]
    exact ⟨file, directory, hf, hd⟩
  have hfoundDirs : ∀ name ∈ (InternalConfig.assetDirectoryLines utils).map (fun l => l.name),
      generated.Config.Assets.Directories.get? name ≠ none := by
    intro name hname
    rw [hdirs]
    apply GoMap.get?_assign_ne_none ws [] name (Or.inr _)
    rw [hkeys]
    exact hname
  intro server hserver template htemplate
  rw [hservers] at hserver
  generalize hlines : InternalConfig.serverLines utils = lines at hserver
  rcases mem_addServers utils lines _ server hserver with hold | ⟨line, hline, hline2⟩
  · cases hold
  · subst hline2
    rw [← hlines] at hline
    exact serverLines_resolved utils hsafe generated hfound hfoundDirs line hline template
      htemplate

/-- With constants that are plain text, the registry that `Generate` leaves on a fresh
configuration holds plain paths and plain file names. -/
theorem Generate_registryPlain (utils : Utils) (hplain : utils.plain)
    (baseDirectory deploymentDirectory : String) (fuel : Nat) (generated : InternalConfig)
    (h : InternalConfig.Generate utils (NewInternalConfig utils baseDirectory) fuel
      deploymentDirectory = .ok generated) : registryPlain generated := by
  obtain ⟨ws, hkeys, hgood, hdirs, hfiles, _⟩ :=
    Generate_fresh utils baseDirectory deploymentDirectory fuel generated h
  constructor
  · intro kv hkv
    rw [hdirs] at hkv
    exact hgood hplain kv (mem_assign_nil ws kv hkv)
  · intro kv hkv
    rw [hfiles] at hkv
    have hfw := mem_assign_nil (fileWrites utils) kv hkv
    obtain ⟨line, hline, hline2⟩ := List.mem_map.mp hfw
    apply hplain
    simp only [Utils.pathParts, List.mem_append, List.mem_map]
    right
    refine ⟨line, hline, ?_⟩
    have := congrArg Prod.fst hline2
    exact this

theorem exampleUtils_namesSafe : exampleUtils.namesSafe := by
  unfold Utils.namesSafe
  decide

/-- C27: after `Generate` on a freshly created configuration, whose asset names can stand
between the quotes of a placeholder, every template of every registered server (the binary
path, the log file path and the argument values) parses, every asset that an `asset_file`
placeholder of it names is a registered file with a registered owner directory, and every asset
that an `asset_directory` placeholder names is a registered directory.  With constants that are
plain text, materializing a generated server with `NewServerWrapper`, on a configuration with
the generated registry and whatever node, never ends in a missing-asset failure: it returns the
server or an error of the template expansion. -/
theorem Generate_servers_resolved (utils : Utils) (hsafe : utils.namesSafe)
    (baseDirectory deploymentDirectory : String) (fuel : Nat) (generated : InternalConfig)
    (h : InternalConfig.Generate utils (NewInternalConfig utils baseDirectory) fuel
      deploymentDirectory = .ok generated) :
    (∀ server ∈ generated.Config.Servers, ∀ template ∈ server.templates,
      templateResolved generated template) ∧
    (utils.plain → ∀ server ∈ generated.Config.Servers,
      ∀ materialized : InternalConfig, materialized.Config = generated.Config →
      ∀ (expanding : Nat) (name : String) (stop : Stop),
        NewServerWrapper utils materialized (expanding + 2) name server = .error stop →
        stop.isMissingAsset = false ∧ stop.isReturned = true) := by
  have hready := Generate_servers_ready utils hsafe baseDirectory deploymentDirectory fuel
    generated h
  refine ⟨fun server hserver template htemplate =>
    templateResolved_of_ready generated template (hready server hserver template htemplate), ?_⟩
  intro hplain server hserver materialized hsame expanding name stop hstop
  have hregistry := registryPlain_of_same_registry generated materialized hsame.symm
    (Generate_registryPlain utils hplain baseDirectory deploymentDirectory fuel generated h)
  have hreturned := NewServerWrapper_not_missing utils materialized hregistry server
    (fun template htemplate => templateReady_of_same_registry generated materialized hsame.symm
      template (hready server hserver template htemplate))
    expanding name stop hstop
  exact ⟨Stop.not_missing_of_returned stop hreturned, hreturned⟩

/-- Witness for C27: with the constants of `exampleUtils`, `Generate` returns on the fresh
configuration with nine servers, whose templates refer to registered assets alone and whose
materialization ends in no missing-asset failure. -/
theorem Generate_servers_resolved_witness :
    exampleUtils.namesSafe ∧
    ∃ generated : InternalConfig,
      InternalConfig.Generate exampleUtils (NewInternalConfig exampleUtils "/base") 1 "/deploy"
        = .ok generated ∧
      generated.Config.Servers.length = 9 ∧
      (∀ server ∈ generated.Config.Servers, ∀ template ∈ server.templates,
        templateResolved generated template) ∧
      (∀ server ∈ generated.Config.Servers, ∀ stop : Stop,
        NewServerWrapper exampleUtils generated (0 + 2) server.Name server = .error stop →
        stop.isMissingAsset = false) := by
  refine ⟨exampleUtils_namesSafe, ?_⟩
  cases hgenerate : InternalConfig.Generate exampleUtils (NewInternalConfig exampleUtils "/base")
      1 "/deploy" with
  | error stop =>
    have hok : (InternalConfig.Generate exampleUtils (NewInternalConfig exampleUtils "/base")
        1 "/deploy").toBool = true := by decide
    rw [hgenerate] at hok
    cases hok
  | ok generated =>
    have hservers : (match InternalConfig.Generate exampleUtils
        (NewInternalConfig exampleUtils "/base") 1 "/deploy" with
        | .ok c => c.Config.Servers.length
        | .error _ => 0) = 9 := by decide
    rw [hgenerate] at hservers
    have hclaim := Generate_servers_resolved exampleUtils exampleUtils_namesSafe "/base" "/deploy"
      1 generated hgenerate
    exact ⟨generated, rfl, hservers, hclaim.1, fun server hserver stop hstop =>
      (hclaim.2 exampleUtils_plain server hserver generated rfl 0 server.Name stop hstop).1⟩

/-! ## Templates that do not parse or do not execute -/

namespace Template

end Template

end K8sTew
